import Mathlib

/-!
# Moonlit report maker: payroll engine, duty roster, codecs, numbered blocks, message parser

A shallow embedding of the Apps Script sources `MoonlitDisplayCode.js`,
`MoonlitReport.js` and `MoonlitReportSmsParser.js`.

Modelling conventions.

* JavaScript strings are lists of characters (`Str`).
* JavaScript numbers are exact rationals; `NaN` is `none` where it can arise.
  The payroll arithmetic is carried out exactly. Where the result depends on the
  numbers being doubles, the header numbers of the numbered blocks are also
  modelled as doubles (`toDouble`, `nextNumIeee`), and the rounding of the
  attendance (`toFixed6`) is stated at the exact value of the double held, with
  the roster credits that lead to it also computed in doubles (`fl`,
  `attendanceCountsIeee`).
* The conversion of a number to text is a host primitive; the functions that
  render text take it as the parameter `numStr`.
* A date cell is `Option Int`: `none` is "not a Date", `some t` a Date with
  time value `t`.
* Plain JavaScript objects used as dictionaries are modelled with their own
  properties in creation order, the enumeration order of `for..in` and
  `Object.keys` (array-index keys first, ascending), and the members inherited
  from `Object.prototype` that a property read can see.
* A sheet is a function from row and column to a cell value; a column that is
  scanned or appended to is the list of its cells from the first data row down.
  Formatting of dates is a host primitive, passed as a parameter.
* The regular expressions of the message parser are values of the type `Re` and
  are run by a backtracking matcher (`matchRe`); the simpler patterns of the
  other files are modelled by dedicated functions. The pattern that
  `extractKeyFromCell` builds from its key is modelled both ways, as a literal
  scan (`extractKeyFromCell`) and compiled from the key (`extractKeyFromValue`).
-/

namespace Moonlit

/-- Text: a JavaScript string as its list of characters. -/
abbrev Str := List Char

/-- The double-quote character. -/
def dq : Char := Char.ofNat 34

/-- The backslash character. -/
def bsl : Char := Char.ofNat 92

/-- The line-feed character. -/
def nl : Char := Char.ofNat 10

/-! ## Payroll engine (`updateSalaryDisplay`, step 6 onwards) -/

/-- The record stored in `empInfo[name]` (MoonlitDisplayCode.js 375-387): every
field is `parseFloat(cell) || 0`. -/
structure EmpInfo where
  daily1 : ℚ
  daily2 : ℚ
  extraPerDay : ℚ
  soloDays : ℚ
  bakeryAllowance : ℚ
  cashAdvances : ℚ
  accounts : ℚ
  charges : ℚ
  sss : ℚ
  philhealth : ℚ
  previousBalance : ℚ
  deriving DecidableEq

/-- JavaScript `x || 0` on a number (zero is the only falsy rational). -/
def orZero (x : ℚ) : ℚ := if x = 0 then 0 else x

/-- `const totalD1 = attendance * d1;` -/
def totalD1 (info : EmpInfo) (attendance : ℚ) : ℚ := attendance * info.daily1

/-- `const totalD2 = attendance * d2;` -/
def totalD2 (info : EmpInfo) (attendance : ℚ) : ℚ := attendance * info.daily2

/-- `const sumDaily = totalD1 + totalD2;` -/
def sumDaily (info : EmpInfo) (attendance : ℚ) : ℚ :=
  totalD1 info attendance + totalD2 info attendance

/-- `const totalAdditional = extra * attendance;` -/
def totalAdditional (info : EmpInfo) (attendance : ℚ) : ℚ :=
  info.extraPerDay * attendance

/-- `const totalSolo = solo > 0 ? solo * 135 : 0;` -/
def totalSolo (info : EmpInfo) : ℚ :=
  if info.soloDays > 0 then info.soloDays * 135 else 0

/-- `const totalBakeryAllow = bakeryAllow || 0;` -/
def totalBakeryAllow (info : EmpInfo) : ℚ := orZero info.bakeryAllowance

/-- A deduction entry `{ label, value }`. -/
abbrev Deduction := Str × ℚ

/-- The array `deductionsArr` after the five conditional pushes (lines 431-436). -/
def deductionsArr (info : EmpInfo) : List Deduction :=
  let arr : List Deduction := []
  let arr := if info.cashAdvances > 0 then
    arr ++ [("Cash Advances".toList, info.cashAdvances)] else arr
  let arr := if info.accounts > 0 then
    arr ++ [("Accounts".toList, info.accounts)] else arr
  let arr := if info.charges > 0 then
    arr ++ [("Charges".toList, info.charges)] else arr
  let arr := if info.sss > 0 then
    arr ++ [("SSS".toList, info.sss)] else arr
  let arr := if info.philhealth > 0 then
    arr ++ [("Philhealth".toList, info.philhealth)] else arr
  arr

/-- `let deductionSum = 0; deductionsArr.forEach(d => deductionSum += d.value);` -/
def deductionSum (info : EmpInfo) : ℚ :=
  (deductionsArr info).foldl (fun s d => s + d.2) 0

/-- `const gross = sumDaily + totalAdditional + totalSolo + totalBakeryAllow;` -/
def gross (info : EmpInfo) (attendance : ℚ) : ℚ :=
  sumDaily info attendance + totalAdditional info attendance + totalSolo info
    + totalBakeryAllow info

/-- `const netSalary = gross - deductionSum;` -/
def netSalary (info : EmpInfo) (attendance : ℚ) : ℚ :=
  gross info attendance - deductionSum info

/-- The initial value of `line` (lines 445-449). -/
def lineBase (numStr : ℚ → Str) (empName : Str) (info : EmpInfo) (attendance : ℚ) : Str :=
  empName ++ ": ".toList ++ numStr attendance ++ " days: ".toList
    ++ numStr attendance ++ " x (daily rate 1) ".toList ++ numStr info.daily1
    ++ " + ".toList ++ numStr attendance ++ " x (daily rate 2) ".toList ++ numStr info.daily2
    ++ "= ".toList ++ numStr (totalD1 info attendance) ++ " + ".toList
    ++ numStr (totalD2 info attendance) ++ " = ".toList ++ numStr (sumDaily info attendance)

/-- The value of `line` after the three conditional additions (lines 451-460). -/
def lineAdditions (numStr : ℚ → Str) (empName : Str) (info : EmpInfo) (attendance : ℚ) : Str :=
  let line := lineBase numStr empName info attendance
  let line := if totalAdditional info attendance > 0 then
    line ++ " + (Additional) ".toList ++ numStr info.extraPerDay ++ " x ".toList
      ++ numStr attendance ++ "(=".toList ++ numStr (totalAdditional info attendance)
      ++ ")".toList
    else line
  let line := if totalSolo info > 0 then
    line ++ " + (Solo Days) 135 x ".toList ++ numStr info.soloDays ++ "(=".toList
      ++ numStr (totalSolo info) ++ ")".toList
    else line
  let line := if totalBakeryAllow info > 0 then
    line ++ " + Bakery Allowance ".toList ++ numStr (totalBakeryAllow info)
    else line
  line

/-- The value of `line` after the deductions loop and the net-salary suffix
(lines 462-465). -/
def lineNet (numStr : ℚ → Str) (empName : Str) (info : EmpInfo) (attendance : ℚ) : Str :=
  let line := lineAdditions numStr empName info attendance
  let line := (deductionsArr info).foldl
    (fun line d => line ++ " - ".toList ++ d.1 ++ " ".toList ++ numStr d.2) line
  line ++ " = Net Salary ".toList ++ numStr (netSalary info attendance)

/-- The finished cell text of one employee (lines 445-474). -/
def salaryLine (numStr : ℚ → Str) (empName : Str) (info : EmpInfo) (attendance : ℚ) : Str :=
  let line := lineNet numStr empName info attendance
  if info.previousBalance > 0 then
    let currentBalance := info.previousBalance - orZero info.cashAdvances
    line ++ [nl] ++ "Previous Balance ".toList ++ numStr info.previousBalance
      ++ " - Cash Advances ".toList ++ numStr (orZero info.cashAdvances)
      ++ " = Current Balance ".toList ++ numStr currentBalance
  else line

/-- A stand-in for the host number-to-text conversion, used to instantiate
`numStr` in closed examples; it prints the integer part in decimal and is only
ever applied to integers there. -/
def intStr (q : ℚ) : Str :=
  (if q < 0 then ['-'] else []) ++ (Nat.repr (Int.natAbs (Int.floor q))).toList

/-- The five deduction candidates in their fixed order. -/
def deductionCandidates (info : EmpInfo) : List Deduction :=
  [("Cash Advances".toList, info.cashAdvances), ("Accounts".toList, info.accounts),
   ("Charges".toList, info.charges), ("SSS".toList, info.sss),
   ("Philhealth".toList, info.philhealth)]

/-- The rendered item of one deduction. -/
def deductionItem (numStr : ℚ → Str) (d : Deduction) : Str :=
  " - ".toList ++ d.1 ++ " ".toList ++ numStr d.2


/-! ## Text primitives of the host language -/

/-- The characters removed by `String.prototype.trim`: the ECMAScript WhiteSpace
and LineTerminator code points. -/
def isJsSpace (c : Char) : Bool :=
  let n := c.toNat
  n == 9 || n == 10 || n == 11 || n == 12 || n == 13 || n == 32 || n == 160
    || n == 5760 || (8192 ≤ n && n ≤ 8202) || n == 8232 || n == 8233 || n == 8239
    || n == 8287 || n == 12288 || n == 65279

/-- The characters the regular-expression atom `.` does not match. -/
def isLineTerminator (c : Char) : Bool :=
  let n := c.toNat
  n == 10 || n == 13 || n == 8232 || n == 8233

/-- `s.trimEnd()`. -/
def jsTrimEnd (s : Str) : Str := (s.reverse.dropWhile isJsSpace).reverse

/-- `s.trim()`. -/
def jsTrim (s : Str) : Str := jsTrimEnd (s.dropWhile isJsSpace)

/-- `s.split(sep)` for a one-character separator: `cur` is the piece being read. -/
def splitCharAux (sep : Char) : Str → Str → List Str
  | [], cur => [cur]
  | c :: rest, cur =>
    if c = sep then cur :: splitCharAux sep rest [] else splitCharAux sep rest (cur ++ [c])

/-- `s.split(sep)` for a one-character separator. -/
def splitChar (sep : Char) (s : Str) : List Str := splitCharAux sep s []

/-- The value of one decimal digit. -/
def digitVal (c : Char) : Nat := c.toNat - 48

/-- The number written by a run of decimal digits. -/
def natOfDigits (s : Str) : Nat := s.foldl (fun n c => 10 * n + digitVal c) 0

/-- Whether the whole of `s` matches `\d+(\.\d+)?`. -/
def isDecimal (s : Str) : Bool :=
  let ip := s.takeWhile Char.isDigit
  let rest := s.dropWhile Char.isDigit
  !ip.isEmpty && (rest.isEmpty ||
    (rest.head? == some '.' && !(rest.drop 1).isEmpty && (rest.drop 1).all Char.isDigit))

/-- `parseFloat(s)` for a text that matches `\d+(\.\d+)?`: the integer part plus
the fraction digits scaled by their count. -/
def decimalValue (s : Str) : ℚ :=
  let ip := s.takeWhile Char.isDigit
  let fr := (s.dropWhile Char.isDigit).drop 1
  (natOfDigits ip : ℚ) + (natOfDigits fr : ℚ) / 10 ^ fr.length

/-! ## Duty-roster tokens (`updateSalaryDisplay`, lines 302-347) -/

/-- A pattern `^(.+)TAIL$`: group 1 is greedy, so the longest admissible prefix is
tried first; `pre` is the prefix read so far, `tail` decides whether the remainder
matches `TAIL$` and yields its captures. Group 1 must be non-empty and, being
matched by `.`, free of line terminators. -/
def greedyGroup {α : Type} (tail : Str → Option α) : Str → Str → Option (Str × α)
  | _, [] => none
  | pre, c :: rest =>
    match greedyGroup tail (pre ++ [c]) rest with
    | some r => some r
    | none =>
      if pre ≠ [] ∧ pre.all (fun x => !isLineTerminator x) = true then
        (tail (c :: rest)).map (fun v => (pre, v))
      else none

/-- The remainder pattern `\(HD\)$` under the flag `i` (an ASCII letter of the
pattern matches exactly its two cases). -/
def hdTail : Str → Option Unit
  | [c0, c1, c2, c3] =>
    if c0 = '(' ∧ (c1 = 'H' ∨ c1 = 'h') ∧ (c2 = 'D' ∨ c2 = 'd') ∧ c3 = ')' then some ()
    else none
  | _ => none

/-- The remainder pattern `\(XY:(\d+(\.\d+)?)\)$` under the flag `i`, where the
letters X and Y are given in both cases; yields group 2. -/
def hoursTail (x1 x2 y1 y2 : Char) : Str → Option Str
  | c0 :: c1 :: c2 :: c3 :: r =>
    if c0 = '(' ∧ (c1 = x1 ∨ c1 = x2) ∧ (c2 = y1 ∨ c2 = y2) ∧ c3 = ':'
        ∧ r.getLast? = some ')' ∧ isDecimal r.dropLast = true then
      some r.dropLast
    else none
  | _ => none

/-- A remainder pattern only accepts texts that start with the only `(` they
contain. -/
def ParenTail {α : Type} (tail : Str → Option α) : Prop :=
  ∀ b v, tail b = some v → ∃ t, b = '(' :: t ∧ '(' ∉ t

/-- `entry.match(/^(.+)\(HD\)$/i)`: group 1. -/
def hdMatch (entry : Str) : Option Str :=
  (greedyGroup hdTail [] entry).map Prod.fst

/-- `entry.match(/^(.+)\(OT:(\d+(\.\d+)?)\)$/i)`: groups 1 and 2. -/
def otMatch (entry : Str) : Option (Str × Str) :=
  greedyGroup (hoursTail 'O' 'o' 'T' 't') [] entry

/-- `entry.match(/^(.+)\(UT:(\d+(\.\d+)?)\)$/i)`: groups 1 and 2. -/
def utMatch (entry : Str) : Option (Str × Str) :=
  greedyGroup (hoursTail 'U' 'u' 'T' 't') [] entry

/-- The pair `(name, incAttendance)` computed for one roster entry by the body of
`parts.forEach` (lines 306-339). -/
def classifyEntry (entry : Str) : Str × ℚ :=
  match hdMatch entry with
  | some g1 => (jsTrim g1, 1 / 2)
  | none =>
    match otMatch entry with
    | some (g1, h) => (jsTrim g1, (12 + decimalValue h) / 12)
    | none =>
      match utMatch entry with
      | some (g1, h) => (jsTrim g1, decimalValue h / 12)
      | none => (jsTrim entry, if jsTrim entry ≠ [] then 1 else 0)

/-- `innerDuties.split(",").map(s => s.trim()).filter(s => s.length)`. -/
def rosterParts (innerDuties : Str) : List Str :=
  ((splitChar ',' innerDuties).map jsTrim).filter (fun s => decide (s.length ≠ 0))

/-! ## Plain objects used as dictionaries -/

/-- The own properties of a plain JavaScript object, in creation order. -/
abbrev JsObj (V : Type) := List (Str × V)

/-- The own property `k` of an object, if it has one. -/
def getOwn {V : Type} : JsObj V → Str → Option V
  | [], _ => none
  | (k', v') :: t, k => if k' = k then some v' else getOwn t k

/-- The assignment `o[k] = v` to an own data property: an existing property keeps
its place, a new one is created last. -/
def setOwn {V : Type} : JsObj V → Str → V → JsObj V
  | [], k, v => [(k, v)]
  | (k', v') :: t, k, v => if k' = k then (k, v) :: t else (k', v') :: setOwn t k v

/-- The property name `__proto__`. -/
def protoKey : Str := "__proto__".toList

/-- The property names every object literal inherits from `Object.prototype`;
reading one of them on an object without such an own property yields the
inherited function or accessor value, which is truthy. -/
def objectProtoNames : List Str :=
  ["constructor".toList, "toString".toList, "toLocaleString".toList, "valueOf".toList,
   "hasOwnProperty".toList, "isPrototypeOf".toList, "propertyIsEnumerable".toList,
   protoKey, "__defineGetter__".toList, "__defineSetter__".toList,
   "__lookupGetter__".toList, "__lookupSetter__".toList]

/-- The array index written by a property name, if the name is a canonical
array index (`"0"`, or digits without a leading zero, at most 2^32 - 2). -/
def arrayIndex (k : Str) : Option Nat :=
  if k ≠ [] ∧ k.all Char.isDigit = true ∧ (k = ['0'] ∨ k.head? ≠ some '0')
      ∧ natOfDigits k ≤ 4294967294 then
    some (natOfDigits k)
  else none

/-- Insertion of an indexed key into a list ascending in the index. -/
def insertIndex (x : Nat × Str) : List (Nat × Str) → List (Nat × Str)
  | [] => [x]
  | y :: t => if x.1 ≤ y.1 then x :: y :: t else y :: insertIndex x t

/-- Ascending sort of indexed keys. -/
def sortIndices : List (Nat × Str) → List (Nat × Str)
  | [] => []
  | x :: t => insertIndex x (sortIndices t)

/-- The enumeration order of the own keys (`for..in`, `Object.keys`): the array
indices in ascending numeric order, then the other names in creation order. -/
def ownKeys {V : Type} (o : JsObj V) : List Str :=
  (sortIndices (o.filterMap (fun p => (arrayIndex p.1).map (fun n => (n, p.1))))).map Prod.snd
    ++ (o.filter (fun p => (arrayIndex p.1).isNone)).map Prod.fst

/-! ## Quoted sub-fields: the scan `LIT"([^"]*)"` -/

/-- A match of `LIT"([^"]*)"` anchored at the start of `s`, for a literal text
`LIT`; yields group 1. The class `[^"]*` is greedy and must be followed by a
quote, so group 1 is the text up to the next quote, and there is no match when no
quote follows. -/
def quotedAt (lit : Str) (s : Str) : Option Str :=
  if (lit ++ [dq]).isPrefixOf s then
    let rest := s.drop (lit.length + 1)
    if (rest.dropWhile (fun c => c != dq)).isEmpty then none
    else some (rest.takeWhile (fun c => c != dq))
  else none

/-- `s.match(/LIT"([^"]*)"/)`: group 1 of the leftmost match. -/
def findQuoted (lit : Str) : Str → Option Str
  | [] => quotedAt lit []
  | c :: rest =>
    match quotedAt lit (c :: rest) with
    | some v => some v
    | none => findQuoted lit rest

/-! ## Attendance accumulation (`updateSalaryDisplay`, step 4) -/

/-- A value held in `attendanceCounts`: a number, or the text produced when `+=`
is applied to a value that is not a number. -/
inductive AttVal where
  | num (q : ℚ)
  | text
  deriving DecidableEq

/-- The statements
`if (!attendanceCounts[name]) attendanceCounts[name] = 0;`
`attendanceCounts[name] += incAttendance;` (lines 342-345). -/
def creditAttendance (counts : JsObj AttVal) (name : Str) (inc : ℚ) : JsObj AttVal :=
  let counts :=
    match getOwn counts name with
    | some (AttVal.num q) => if q = 0 then setOwn counts name (AttVal.num 0) else counts
    | some AttVal.text => counts
    | none => if name ∈ objectProtoNames then counts else setOwn counts name (AttVal.num 0)
  match getOwn counts name with
  | some (AttVal.num q) => setOwn counts name (AttVal.num (q + inc))
  | some AttVal.text => setOwn counts name AttVal.text
  | none => if name = protoKey then counts else setOwn counts name AttVal.text

/-- The body of `parts.forEach` for one entry (lines 305-347). -/
def creditEntry (counts : JsObj AttVal) (entry : Str) : JsObj AttVal :=
  let r := classifyEntry entry
  if r.1 ≠ [] then creditAttendance counts r.1 r.2 else counts

/-- A row of `dataValues`: column A (`none` when it is not a Date) and the text of
column F. -/
structure DataRow where
  dateVal : Option Int
  duties : Str
  deriving DecidableEq

/-- `m && m[1] ? m[1].trim() : ""` for `m = rawDuties.match(/duties="([^"]*)"/)`. -/
def innerDuties (rawDuties : Str) : Str :=
  match findQuoted "duties=".toList rawDuties with
  | some m1 => if m1 ≠ [] then jsTrim m1 else []
  | none => []

/-- One iteration of the loop over `dataValues` (lines 286-348). -/
def attendanceRow (startDate endDate : Int) (counts : JsObj AttVal) (row : DataRow) :
    JsObj AttVal :=
  match row.dateVal with
  | none => counts
  | some d =>
    if d < startDate ∨ d > endDate then counts
    else
      let inner := innerDuties row.duties
      if inner = [] then counts
      else (rosterParts inner).foldl creditEntry counts

/-- The object `attendanceCounts` after the loop over `dataValues`. -/
def attendanceCounts (startDate endDate : Int) (dataValues : List DataRow) : JsObj AttVal :=
  dataValues.foldl (attendanceRow startDate endDate) []

/-- The credits a row is due: the classified entries of its roster with a
non-empty name, when the row carries a date `d` with `startDate ≤ d ≤ endDate`. -/
def rowCredits (startDate endDate : Int) (row : DataRow) : List (Str × ℚ) :=
  match row.dateVal with
  | none => []
  | some d =>
    if startDate ≤ d ∧ d ≤ endDate then
      ((rosterParts (innerDuties row.duties)).map classifyEntry).filter
        (fun p => decide (p.1 ≠ []))
    else []

/-- The increments due to the employee `n` over the rows, in order. -/
def creditsOf (startDate endDate : Int) (dataValues : List DataRow) (n : Str) : List ℚ :=
  (((dataValues.map (rowCredits startDate endDate)).flatten).filter
    (fun p => decide (p.1 = n))).map Prod.snd

/-- The effect of one credit on the value held for a name. -/
def bump (cur : Option AttVal) (inc : ℚ) : Option AttVal :=
  match cur with
  | some (AttVal.num q) => some (AttVal.num (q + inc))
  | some AttVal.text => some AttVal.text
  | none => some (AttVal.num (0 + inc))

/-- The effect of one classified entry on the value held for the name `n`. -/
def stepVal (n : Str) (cur : Option AttVal) (r : Str × ℚ) : Option AttVal :=
  if r.1 ≠ [] ∧ r.1 = n then bump cur r.2 else cur

/-! ## Rate table and output rows (`updateSalaryDisplay`, steps 5 and 6) -/

/-- A row of `empValues`: the text of column A and `parseFloat` of columns B-L
(`none` is `NaN`). -/
structure EmpRow where
  name : Str
  daily1 : Option ℚ
  daily2 : Option ℚ
  extraPerDay : Option ℚ
  soloDays : Option ℚ
  bakeryAllowance : Option ℚ
  cashAdvances : Option ℚ
  accounts : Option ℚ
  charges : Option ℚ
  sss : Option ℚ
  philhealth : Option ℚ
  previousBalance : Option ℚ
  deriving DecidableEq

/-- `parseFloat(cell) || 0`. -/
def cellOrZero (c : Option ℚ) : ℚ :=
  match c with
  | some q => orZero q
  | none => 0

/-- The record built from a row (lines 375-387). -/
def toInfo (row : EmpRow) : EmpInfo where
  daily1 := cellOrZero row.daily1
  daily2 := cellOrZero row.daily2
  extraPerDay := cellOrZero row.extraPerDay
  soloDays := cellOrZero row.soloDays
  bakeryAllowance := cellOrZero row.bakeryAllowance
  cashAdvances := cellOrZero row.cashAdvances
  accounts := cellOrZero row.accounts
  charges := cellOrZero row.charges
  sss := cellOrZero row.sss
  philhealth := cellOrZero row.philhealth
  previousBalance := cellOrZero row.previousBalance

/-- The object `empInfo`: its own properties and, when an assignment to the name
`__proto__` has replaced it, the record that serves as its prototype. -/
structure EmpTable where
  own : JsObj EmpInfo
  proto : Option EmpInfo

/-- One iteration of `empValues.forEach` (lines 372-388). -/
def empInfoRow (tbl : EmpTable) (row : EmpRow) : EmpTable :=
  let name := jsTrim row.name
  if name = [] then tbl
  else if name = protoKey then { tbl with proto := some (toInfo row) }
  else { tbl with own := setOwn tbl.own name (toInfo row) }

/-- The object `empInfo` after the loop. -/
def buildEmpInfo (empValues : List EmpRow) : EmpTable :=
  empValues.foldl empInfoRow ⟨[], none⟩

/-- The field of a record read through a property name. -/
def infoField (p : EmpInfo) (k : Str) : Option ℚ :=
  if k = "daily1".toList then some p.daily1
  else if k = "daily2".toList then some p.daily2
  else if k = "extraPerDay".toList then some p.extraPerDay
  else if k = "soloDays".toList then some p.soloDays
  else if k = "bakeryAllowance".toList then some p.bakeryAllowance
  else if k = "cashAdvances".toList then some p.cashAdvances
  else if k = "accounts".toList then some p.accounts
  else if k = "charges".toList then some p.charges
  else if k = "sss".toList then some p.sss
  else if k = "philhealth".toList then some p.philhealth
  else if k = "previousBalance".toList then some p.previousBalance
  else none

/-- What `empInfo[empName]` evaluates to, as far as the loop body can tell. -/
inductive InfoLookup where
  | found (info : EmpInfo)
  | other
  | missing

/-- The read `empInfo[empName]`: an own record; else a value seen through the
prototype chain (the prototype record itself under the name `__proto__`, a
non-zero field of it, or a member of `Object.prototype`), which is truthy but
has none of the fields; else `undefined`. -/
def lookupInfo (tbl : EmpTable) (empName : Str) : InfoLookup :=
  match getOwn tbl.own empName with
  | some info => InfoLookup.found info
  | none =>
    match tbl.proto with
    | some p =>
      if empName = protoKey then InfoLookup.found p
      else
        match infoField p empName with
        | some q => if q = 0 then InfoLookup.missing else InfoLookup.other
        | none =>
          if empName ∈ objectProtoNames then InfoLookup.other else InfoLookup.missing
    | none => if empName ∈ objectProtoNames then InfoLookup.other else InfoLookup.missing

/-- `parseFloat(att.toFixed(6))` for the accumulated attendance `att`, a double
that is given by its exact value. `toFixed(6)` prints the decimal with six
fraction digits nearest to that value, the one farther from zero when two are
equally near, and at magnitude 10^21 or more the number itself; the result is
the value of the printed text. -/
def toFixed6 (att : ℚ) : ℚ :=
  if att ≥ 10 ^ 21 ∨ att ≤ -(10 ^ 21) then att
  else if att < 0 then -((Int.floor (-att * 10 ^ 6 + 1 / 2) : ℚ) / 10 ^ 6)
  else (Int.floor (att * 10 ^ 6 + 1 / 2) : ℚ) / 10 ^ 6

/-- The cell text built when `info` is a truthy value without the record fields:
every field reads `undefined`, so the rates print as `undefined` and the amounts
as `NaN`, and no optional term passes its `> 0` guard. -/
def otherLine (numStr : ℚ → Str) (empName : Str) (attendance : ℚ) : Str :=
  empName ++ ": ".toList ++ numStr attendance ++ " days: ".toList
    ++ numStr attendance ++ " x (daily rate 1) ".toList ++ "undefined".toList
    ++ " + ".toList ++ numStr attendance ++ " x (daily rate 2) ".toList ++ "undefined".toList
    ++ "= ".toList ++ "NaN".toList ++ " + ".toList ++ "NaN".toList ++ " = ".toList
    ++ "NaN".toList ++ " = Net Salary ".toList ++ "NaN".toList

/-- The loop `Object.keys(attendanceCounts).forEach(...)` over the remaining keys
(lines 392-477): the rows pushed to `output`, or `none` when `att.toFixed` is
called on a value that is not a number, which throws and ends the run before
anything is written. -/
def salaryRowsAux (numStr : ℚ → Str) (counts : JsObj AttVal) (tbl : EmpTable) :
    List Str → Option (List Str)
  | [] => some []
  | empName :: ks =>
    match getOwn counts empName with
    | some (AttVal.num att) =>
      let attendance := toFixed6 att
      match lookupInfo tbl empName with
      | InfoLookup.found info =>
        (salaryRowsAux numStr counts tbl ks).map
          (fun out => salaryLine numStr empName info attendance :: out)
      | InfoLookup.other =>
        (salaryRowsAux numStr counts tbl ks).map
          (fun out => otherLine numStr empName attendance :: out)
      | InfoLookup.missing => salaryRowsAux numStr counts tbl ks
    | some AttVal.text => none
    | none => none

/-- The rows of `output` for an attendance object and a rate table. -/
def salaryRows (numStr : ℚ → Str) (counts : JsObj AttVal) (tbl : EmpTable) :
    Option (List Str) :=
  salaryRowsAux numStr counts tbl (ownKeys counts)

/-- The rows `updateSalaryDisplay` writes from E4 down, given valid dates in A2
and B2: nothing when there is no data row or no rate row (the early returns),
otherwise `output`; `none` when the run throws. -/
def updateSalaryDisplayRows (numStr : ℚ → Str) (startDate endDate : Int)
    (dataValues : List DataRow) (empValues : List EmpRow) : Option (List Str) :=
  if dataValues = [] then some []
  else
    let counts := attendanceCounts startDate endDate dataValues
    if empValues.isEmpty then some []
    else salaryRows numStr counts (buildEmpInfo empValues)

/-- The last rate row whose trimmed, non-empty name is `k`. -/
def rateRowFor : List EmpRow → Str → Option EmpRow
  | [], _ => none
  | r :: t, k =>
    match rateRowFor t k with
    | some x => some x
    | none => if jsTrim r.name = k ∧ k ≠ [] then some r else none

/-- The output row due to the attended employee `k`, if any. -/
def rowFor (numStr : ℚ → Str) (counts : JsObj AttVal) (empValues : List EmpRow) (k : Str) :
    Option Str :=
  match getOwn counts k, rateRowFor empValues k with
  | some (AttVal.num att), some r => some (salaryLine numStr k (toInfo r) (toFixed6 att))
  | _, _ => none

/-! ## Composite-string codec (`MoonlitReport.js`) -/

/-- `lines.join(sep)`. -/
def joinWith (sep : Str) : List Str → Str
  | [] => []
  | [l] => l
  | l :: m :: t => l ++ sep ++ joinWith sep (m :: t)

/-- The loop `while (lines.length > 0 && lines[lines.length - 1] === '') lines.pop();`. -/
def popTrailingBlanks (lines : List Str) : List Str :=
  (lines.reverse.dropWhile (fun l => decide (l = []))).reverse

/-- `gatherLinesKeepBlanks_` (MoonlitReport.js 165-177) on the texts `String(val)`
of the cells it reads: trailing blanks are popped and the rest is joined with
the two characters backslash, `n`. -/
def gatherLinesKeepBlanks_ (values : List Str) : Str :=
  joinWith [bsl, 'n'] (popTrailingBlanks values)

/-- `text.split('\\n')`: the split at every occurrence, left to right, of the two
characters backslash, `n`; `cur` is the piece being read. -/
def splitEscAux : Str → Str → List Str
  | [], cur => [cur]
  | [c], cur => [cur ++ [c]]
  | c :: d :: rest, cur =>
    if c = bsl ∧ d = 'n' then cur :: splitEscAux rest []
    else splitEscAux (d :: rest) (cur ++ [c])

/-- `text.split('\\n')`, the lines `placeLinesInColumn` writes (lines 380-382). -/
def splitEsc (text : Str) : List Str := splitEscAux text []

/-- The text of column D built by `updateMoonlitData` (lines 98-104). -/
def colDString (expensesam expensespm inouts bills pulloutsam pulloutspm : Str) : Str :=
  let s : Str := []
  let s := s ++ "expensesam=".toList ++ [dq] ++ expensesam ++ [dq] ++ "; ".toList
  let s := s ++ "expensespm=".toList ++ [dq] ++ expensespm ++ [dq] ++ "; ".toList
  let s := s ++ "inouts=".toList ++ [dq] ++ inouts ++ [dq] ++ "; ".toList
  let s := s ++ "bills=".toList ++ [dq] ++ bills ++ [dq] ++ "; ".toList
  let s := s ++ "pulloutsam=".toList ++ [dq] ++ pulloutsam ++ [dq] ++ "; ".toList
  let s := s ++ "pulloutspm=".toList ++ [dq] ++ pulloutspm ++ [dq] ++ ";".toList
  s

/-- The text of column H built by `updateMoonlitData` (lines 142-147). -/
def colHString (totaldeposit absences accountsam accountspm coffeesales : Str) : Str :=
  let s : Str := []
  let s := s ++ "totaldeposit=".toList ++ [dq] ++ totaldeposit ++ [dq] ++ "; ".toList
  let s := s ++ "absences=".toList ++ [dq] ++ absences ++ [dq] ++ "; ".toList
  let s := s ++ "accountsam=".toList ++ [dq] ++ accountsam ++ [dq] ++ "; ".toList
  let s := s ++ "accountspm=".toList ++ [dq] ++ accountspm ++ [dq] ++ "; ".toList
  let s := s ++ "coffeesales=".toList ++ [dq] ++ coffeesales ++ [dq]
  s

/-- `extractKeyFromCell(text, key)` (MoonlitDisplayCode.js 214-221) for a text cell
and a key without regular-expression metacharacters, as all keys passed in the
sources are: group 1 of the leftmost match of `key="([^"]*)"`, else the empty
text. -/
def extractKeyFromCell (text key : Str) : Str :=
  match findQuoted (key ++ ['=']) text with
  | some m1 => m1
  | none => []

/-- The names of the quoted sub-fields of column D. -/
def colDKeys : List Str :=
  ["expensesam".toList, "expensespm".toList, "inouts".toList, "bills".toList,
   "pulloutsam".toList, "pulloutspm".toList]

/-- The names of the quoted sub-fields of column H. -/
def colHKeys : List Str :=
  ["totaldeposit".toList, "absences".toList, "accountsam".toList, "accountspm".toList,
   "coffeesales".toList]

/-- The text made of the quoted pairs `pre`, each closed by `; `, then the pair
`lit"v"` and an arbitrary remainder; `lead` is what precedes the first name. -/
def quotedUpTo (lit v rest : Str) : Str → List (Str × Str) → Str
  | lead, [] => lead ++ lit ++ dq :: (v ++ dq :: rest)
  | lead, f :: pre =>
    (lead ++ f.1 ++ ['=']) ++ dq :: (f.2 ++ dq :: quotedUpTo lit v rest "; ".toList pre)

/-- The pairs that precede `k` cannot be mistaken for it: they are free of
quotes, no value ends in `k=`, and `k` is no suffix of `; ` plus a name. -/
def PreOk (k : Str) (pre : List (Str × Str)) : Prop :=
  ∀ f ∈ pre, dq ∉ f.1 ∧ dq ∉ f.2 ∧ ¬ (k ++ ['=']) <:+ f.2
    ∧ ¬ (k ++ ['=']) <:+ ("; ".toList ++ f.1 ++ ['='])

/-! ## Accounts aggregation (`updateMoonlitAccounts`) -/

/-- `s.replace(/\\n/g, "\n")`: every occurrence of the two characters backslash,
`n` becomes a line feed. -/
def unescapeNl : Str → Str
  | [] => []
  | [c] => [c]
  | c :: d :: rest =>
    if c = bsl ∧ d = 'n' then nl :: unescapeNl rest else c :: unescapeNl (d :: rest)

/-- The value of `accountsam` / `accountspm` after lines 61-70: the extracted
sub-field, unescaped and trimmed when it is not empty. -/
def accountsText (text key : Str) : Str :=
  let a := extractKeyFromCell text key
  if a ≠ [] then jsTrim (unescapeNl a) else a

/-- `accountsamLines` / `accountspmLines` (lines 73-74). -/
def accountLines (text key : Str) : List Str :=
  let a := accountsText text key
  if a ≠ [] then (splitChar nl a).filter (fun l => decide (jsTrim l ≠ [])) else []

/-- `processLine(line)` (lines 77-87) on the object `totals`; `parseFloat` is the
host function (`none` for `NaN`). The result is `none` when the call throws:
for a name inherited from `Object.prototype` the test `!totals[name]` is false
and the inherited value has no `push`. -/
def processLine (parseFloat : Str → Option ℚ) (totals : JsObj (List ℚ)) (line : Str) :
    Option (JsObj (List ℚ)) :=
  match splitChar '=' line with
  | [p0, p1] =>
    let name := jsTrim p0
    match parseFloat (jsTrim p1) with
    | some value =>
      match getOwn totals name with
      | some amounts => some (setOwn totals name (amounts ++ [value]))
      | none =>
        if name ∈ objectProtoNames then none
        else some (setOwn totals name ([] ++ [value]))
    | none => some totals
  | _ => some totals

/-- `lines.forEach(processLine)`. -/
def processLines (parseFloat : Str → Option ℚ) :
    JsObj (List ℚ) → List Str → Option (JsObj (List ℚ))
  | totals, [] => some totals
  | totals, l :: ls =>
    match processLine parseFloat totals l with
    | some t => processLines parseFloat t ls
    | none => none

/-- A row of `dataValues` in `updateMoonlitAccounts`: column A (`none` when it is
not a Date) and column H (`none` when it is not a string). -/
structure AccountsRow where
  dateVal : Option Int
  colH : Option Str
  deriving DecidableEq

/-- The text of column H after `if (typeof text !== "string") text = "";`. -/
def rowText (row : AccountsRow) : Str :=
  match row.colH with
  | some t => t
  | none => []

/-- The effect of one iteration of the loop over `dataValues` on `totals`
(lines 47-89). -/
def accountsRow (parseFloat : Str → Option ℚ) (startDate endDate : Int)
    (totals : JsObj (List ℚ)) (row : AccountsRow) : Option (JsObj (List ℚ)) :=
  match row.dateVal with
  | none => some totals
  | some d =>
    if d < startDate ∨ d > endDate then some totals
    else
      match processLines parseFloat totals (accountLines (rowText row) "accountsam".toList) with
      | some t => processLines parseFloat t (accountLines (rowText row) "accountspm".toList)
      | none => none

/-- The object `totals` after the loop over `dataValues`, `none` when the run
throws. -/
def accountsTotalsFrom (parseFloat : Str → Option ℚ) (startDate endDate : Int) :
    JsObj (List ℚ) → List AccountsRow → Option (JsObj (List ℚ))
  | totals, [] => some totals
  | totals, r :: rs =>
    match accountsRow parseFloat startDate endDate totals r with
    | some t => accountsTotalsFrom parseFloat startDate endDate t rs
    | none => none

/-- The object `totals` after the loop, starting from `{}`. -/
def accountsTotals (parseFloat : Str → Option ℚ) (startDate endDate : Int)
    (dataValues : List AccountsRow) : Option (JsObj (List ℚ)) :=
  accountsTotalsFrom parseFloat startDate endDate [] dataValues

/-- The text `totalsOutput` (lines 127-136). -/
def totalsOutput (numStr : ℚ → Str) (totals : JsObj (List ℚ)) : Str :=
  let out := (ownKeys totals).foldl
    (fun out key =>
      match getOwn totals key with
      | some amounts =>
        out ++ key ++ ": ".toList ++ joinWith ['+'] (amounts.map numStr) ++ " = ".toList
          ++ numStr (amounts.foldl (fun a b => a + b) 0) ++ [nl]
      | none => out)
    ("Total Accounts :".toList ++ [nl, nl])
  jsTrim out

/-- The account entry a line stands for: `Name=number` with exactly one `=` and a
value that parses. -/
def lineEntry (parseFloat : Str → Option ℚ) (line : Str) : Option (Str × ℚ) :=
  match splitChar '=' line with
  | [p0, p1] => (parseFloat (jsTrim p1)).map (fun v => (jsTrim p0, v))
  | _ => none

/-- The account entries of one row in encounter order: AM lines, then PM lines,
when the row carries a date `d` with `startDate ≤ d ≤ endDate`. -/
def rowEntries (parseFloat : Str → Option ℚ) (startDate endDate : Int) (row : AccountsRow) :
    List (Str × ℚ) :=
  match row.dateVal with
  | none => []
  | some d =>
    if startDate ≤ d ∧ d ≤ endDate then
      (accountLines (rowText row) "accountsam".toList
        ++ accountLines (rowText row) "accountspm".toList).filterMap (lineEntry parseFloat)
    else []

/-- All account entries in encounter order (rows in sheet order). -/
def accountEntries (parseFloat : Str → Option ℚ) (startDate endDate : Int)
    (dataValues : List AccountsRow) : List (Str × ℚ) :=
  (dataValues.map (rowEntries parseFloat startDate endDate)).flatten

/-- The distinct names of a list in order of first occurrence. -/
def firstSeen : List Str → List Str
  | [] => []
  | n :: t => n :: (firstSeen t).filter (fun m => decide (m ≠ n))

/-- The amounts entered under the name `n`, in encounter order. -/
def amountsOf (entries : List (Str × ℚ)) (n : Str) : List ℚ :=
  (entries.filter (fun e => decide (e.1 = n))).map Prod.snd

/-- The line `Name: n1+n2+...+nk = sum` with its line feed. -/
def totalLine (numStr : ℚ → Str) (n : Str) (amounts : List ℚ) : Str :=
  n ++ ": ".toList ++ joinWith ['+'] (amounts.map numStr) ++ " = ".toList
    ++ numStr amounts.sum ++ [nl]

/-- A stand-in for the host `parseFloat`, used in closed examples on texts of the
form `\d+(\.\d+)?`, where it agrees with it. -/
def decimalParse (s : Str) : Option ℚ :=
  if isDecimal s = true then some (decimalValue s) else none

/-- The effect of one account entry on `totals`: the amount is pushed onto the
array of its name, which is created last when the name is new. -/
def pushEntry (totals : JsObj (List ℚ)) (e : Str × ℚ) : JsObj (List ℚ) :=
  match getOwn totals e.1 with
  | some amounts => setOwn totals e.1 (amounts ++ [e.2])
  | none => setOwn totals e.1 [e.2]

/-- Records on three dates holding `Jeanny=10` and `Nina=80`, then `Jeanny=5`,
then `Nina=100`, as column H stores them. -/
def accountsExample : List AccountsRow :=
  [⟨some 1, some (colHString [] []
      ("Jeanny=10".toList ++ [bsl, 'n'] ++ "Nina=80".toList) [] [])⟩,
   ⟨some 2, some (colHString [] [] "Jeanny=5".toList [] [])⟩,
   ⟨some 3, some (colHString [] [] "Nina=100".toList [] [])⟩]


/-! ## Date records of the data sheet (`findOrCreateDateRow`, MoonlitReport.js 486-507) -/

/-- A row of the sheet `MoonlitData`: `aTime` is `new Date(cell).getTime()` for the
cell of column A (`none` when it is `NaN`, as for a blank cell), the other fields
are the texts of columns B to H. -/
structure LedgerRow where
  aTime : Option Int
  colB : Str
  colC : Str
  colD : Str
  colE : Str
  colF : Str
  colG : Str
  colH : Str
  deriving DecidableEq

/-- The constant `defaultDValue`. -/
def defaultDValue : Str :=
  "expensesam=".toList ++ [dq, dq] ++ "; expensespm=".toList ++ [dq, dq]
    ++ "; inouts=".toList ++ [dq, dq] ++ "; bills=".toList ++ [dq, dq]
    ++ "; pulloutsam=".toList ++ [dq, dq] ++ "; pulloutspm=".toList ++ [dq, dq] ++ ";".toList

/-- The text written to column F of a new row. -/
def defaultFValue : Str := "duties=".toList ++ [dq, dq]

/-- The constant `defaultHValue`; each escape of the source literal is the two
characters backslash, `n`. -/
def defaultHValue : Str :=
  "totaldeposit=".toList ++ [dq] ++ "Sales AM: ".toList ++ [bsl, 'n']
    ++ "Sales PM: ".toList ++ [bsl, 'n'] ++ "Coffee Sales: ".toList ++ [bsl, 'n']
    ++ "NS:".toList ++ [bsl, 'n', bsl, 'n'] ++ "Total Sales:".toList ++ [bsl, 'n', bsl, 'n']
    ++ "Total Previous:".toList ++ [bsl, 'n'] ++ "Expenses:".toList ++ [bsl, 'n']
    ++ "Grand Net Total:".toList ++ [bsl, 'n'] ++ "Deposited (Y or N):".toList ++ [dq]
    ++ "; absences=".toList ++ [dq, dq] ++ "; accountsam=".toList ++ [dq, dq]
    ++ "; accountspm=".toList ++ [dq, dq] ++ "; coffeesales=".toList ++ [dq]
    ++ "Sales: ".toList ++ [bsl, 'n'] ++ "CupsEnd: ".toList ++ [bsl, 'n']
    ++ "Coffee: ".toList ++ [bsl, 'n'] ++ "Choco: ".toList ++ [bsl, 'n']
    ++ "Caramel: ".toList ++ [bsl, 'n'] ++ "Cappuccino: ".toList ++ [bsl, 'n']
    ++ "3in1:".toList ++ [dq]

/-- The loop over `dateColumn` from index `i`: the 1-based number of the first
row whose time value is that of `dateValue`. -/
def findDateRow (dateValue : Int) : List LedgerRow → Nat → Option Nat
  | [], _ => none
  | r :: rs, i => if r.aTime = some dateValue then some (i + 1) else findDateRow dateValue rs (i + 1)

/-- The row created for a date that was not found: column A holds the date,
columns D, F and H the defaults, the other cells stay blank. -/
def newDateRow (dateValue : Int) : LedgerRow :=
  ⟨some dateValue, [], [], defaultDValue, [], defaultFValue, [], defaultHValue⟩

/-- `findOrCreateDateRow(dataSheet, dateValue)` for a valid date: the returned row
number and the data sheet afterwards. `data` holds the rows 1 to `getLastRow()`;
the status message goes to another sheet and is not part of this state. -/
def findOrCreateDateRow (data : List LedgerRow) (dateValue : Int) : Nat × List LedgerRow :=
  match findDateRow dateValue data 0 with
  | some row => (row, data)
  | none => (data.length + 1, data ++ [newDateRow dateValue])

/-! ## Numbered blocks (`appendNumberedBlock_`, MoonlitReportSmsParser.js 176-269) -/

/-- A cell value as `getValues()` returns it: a number, or any other value, which
is given by its text `String(raw)` (a blank cell is the empty text). -/
inductive ColCell where
  | text (s : Str)
  | num (q : ℚ)
  deriving DecidableEq

/-- `String(raw)`; `numStr` is the host conversion of numbers to text. -/
def cellString (numStr : ℚ → Str) : ColCell → Str
  | ColCell.text s => s
  | ColCell.num q => numStr q

/-- Group 1 of `s.match(/^\s*(\d+)\.(?:\s|$)/) || s.match(/^\s*(\d+)\s*$/)`. -/
def headerMatch (s : Str) : Option Str :=
  let t := s.dropWhile isJsSpace
  let ds := t.takeWhile Char.isDigit
  let rest := t.dropWhile Char.isDigit
  if ds = [] then none
  else
    match rest with
    | [] => some ds
    | c :: r =>
      if c = '.' then
        match r with
        | [] => some ds
        | d :: _ => if isJsSpace d = true then some ds else none
      else if (c :: r).all isJsSpace = true then some ds
      else none

/-- The loop of `_scanNumberedColumn_` from index `i` on; the state is the pair
`(lastNonEmptyIdx, lastHeaderNum)`. The header numbers are whole numbers of any
size here; `scanAuxIeee` below holds them in doubles as the source does, and the
two agree while every number met is below 2^53. -/
def scanAux (numStr : ℚ → Str) : List ColCell → Nat → Int × Int → Int × Int
  | [], _, st => st
  | raw :: rest, i, (lastNonEmptyIdx, lastHeaderNum) =>
    let s := jsTrim (cellString numStr raw)
    let lastNonEmptyIdx := if s ≠ [] then (i : Int) else lastNonEmptyIdx
    let lastHeaderNum :=
      match headerMatch s with
      | some m1 => max lastHeaderNum (natOfDigits m1 : Int)
      | none => lastHeaderNum
    let lastHeaderNum :=
      match raw with
      | ColCell.num q => max lastHeaderNum (Int.floor q)
      | ColCell.text _ => lastHeaderNum
    scanAux numStr rest (i + 1) (lastNonEmptyIdx, lastHeaderNum)

/-- `_scanNumberedColumn_(sheet, colIndex, 2)`: `col` holds the cells of the
column from row 2 down to the last row of the sheet. -/
def _scanNumberedColumn_ (numStr : ℚ → Str) (col : List ColCell) : Int × Int :=
  scanAux numStr col 0 (-1, 0)

/-- The carriage return. -/
def cr : Char := Char.ofNat 13

/-- `text.split(/\r?\n/)`: `cur` is the piece being read. -/
def splitLinesAux : Str → Str → List Str
  | [], cur => [cur]
  | [c], cur => if c = nl then [cur, []] else [cur ++ [c]]
  | c :: d :: rest, cur =>
    if c = cr ∧ d = nl then cur :: splitLinesAux rest []
    else if c = nl then cur :: splitLinesAux (d :: rest) []
    else splitLinesAux (d :: rest) (cur ++ [c])

/-- `text.split(/\r?\n/)`. -/
def splitLines (text : Str) : List Str := splitLinesAux text []

/-- `arr.findIndex(x => x.trim() !== '')`, counted from `i`; -1 when there is none. -/
def findIndexNonBlank : List Str → Nat → Int
  | [], _ => -1
  | x :: rest, i => if jsTrim x ≠ [] then (i : Int) else findIndexNonBlank rest (i + 1)

/-- The filter of lines 220-226 applied to the elements from index `i` on. -/
def keepLines (head tail : Int) : List Str → Nat → List Str
  | [], _ => []
  | s :: rest, i =>
    if s ≠ [] ∨ ((i : Int) > head ∧ (i : Int) < tail) then s :: keepLines head tail rest (i + 1)
    else keepLines head tail rest (i + 1)

/-- The array `lines` (lines 220-226): the trimmed lines of the text without
leading and trailing blank ones. -/
def blockLines (text : Str) : List Str :=
  let arr := (splitLines text).map jsTrim
  let head := findIndexNonBlank arr 0
  let tail := (arr.length : Int) - 1 - findIndexNonBlank arr.reverse 0
  keepLines head tail arr 0

/-- The decimal digits of `n`, most significant first, in front of `acc`. -/
def decAux : Nat → Nat → Str → Str
  | 0, _, acc => acc
  | fuel + 1, n, acc =>
    if n < 10 then Char.ofNat (48 + n) :: acc
    else decAux fuel (n / 10) (Char.ofNat (48 + n % 10) :: acc)

/-- The text of a non-negative integer in a template literal. -/
def decStr (n : Nat) : Str := decAux (n + 1) n []

/-- The number `nextNum` (lines 231-243) in whole numbers of any size; `colJ` is
column J from row 2 down. `nextNumIeee` below is the same computation in
doubles, and gives this number whenever every header number consulted is below
2^53. -/
def nextNum (numStr : ℚ → Str) (col colJ : List ColCell) (inputA1 : Str) : Int :=
  let scan := _scanNumberedColumn_ numStr col
  let nextNumBase :=
    if inputA1 = "C30".toList ∧ scan.1 < 0 then
      max scan.2 (_scanNumberedColumn_ numStr colJ).2
    else scan.2
  max 1 (nextNumBase + 1)

/-- The rows `out` (lines 245-259) for the lines `l1 :: rest`; the display value
of a cell is taken to be the text of its value. -/
def blockRows (numStr : ℚ → Str) (col colJ : List ColCell) (inputA1 : Str) (l1 : Str)
    (rest : List Str) : List ColCell :=
  let scan := _scanNumberedColumn_ numStr col
  let out : List ColCell := []
  let out :=
    if scan.1 ≥ 0 then
      match col[scan.1.toNat]? with
      | some c => if jsTrim (cellString numStr c) ≠ [] then out ++ [ColCell.text []] else out
      | none => out
    else out
  let out := out ++ [ColCell.text
    (decStr (nextNum numStr col colJ inputA1).toNat ++ ". ".toList ++ l1)]
  out ++ rest.map ColCell.text

/-- `appendNumberedBlock_(sheet, targetColIndex, inputA1)`: the target column from
row 2 down after the call; `col` is that column before, `colJ` column J, and
`input` the text `String(value || '')` of the input cell. -/
def appendNumberedBlock_ (numStr : ℚ → Str) (col colJ : List ColCell) (inputA1 input : Str) :
    List ColCell :=
  let text := jsTrim input
  if text = [] then col
  else
    match blockLines text with
    | [] => col
    | l1 :: rest =>
      let scan := _scanNumberedColumn_ numStr col
      let insertIdx := if scan.1 ≥ 0 then scan.1.toNat + 1 else 0
      let out := blockRows numStr col colJ inputA1 l1 rest
      col.take insertIdx ++ out ++ col.drop (insertIdx + out.length)

/-- The numbers a cell contributes to `lastHeaderNum`: the header number its text
shows, and its floor when it is a number. -/
def cellNums (numStr : ℚ → Str) (c : ColCell) : List Int :=
  (match headerMatch (jsTrim (cellString numStr c)) with
    | some m1 => [(natOfDigits m1 : Int)]
    | none => [])
  ++ (match c with
    | ColCell.num q => [Int.floor q]
    | ColCell.text _ => [])

/-- The highest header number found in a column, 0 when there is none. -/
def highestHeaderNum (numStr : ℚ → Str) (col : List ColCell) : Int :=
  (col.flatMap (cellNums numStr)).foldl max 0

/-- Whether a cell is blank for the scan: `String(raw).trim() === ''`. -/
def isBlankCell (numStr : ℚ → Str) (c : ColCell) : Bool :=
  decide (jsTrim (cellString numStr c) = [])

/-- Successive calls of `appendNumberedBlock_` on one target column, one per
input text, column J staying as it is. -/
def appendAll (numStr : ℚ → Str) (colJ : List ColCell) (inputA1 : Str) (inputs : List Str)
    (col : List ColCell) : List ColCell :=
  inputs.foldl (fun c t => appendNumberedBlock_ numStr c colJ inputA1 t) col

/-- The rows of one block with the header number `n`: `n. l1`, then the other
lines. -/
def blockCells (n : Nat) : List Str → List ColCell
  | [] => []
  | l1 :: rest => ColCell.text (decStr n ++ ". ".toList ++ l1) :: rest.map ColCell.text

/-- Blocks numbered from `n` on, each preceded by one blank row. -/
def sepBlocks : Nat → List (List Str) → List ColCell
  | _, [] => []
  | n, b :: bs => ColCell.text [] :: blockCells n b ++ sepBlocks (n + 1) bs

/-- A column of blocks numbered 1, 2, ... with one blank row between consecutive
blocks. -/
def numberedColumn : List (List Str) → List ColCell
  | [] => []
  | b :: bs => blockCells 1 b ++ sepBlocks 2 bs

/-! ## Decoders on arbitrary cell values (MoonlitDisplayCode.js 214-238) -/

/-- A value handed to a decoder: a string, or any other value (a number, a
boolean, a date, `null`, `undefined`). -/
inductive JsVal where
  | str (s : Str)
  | other
  deriving DecidableEq

/-- `extractBills(str)`, the effective (second) declaration at lines 230-238. -/
def extractBills (str : JsVal) : Str :=
  match str with
  | JsVal.str s =>
    match findQuoted "bills=".toList s with
    | some m1 => m1
    | none => []
  | JsVal.other => []

/-- The text `s` holds `key="v"` at offset `i`, with `v` free of quotes. -/
def KeyAt (key s : Str) (i : Nat) (v : Str) : Prop :=
  dq ∉ v ∧ ∃ post, s.drop i = key ++ '=' :: dq :: (v ++ dq :: post)

/-! ## Bare pairs (`updateMoonlitData` 71-88 and 126-135, `parseKeyValuePairs` 244-260) -/

/-- The constant `keysBC`. -/
def keysBC : List Str :=
  ["duty".toList, "sdsale".toList, "tstdstk".toList, "nssale".toList, "nsstk".toList,
   "sb".toList, "coins".toList, "oil".toList, "plasticsb".toList, "plasticloaf".toList,
   "loaf".toList, "#3".toList, "#6".toList, "tiny".toList, "medium".toList, "large".toList]

/-- The constant `timeSalesKeys`. -/
def timeSalesKeys : List Str :=
  ["dutyam".toList, "totalam".toList, "8pm".toList, "10pm".toList, "2am".toList,
   "6am".toList, "dutypm".toList, "totalpm".toList, "8am".toList, "10am".toList,
   "1pm".toList, "4pm".toList, "6pm".toList]

/-- The text of column B, C or G: the loop appends `key=val; ` for each key in
order (the value is the text of its cell) and the result is trimmed. -/
def bareColString (pairs : List (Str × Str)) : Str :=
  jsTrim (pairs.foldl (fun s p => s ++ p.1 ++ "=".toList ++ p.2 ++ "; ".toList) [])

/-- The assignment `result[key] = val` of a string: it creates or overwrites an
own property, except under the name `__proto__`, where it has no effect. -/
def assignProp (result : JsObj Str) (key val : Str) : JsObj Str :=
  if key = protoKey then result else setOwn result key val

/-- The callback of `pairs.forEach` in `parseKeyValuePairs`. -/
def pairStep (result : JsObj Str) (pair : Str) : JsObj Str :=
  let trimmed := jsTrim pair
  if trimmed = [] then result
  else
    let eqIndex := (trimmed.takeWhile (fun c => c != '=')).length
    if '=' ∈ trimmed ∧ eqIndex > 0 then
      let key := jsTrim (trimmed.take eqIndex)
      let val := jsTrim (trimmed.drop (eqIndex + 1))
      assignProp result key val
    else result

/-- `parseKeyValuePairs(str)`: the object returned. -/
def parseKeyValuePairs (str : JsVal) : JsObj Str :=
  match str with
  | JsVal.other => []
  | JsVal.str s => if s = [] then [] else (splitChar ';' s).foldl pairStep []

/-- The text that follows the first pair and its `;` in a column of bare pairs:
each later pair preceded by a blank and closed by `;`. -/
def laterPairs : List (Str × Str) → Str
  | [] => []
  | p :: ps => ' ' :: (p.1 ++ '=' :: p.2) ++ ';' :: laterPairs ps

/-! ## The display sheet and the three display operations (MoonlitDisplayCode.js) -/

/-- A cell value of a sheet. -/
inductive SCell where
  | blank
  | text (s : Str)
  | date (t : Int)
  | num (q : ℚ)
  | bool (b : Bool)
  deriving DecidableEq

/-- A sheet: the value at each row and column (both counted from 1). -/
abbrev Sheet := Nat → Nat → SCell

/-- `sheet.getRange(r, c).setValue(v)`. -/
def setValue (sh : Sheet) (r c : Nat) (v : SCell) : Sheet :=
  fun r1 c1 => if r1 = r ∧ c1 = c then v else sh r1 c1

/-- `clearContent()` on the rows `r1` to `r2` of column `c`. -/
def clearContent (sh : Sheet) (r1 r2 c : Nat) : Sheet :=
  fun r c0 => if c0 = c ∧ r1 ≤ r ∧ r ≤ r2 then SCell.blank else sh r c0

/-- `sheet.getRange(r, c, output.length, 1).setValues(output)` for one-column rows
of text. -/
def setValues (sh : Sheet) (r c : Nat) (output : List Str) : Sheet :=
  fun r1 c1 =>
    if c1 = c ∧ r ≤ r1 ∧ r1 < r + output.length then
      match output[r1 - r]? with
      | some v => SCell.text v
      | none => sh r1 c1
    else sh r1 c1

/-- The outcome of a display operation: the display sheet afterwards, the notice
shown to the user if any, and whether the run ended by an exception. The data
sheet and the rate sheet are only read. -/
structure Run where
  display : Sheet
  alert : Option Str
  threw : Bool

/-- The text of the notice for an invalid date range. -/
def dateNotice : Str := "Please enter valid dates in cells A2 and B2.".toList

/-- The value of `dayOutput` pushed for one day (lines 92-111); `dateStr` is the
formatted date. -/
def dayOutput (dateStr : Str) (accountsamLines accountspmLines : List Str) : Str :=
  let out := "Date: ".toList ++ dateStr ++ ":".toList ++ [nl]
  let out := out ++ "  Account AM:".toList ++ [nl]
  let out :=
    if accountsamLines.length > 0 then
      accountsamLines.foldl (fun o line => o ++ "    ".toList ++ line ++ [nl]) out
    else out ++ "    None".toList ++ [nl]
  let out := out ++ "  Account PM:".toList ++ [nl]
  let out :=
    if accountspmLines.length > 0 then
      accountspmLines.foldl (fun o line => o ++ "    ".toList ++ line ++ [nl]) out
    else out ++ "    None".toList ++ [nl]
  out ++ [nl, nl, '.']

/-- The effect of one iteration of the loop of `updateMoonlitAccounts` on
`output`; `fmtShort` is `Utilities.formatDate(_, timezone, "M/d/yyyy")`. -/
def accountsBlockRow (fmtShort : Int → Str) (startDate endDate : Int) (output : List Str)
    (row : AccountsRow) : List Str :=
  match row.dateVal with
  | none => output
  | some d =>
    if d < startDate ∨ d > endDate then output
    else
      output ++ [dayOutput (fmtShort d) (accountLines (rowText row) "accountsam".toList)
        (accountLines (rowText row) "accountspm".toList)]

/-- The array `output` of `updateMoonlitAccounts` after the loop. -/
def accountsBlocks (fmtShort : Int → Str) (startDate endDate : Int)
    (dataValues : List AccountsRow) : List Str :=
  dataValues.foldl (accountsBlockRow fmtShort startDate endDate) []

/-- `updateMoonlitAccounts(e)`: `dataValues` holds the rows 1 to `getLastRow()` of
the data sheet, `fmtLong` is `Utilities.formatDate(_, timezone, "MM/dd/yyyy")`. -/
def updateMoonlitAccounts (numStr : ℚ → Str) (parseFloat : Str → Option ℚ)
    (fmtLong fmtShort : Int → Str) (display : Sheet) (dataValues : List AccountsRow) : Run :=
  match display 2 1, display 2 2 with
  | SCell.date startDate, SCell.date endDate =>
    let display := setValue display 3 4 (SCell.text ("Moonlit Bakery Accounts from ".toList
      ++ fmtLong startDate ++ " to ".toList ++ fmtLong endDate ++ ":".toList))
    let display := clearContent display 4 100 4
    if dataValues.length < 1 then ⟨display, none, false⟩
    else
      match accountsTotals parseFloat startDate endDate dataValues with
      | none => ⟨display, none, true⟩
      | some totals =>
        let output := accountsBlocks fmtShort startDate endDate dataValues
        let display := if output.length > 0 then setValues display 4 4 output else display
        let display := setValue display (4 + output.length) 4
          (SCell.text (totalsOutput numStr totals))
        ⟨display, none, false⟩
  | _, _ => ⟨display, some dateNotice, false⟩

/-- A row of `dataValues` in `updateBillsDisplay`: column A (`none` when it is not
a Date) and column D. -/
structure BillsRow where
  dateVal : Option Int
  colD : JsVal

/-- `row[3] || ""`. -/
def rawBills (row : BillsRow) : JsVal :=
  match row.colD with
  | JsVal.str s => if s = [] then JsVal.str [] else JsVal.str s
  | JsVal.other => JsVal.other

/-- `extractBills(raw).replace(/\\n/g, "\n").trim()`. -/
def billsText (row : BillsRow) : Str :=
  jsTrim (unescapeNl (extractBills (rawBills row)))

/-- The callback of `dataValues.forEach` in `updateBillsDisplay` (lines 174-187). -/
def billsBlockRow (fmtLong : Int → Str) (startDate endDate : Int) (output : List Str)
    (row : BillsRow) : List Str :=
  match row.dateVal with
  | none => output
  | some d =>
    if d < startDate ∨ d > endDate then output
    else
      let bills := billsText row
      if bills ≠ [] then
        output ++ ["Date ".toList ++ fmtLong d ++ ":".toList ++ [nl] ++ bills ++ [nl, nl]]
      else output

/-- The array `output` of `updateBillsDisplay` after the loop. -/
def billsBlocks (fmtLong : Int → Str) (startDate endDate : Int) (dataValues : List BillsRow) :
    List Str :=
  dataValues.foldl (billsBlockRow fmtLong startDate endDate) []

/-- `updateBillsDisplay(e)`: `dataValues` holds the rows 1 to `getLastRow()`. -/
def updateBillsDisplay (fmtLong : Int → Str) (display : Sheet) (dataValues : List BillsRow) :
    Run :=
  match display 2 1, display 2 2 with
  | SCell.date startDate, SCell.date endDate =>
    let display := setValue display 3 3 (SCell.text ("Check Bills from ".toList
      ++ fmtLong startDate ++ " to ".toList ++ fmtLong endDate))
    let display := clearContent display 4 100 3
    if dataValues.length < 1 then ⟨display, none, false⟩
    else
      let output := billsBlocks fmtLong startDate endDate dataValues
      ⟨if output.length > 0 then setValues display 4 3 output else display, none, false⟩
  | _, _ => ⟨display, some dateNotice, false⟩

/-- `updateSalaryDisplay(e)`: `dataValues` and `empValues` hold the rows 2 to the
last row of the data sheet and of the rate sheet. -/
def updateSalaryDisplay (numStr : ℚ → Str) (fmtLong : Int → Str) (display : Sheet)
    (dataValues : List DataRow) (empValues : List EmpRow) : Run :=
  match display 2 1, display 2 2 with
  | SCell.date startDate, SCell.date endDate =>
    let display := setValue display 3 5 (SCell.text ("Attendance from ".toList
      ++ fmtLong startDate ++ " to ".toList ++ fmtLong endDate))
    let display := clearContent display 4 100 5
    match updateSalaryDisplayRows numStr startDate endDate dataValues empValues with
    | none => ⟨display, none, true⟩
    | some output =>
      ⟨if output.length > 0 then setValues display 4 5 output else display, none, false⟩
  | _, _ => ⟨display, some dateNotice, false⟩

/-- A stand-in for the host date formatter, used to instantiate `fmtLong` and
`fmtShort` in closed examples: it prints the time value in decimal. -/
def stampStr (t : Int) : Str := decStr t.toNat

/-- The block due to a row in `updateBillsDisplay`: `Date <date>:`, a line feed,
the bills text and two line feeds, when the row carries a date in the range and
its bills text is not empty. -/
def billsBlockOf (fmtLong : Int → Str) (startDate endDate : Int) (row : BillsRow) :
    Option Str :=
  match row.dateVal with
  | none => none
  | some d =>
    if startDate ≤ d ∧ d ≤ endDate ∧ billsText row ≠ [] then
      some ("Date ".toList ++ fmtLong d ++ ":".toList ++ [nl] ++ billsText row ++ [nl, nl])
    else none

/-- The lines shown under `Account AM:` or `Account PM:`: each line indented by
four blanks and closed by a line feed, or the marker `None` for an empty list. -/
def listing (lines : List Str) : Str :=
  if lines = [] then "    None".toList ++ [nl]
  else (lines.map (fun line => "    ".toList ++ line ++ [nl])).flatten

/-- The block due to a row in `updateMoonlitAccounts`, when the row carries a date
in the range. -/
def accountsBlockOf (fmtShort : Int → Str) (startDate endDate : Int) (row : AccountsRow) :
    Option Str :=
  match row.dateVal with
  | none => none
  | some d =>
    if startDate ≤ d ∧ d ≤ endDate then
      some ("Date: ".toList ++ fmtShort d ++ ":".toList ++ [nl]
        ++ "  Account AM:".toList ++ [nl]
        ++ listing (accountLines (rowText row) "accountsam".toList)
        ++ "  Account PM:".toList ++ [nl]
        ++ listing (accountLines (rowText row) "accountspm".toList)
        ++ [nl, nl, '.'])
    else none

/-! ## Regular expressions of the message parser (MoonlitReportSmsParser.js 9-88)

A backtracking matcher for the constructs these patterns use. A pattern is
matched in continuation-passing style: `k` is what has to match after it, and
alternatives are tried in the order the language prescribes. -/

/-- The syntax of a pattern with at most one capturing group. -/
inductive Re where
  | eps
  | chr (p : Char → Bool)
  | cat (a b : Re)
  | alt (a b : Re)
  | star (greedy : Bool) (a : Re)
  | grp (a : Re)
  | bol (multiline : Bool)
  | eol (multiline : Bool)

/-- A position in the subject text: the character before it, the text from it on,
and what group 1 has captured so far. -/
structure MState where
  prev : Option Char
  rest : Str
  cap : Option Str

/-- The quantifier `*` (greedy) or `*?` (lazy) over a matcher `ma` for its operand.
An iteration must consume at least one character, so `n`, the number of
characters left, bounds the number of iterations. -/
def starLoop (greedy : Bool) (ma : MState → (MState → Option MState) → Option MState) :
    Nat → MState → (MState → Option MState) → Option MState
  | 0, s, k => k s
  | n + 1, s, k =>
    if greedy then
      match ma s (fun s1 =>
          if s1.rest.length < s.rest.length then starLoop greedy ma n s1 k else none) with
      | some r => some r
      | none => k s
    else
      match k s with
      | some r => some r
      | none =>
        ma s (fun s1 =>
          if s1.rest.length < s.rest.length then starLoop greedy ma n s1 k else none)

/-- The matcher of a pattern at a position, with continuation `k`. -/
def matchRe : Re → MState → (MState → Option MState) → Option MState
  | Re.eps, s, k => k s
  | Re.chr p, s, k =>
    match s.rest with
    | [] => none
    | c :: r => if p c = true then k ⟨some c, r, s.cap⟩ else none
  | Re.cat a b, s, k => matchRe a s (fun s1 => matchRe b s1 k)
  | Re.alt a b, s, k =>
    match matchRe a s k with
    | some r => some r
    | none => matchRe b s k
  | Re.star greedy a, s, k => starLoop greedy (matchRe a) s.rest.length s k
  | Re.grp a, s, k =>
    matchRe a s (fun s1 =>
      k ⟨s1.prev, s1.rest, some (s.rest.take (s.rest.length - s1.rest.length))⟩)
  | Re.bol multiline, s, k =>
    match s.prev with
    | none => k s
    | some c => if multiline = true ∧ isLineTerminator c = true then k s else none
  | Re.eol multiline, s, k =>
    match s.rest with
    | [] => k s
    | c :: _ => if multiline = true ∧ isLineTerminator c = true then k s else none

/-- The leftmost match of a pattern from a position on. -/
def searchRe (re : Re) : Option Char → Str → Option MState
  | prev, [] => matchRe re ⟨prev, [], none⟩ some
  | prev, c :: r =>
    match matchRe re ⟨prev, c :: r, none⟩ some with
    | some m => some m
    | none => searchRe re (some c) r

/-- `t.match(re)` for a pattern without the flag `g`: group 1 of the leftmost
match, `none` when there is no match. -/
def jsMatch (re : Re) (t : Str) : Option Str :=
  (searchRe re none t).map (fun m => m.cap.getD [])

/-- A character of a pattern under the flag `i`: an ASCII letter matches its two
cases, any other character itself. -/
def ci (c : Char) : Re := Re.chr (fun x => x.toLower == c.toLower)

/-- A literal text under the flag `i`. -/
def lit : Str → Re
  | [] => Re.eps
  | [c] => ci c
  | c :: r => Re.cat (ci c) (lit r)

/-- A character that stands for itself. -/
def one (c : Char) : Re := Re.chr (fun x => x == c)

/-- The pattern `\s*`. -/
def ws : Re := Re.star true (Re.chr isJsSpace)

/-- The pattern `a+`. -/
def plus (a : Re) : Re := Re.cat a (Re.star true a)

/-- The concatenation of a list of patterns. -/
def seq : List Re → Re
  | [] => Re.eps
  | [a] => a
  | a :: r => Re.cat a (seq r)

/-- The pattern `LABEL\s*=\s*([^\n]+)` under the flag `i`, for a label pattern. -/
def fieldRe (label : Re) : Re :=
  seq [label, ws, one '=', ws, Re.grp (plus (Re.chr (fun c => c != nl)))]

/-! ## The message parser `parseAndFillSmsReport_` -/

/-- The class `[^\n]`. -/
def notNl : Re := Re.chr (fun c => c != nl)

/-- The pattern `/Cashier\s*:\s*([^\n-]+?)\s*-\s*.*$/mi`. -/
def cashierDashRe : Re :=
  seq [lit "Cashier".toList, ws, one ':', ws,
    Re.grp (Re.cat (Re.chr (fun c => c != nl && c != '-'))
      (Re.star false (Re.chr (fun c => c != nl && c != '-')))),
    ws, one '-', ws, Re.star true (Re.chr (fun c => !isLineTerminator c)), Re.eol true]

/-- The pattern `/Cashier\s*:\s*([^\n]+)$/mi`. -/
def cashierRe : Re :=
  seq [lit "Cashier".toList, ws, one ':', ws, Re.grp (plus notNl), Re.eol true]

/-- The pattern `/^Total\s*:\s*([\d,]+)/mi`. -/
def totalRe : Re :=
  seq [Re.bol true, lit "Total".toList, ws, one ':', ws,
    Re.grp (plus (Re.chr (fun c => c.isDigit || c == ',')))]

/-- The pattern `/Mineral\s*=\s*([0-9]+)\s*x/i`. -/
def mineralRe : Re :=
  seq [lit "Mineral".toList, ws, one '=', ws, Re.grp (plus (Re.chr Char.isDigit)), ws, ci 'x']

/-- The pattern
`/Pullouts\s*=\s*\n([\s\S]*?)(?:\n\s*\n|Accounts\s*=|Workers\s*=|Expensis|Expenses|^-End-)/i`. -/
def pulloutsRe : Re :=
  seq [lit "Pullouts".toList, ws, one '=', ws, one nl,
    Re.grp (Re.star false (Re.chr (fun _ => true))),
    Re.alt (seq [one nl, ws, one nl])
      (Re.alt (seq [lit "Accounts".toList, ws, one '='])
        (Re.alt (seq [lit "Workers".toList, ws, one '='])
          (Re.alt (lit "Expensis".toList)
            (Re.alt (lit "Expenses".toList) (seq [Re.bol false, lit "-End-".toList])))))]

/-- The class `[_\s-]`. -/
def joiner : Re := Re.chr (fun c => c == '_' || isJsSpace c || c == '-')

/-- An entry of `picks`: the pattern, the cell for the AM shift, the cell for the
PM shift and the flag `text`. -/
structure Pick where
  re : Re
  addrAM : Str
  addrPM : Str
  text : Bool

/-- The array `picks` (lines 39-57). -/
def picks : List Pick :=
  [⟨fieldRe (lit "SD".toList), "B9".toList, "C9".toList, false⟩,
   ⟨fieldRe (lit "Toasted".toList), "B10".toList, "C10".toList, false⟩,
   ⟨fieldRe (lit "NSSale".toList), "B11".toList, "C11".toList, false⟩,
   ⟨fieldRe (lit "NSStocks".toList), "B12".toList, "C12".toList, false⟩,
   ⟨fieldRe (lit "SB".toList), "B13".toList, "C13".toList, false⟩,
   ⟨fieldRe (lit "Coins".toList), "B14".toList, "C14".toList, false⟩,
   ⟨fieldRe (lit "Mantika".toList), "B15".toList, "C15".toList, true⟩,
   ⟨fieldRe (seq [lit "Plastic".toList, ws, lit "SB".toList]), "B16".toList, "C16".toList,
     false⟩,
   ⟨fieldRe (seq [lit "Plastic".toList, ws, lit "Loaf".toList]), "B17".toList, "C17".toList,
     false⟩,
   ⟨fieldRe (seq [lit "Loaf".toList, Re.alt (seq [ws, lit "bread".toList]) Re.eps]),
     "B18".toList, "C18".toList, true⟩,
   ⟨fieldRe (seq [lit "plastic".toList, Re.star true joiner, lit "No3".toList]),
     "B19".toList, "C19".toList, true⟩,
   ⟨fieldRe (seq [lit "plastic".toList, Re.star true joiner, lit "No6".toList]),
     "B20".toList, "C20".toList, true⟩,
   ⟨fieldRe (seq [lit "plastic".toList, Re.star true joiner, lit "Tiny".toList]),
     "B21".toList, "C21".toList, true⟩,
   ⟨fieldRe (seq [lit "Plastic".toList, ws, lit "Medium".toList]), "B22".toList,
     "C22".toList, false⟩,
   ⟨fieldRe (seq [lit "Plastic".toList, ws, lit "Large".toList]), "B23".toList,
     "C23".toList, false⟩]

/-- A write of the parser to the report sheet. -/
inductive SmsOp where
  | setString (a1 : Str) (value : Str) (forceText : Bool)
  | setNumber (a1 : Str) (value : Option Nat)
  | clear (range : Str)
  | setLines (start : Str) (lines : List Str)
  deriving DecidableEq

/-- `parseInt(s, 10)` for a text of decimal digits (`none` is `NaN`). -/
def parseDigits (s : Str) : Option Nat :=
  if s = [] then none else some (natOfDigits s)

/-- The text `t` (line 10): `String(raw)` without carriage returns, trimmed. -/
def smsText (raw : Str) : Str := jsTrim (raw.filter (fun c => c != cr))

/-- The cashier section (lines 14-23). -/
def cashierOps (t : Str) (isPM : Bool) : List SmsOp :=
  match (jsMatch cashierDashRe t).orElse (fun _ => jsMatch cashierRe t) with
  | some g1 =>
    let name := jsTrim g1
    [SmsOp.setString (if isPM then "C8".toList else "B8".toList) name true,
     SmsOp.setString (if isPM then "F14".toList else "F8".toList) name true]
  | none => []

/-- The total section (lines 27-31). -/
def totalOps (t : Str) (isPM : Bool) : List SmsOp :=
  match jsMatch totalRe t with
  | some g1 =>
    [SmsOp.setNumber (if isPM then "F20".toList else "F13".toList)
      (parseDigits (g1.filter (fun c => c != ',')))]
  | none => []

/-- The cell of a pick for the shift. -/
def pickCell (p : Pick) (isPM : Bool) : Str := if isPM then p.addrPM else p.addrAM

/-- The callback of `picks.forEach` (lines 59-62). -/
def pickOps (t : Str) (isPM : Bool) (p : Pick) : List SmsOp :=
  match jsMatch p.re t with
  | some g1 => [SmsOp.setString (pickCell p isPM) (jsTrim g1) p.text]
  | none => []

/-- The mineral section (lines 65-68). -/
def mineralOps (t : Str) (isPM : Bool) : List SmsOp :=
  if isPM then
    match jsMatch mineralRe t with
    | some g1 => [SmsOp.setNumber "F5".toList (parseDigits g1)]
    | none => []
  else []

/-- The pullouts section after the clear (lines 77-87). -/
def pulloutOps (t : Str) (isPM : Bool) : List SmsOp :=
  match jsMatch pulloutsRe t with
  | some pullBlock =>
    if pullBlock ≠ [] then
      let lines := ((splitChar nl pullBlock).map jsTrim).filter (fun s => decide (s ≠ []))
      if lines.length > 0 then
        [SmsOp.setLines (if isPM then "O2".toList else "N2".toList) lines]
      else []
    else []
  | none => []

/-- `parseAndFillSmsReport_(sheet, raw, isPM)`: the writes to the sheet in order;
`raw` is the text `String(raw)`. -/
def parseAndFillSmsReport_ (raw : Str) (isPM : Bool) : List SmsOp :=
  let t := smsText raw
  cashierOps t isPM ++ totalOps t isPM ++ picks.flatMap (pickOps t isPM)
    ++ mineralOps t isPM
    ++ [SmsOp.clear (if isPM then "O2:O200".toList else "N2:N200".toList)]
    ++ pulloutOps t isPM

/-! ## Header numbers in double arithmetic (MoonlitReportSmsParser.js 181-243)

`scanAux` and `nextNum` above compute with whole numbers of any size. The source
holds `lastHeaderNum`, `nextNumBase` and `nextNum` in doubles: `parseInt` yields
the double nearest to the digits it reads, and `+ 1` the double nearest to the
sum. The definitions below follow the source in that; the two agree as long as
every number met is below 2^53. -/

/-- A value of `lastHeaderNum`, `nextNumBase` or `nextNum`: a double that is a
whole number and not negative, or `Infinity`. -/
inductive HNum where
  | fin (n : Nat)
  | inf
  deriving DecidableEq

/-- The number of times `n` has to be halved to come below 2^53, at most `fuel`. -/
def excessBits : Nat → Nat → Nat
  | 0, _ => 0
  | fuel + 1, n => if n < 2 ^ 53 then 0 else excessBits fuel (n / 2) + 1

/-- The double nearest to the whole number `n`, ties going to the even
significand. Up to 2^53 every whole number is a double. Above, `n` is
`q * 2^e + r` with `2^52 ≤ q < 2^53` and `r < 2^e`, and lies between the
neighbouring doubles `q * 2^e` and `(q + 1) * 2^e`. The largest double is
`(2^53 - 1) * 2^971`; a result of 2^1024 or more is `Infinity`. -/
def toDouble (n : Nat) : HNum :=
  if n ≤ 2 ^ 53 then HNum.fin n
  else
    let e := excessBits 1024 n
    let q := n / 2 ^ e
    let r := n % 2 ^ e
    let half := 2 ^ (e - 1)
    let m := if r < half then q else if half < r then q + 1
      else if q % 2 = 0 then q else q + 1
    if 971 < e ∨ (e = 971 ∧ m = 2 ^ 53) then HNum.inf else HNum.fin (m * 2 ^ e)

/-- `Math.max(a, b)` on two such values. -/
def hmax : HNum → HNum → HNum
  | HNum.fin a, HNum.fin b => HNum.fin (max a b)
  | _, _ => HNum.inf

/-- `x + 1` in double arithmetic. -/
def hsucc : HNum → HNum
  | HNum.fin n => toDouble (n + 1)
  | HNum.inf => HNum.inf

/-- `Math.max(lastHeaderNum, v)` for a whole number `v` that is a double or is
read into one: a negative `v` leaves `lastHeaderNum`, which is never negative. -/
def hstep (lastHeaderNum : HNum) (v : Int) : HNum :=
  if v < 0 then lastHeaderNum else hmax lastHeaderNum (toDouble v.toNat)

/-- The loop of `_scanNumberedColumn_` from index `i` on, in double arithmetic;
the state is the pair `(lastNonEmptyIdx, lastHeaderNum)`. `parseInt(m[1], 10)` is
the double nearest to the digits (the language lets an implementation read
digits after the twentieth as zeros; the nearest double is taken here for every
length), and `Math.floor(raw)` is the floor of the numeric cell, itself a
double. -/
def scanAuxIeee (numStr : ℚ → Str) : List ColCell → Nat → Int × HNum → Int × HNum
  | [], _, st => st
  | raw :: rest, i, (lastNonEmptyIdx, lastHeaderNum) =>
    let s := jsTrim (cellString numStr raw)
    let lastNonEmptyIdx := if s ≠ [] then (i : Int) else lastNonEmptyIdx
    let lastHeaderNum :=
      match headerMatch s with
      | some m1 => hmax lastHeaderNum (toDouble (natOfDigits m1))
      | none => lastHeaderNum
    let lastHeaderNum :=
      match raw with
      | ColCell.num q => hstep lastHeaderNum (Int.floor q)
      | ColCell.text _ => lastHeaderNum
    scanAuxIeee numStr rest (i + 1) (lastNonEmptyIdx, lastHeaderNum)

/-- `_scanNumberedColumn_(sheet, colIndex, 2)` in double arithmetic. -/
def _scanNumberedColumnIeee_ (numStr : ℚ → Str) (col : List ColCell) : Int × HNum :=
  scanAuxIeee numStr col 0 (-1, HNum.fin 0)

/-- The number `nextNum` (lines 231-243) in double arithmetic. -/
def nextNumIeee (numStr : ℚ → Str) (col colJ : List ColCell) (inputA1 : Str) : HNum :=
  let scan := _scanNumberedColumnIeee_ numStr col
  let nextNumBase :=
    if inputA1 = "C30".toList ∧ scan.1 < 0 then
      hmax scan.2 (_scanNumberedColumnIeee_ numStr colJ).2
    else scan.2
  hmax (HNum.fin 1) (hsucc nextNumBase)

/-- The text of `nextNum` in the template literal of line 255: the decimal digits
up to 2^53, the host conversion of the double above, `Infinity` for the
infinite value. -/
def numText (numStr : ℚ → Str) : HNum → Str
  | HNum.fin n => if n ≤ 2 ^ 53 then decStr n else numStr (n : ℚ)
  | HNum.inf => "Infinity".toList

/-- Whether the value `h` is strictly greater than the whole number `n`. -/
def exceeds (h : HNum) (n : Int) : Bool :=
  match h with
  | HNum.fin v => decide (n < (v : Int))
  | HNum.inf => true

/-! ## The decoder `extractKeyFromCell` with its pattern (MoonlitDisplayCode.js 214-221)

`extractKeyFromCell` above takes the key as a literal text. The source compiles
it: `new RegExp(key + '="([^"]*)"')`. The definitions below follow the source in
that, for the keys whose characters have a meaning that does not depend on their
neighbours. -/

/-- The characters with a syntactic role in a pattern:
`^ $ \ . * + ? ( ) [ ] { } |`, by their code points. -/
def isSyntaxChar (c : Char) : Bool :=
  [94, 36, 92, 46, 42, 43, 63, 40, 41, 91, 93, 123, 125, 124].contains c.toNat

/-- The pattern a character of the key stands for: `.` is any character but a
line terminator, `^` and `$` are the start and the end of the text (the pattern
has no flag), and a character without a syntactic role is itself. `none` for the
other syntax characters: what they mean, or whether the pattern compiles at all,
depends on the characters around them, which is not modelled. -/
def keyAtom (c : Char) : Option Re :=
  if c = '.' then some (Re.chr (fun x => !isLineTerminator x))
  else if c = '^' then some (Re.bol false)
  else if c = '$' then some (Re.eol false)
  else if isSyntaxChar c = true then none
  else some (one c)

/-- The pattern `="([^"]*)"`. -/
def quotedRe : Re :=
  Re.cat (one '=') (Re.cat (one dq)
    (Re.cat (Re.grp (Re.star true (Re.chr (fun c => c != dq)))) (one dq)))

/-- `new RegExp(key + '="([^"]*)"')`; `none` when the key holds a syntax
character other than `.`, `^` and `$`. -/
def keyPattern : Str → Option Re
  | [] => some quotedRe
  | c :: r =>
    match keyAtom c, keyPattern r with
    | some a, some p => some (Re.cat a p)
    | _, _ => none

/-- What has to match after the class `[^"]*` of `quotedRe`: a quote, at which
group 1 is closed. -/
def afterClass (body : Str) (rest : Str) : Option MState :=
  match rest with
  | [] => none
  | c :: r =>
    if (c == dq) = true then
      some ⟨some c, r, some (body.take (body.length - (c :: r).length))⟩
    else none

/-- The nesting depth after the parentheses of a text, starting from `depth`;
`none` when a `)` closes nothing. -/
def parenDepth : Str → Nat → Option Nat
  | [], depth => some depth
  | c :: r, depth =>
    if c = '(' then parenDepth r (depth + 1)
    else if c = ')' then
      match depth with
      | 0 => none
      | k + 1 => parenDepth r k
    else parenDepth r depth

/-- A key for which `new RegExp(key + ...)` throws a `SyntaxError` whatever else it
holds: without a backslash and without a bracket every parenthesis opens or
closes a group, and the key leaves a group open or closes one that was not
opened. -/
def unbalancedKey (key : Str) : Bool :=
  !key.contains bsl && !key.contains '[' && !key.contains ']'
    && parenDepth key 0 != some 0

/-- What a call of `extractKeyFromCell` comes to: the string returned, the
`SyntaxError` of `new RegExp`, the `TypeError` of `text.match` on a value that is
not a string, or a call outside the part of the pattern language modelled
here. -/
inductive Decoded where
  | value (s : Str)
  | syntaxError
  | typeError
  | unmodelled
  deriving DecidableEq

/-- `extractKeyFromCell(text, key)` (MoonlitDisplayCode.js 214-221) on an
arbitrary value, with the key compiled into the pattern. The pattern is built
first and `text.match(regex)` is called on whatever `text` is; the result is
group 1 of the leftmost match, else the empty text. A `.` of the pattern takes
one UTF-16 code unit, which the character lists used here cannot split, so a key
with a `.` is modelled only on a text whose characters are single code units. -/
def extractKeyFromValue (text : JsVal) (key : Str) : Decoded :=
  if unbalancedKey key = true then Decoded.syntaxError
  else
    match keyPattern key with
    | none => Decoded.unmodelled
    | some regex =>
      match text with
      | JsVal.other => Decoded.typeError
      | JsVal.str s =>
        if key.contains '.' = true ∧ s.all (fun c => decide (c.toNat < 65536)) = false then
          Decoded.unmodelled
        else
          match jsMatch regex s with
          | some m1 => Decoded.value m1
          | none => Decoded.value []

/-! ## Roster credits in double arithmetic (MoonlitDisplayCode.js 316-333)

`classifyEntry` above computes the credit of an entry exactly. The source
computes it in doubles: `parseFloat` yields the double nearest to the decimal it
reads, and each `+` and `/` the double nearest to the exact result. -/

/-- The whole number nearest to `x`, the even one of the two when `x` lies half
way between them. -/
def roundEven (x : ℚ) : ℤ :=
  let f := Int.floor x
  if x - f < 1 / 2 then f
  else if 1 / 2 < x - f then f + 1
  else if f % 2 = 0 then f else f + 1

/-- The double nearest to `q`, ties going to the even significand: with
`2^e ≤ |q| < 2^(e+1)` the doubles around `|q|` are the multiples of `2^(e-52)`, and
of `2^(-1074)` below `2^(-1022)`. `none` when the result is `2^1024` or more, where
the source holds `Infinity`. -/
def fl (q : ℚ) : Option ℚ :=
  if q = 0 then some 0
  else
    let s : ℤ := max (Int.log 2 |q| - 52) (-1074)
    let r : ℚ := (roundEven (|q| / 2 ^ s) : ℚ) * 2 ^ s
    if 2 ^ 1024 ≤ r then none else some (if q < 0 then -r else r)

/-- `parseFloat(s)` for a text that matches `\d+(\.\d+)?`: the double nearest to
the decimal written (the language lets an implementation read digits after the
twentieth as zeros; the nearest double is taken here for every length). -/
def parseFloatIeee (s : Str) : Option ℚ := fl (decimalValue s)

/-- The pair `(name, incAttendance)` computed for one roster entry by the body of
`parts.forEach` (lines 306-339), with `(12 + hours) / 12` and `hours / 12`
evaluated in doubles; `none` when a number is too large for a finite double. -/
def classifyEntryIeee (entry : Str) : Option (Str × ℚ) :=
  match hdMatch entry with
  | some g1 => some (jsTrim g1, 1 / 2)
  | none =>
    match otMatch entry with
    | some (g1, h) =>
      (parseFloatIeee h).bind (fun hours =>
        (fl (12 + hours)).bind (fun total =>
          (fl (total / 12)).map (fun inc => (jsTrim g1, inc))))
    | none =>
      match utMatch entry with
      | some (g1, h) =>
        (parseFloatIeee h).bind (fun hours =>
          (fl (hours / 12)).map (fun inc => (jsTrim g1, inc)))
      | none => some (jsTrim entry, if jsTrim entry ≠ [] then 1 else 0)

/-- The statements of lines 342-345 with the sum `attendanceCounts[name] +
incAttendance` evaluated in doubles; `none` when it is too large for a finite
double. -/
def creditAttendanceIeee (counts : JsObj AttVal) (name : Str) (inc : ℚ) :
    Option (JsObj AttVal) :=
  let counts :=
    match getOwn counts name with
    | some (AttVal.num q) => if q = 0 then setOwn counts name (AttVal.num 0) else counts
    | some AttVal.text => counts
    | none => if name ∈ objectProtoNames then counts else setOwn counts name (AttVal.num 0)
  match getOwn counts name with
  | some (AttVal.num q) => (fl (q + inc)).map (fun v => setOwn counts name (AttVal.num v))
  | some AttVal.text => some (setOwn counts name AttVal.text)
  | none => some (if name = protoKey then counts else setOwn counts name AttVal.text)

/-- The body of `parts.forEach` for one entry (lines 305-347) in doubles. -/
def creditEntryIeee (counts : Option (JsObj AttVal)) (entry : Str) : Option (JsObj AttVal) :=
  counts.bind (fun cs =>
    (classifyEntryIeee entry).bind (fun r =>
      if r.1 ≠ [] then creditAttendanceIeee cs r.1 r.2 else some cs))

/-- One iteration of the loop over `dataValues` (lines 286-348) in doubles. -/
def attendanceRowIeee (startDate endDate : Int) (counts : Option (JsObj AttVal))
    (row : DataRow) : Option (JsObj AttVal) :=
  match row.dateVal with
  | none => counts
  | some d =>
    if d < startDate ∨ d > endDate then counts
    else
      let inner := innerDuties row.duties
      if inner = [] then counts
      else (rosterParts inner).foldl creditEntryIeee counts

/-- The object `attendanceCounts` after the loop over `dataValues`, with the
credits computed and summed in doubles; `none` when a number is too large for a
finite double. -/
def attendanceCountsIeee (startDate endDate : Int) (dataValues : List DataRow) :
    Option (JsObj AttVal) :=
  dataValues.foldl (attendanceRowIeee startDate endDate) (some [])

/-! ## Payroll theorems -/

theorem orZero_eq (x : ℚ) : orZero x = x := by
  unfold orZero
  split_ifs with h
  · exact h.symm
  · rfl

theorem deductionsArr_eq_filter (info : EmpInfo) :
    deductionsArr info = (deductionCandidates info).filter (fun d => decide (d.2 > 0)) := by
  unfold deductionsArr deductionCandidates
  by_cases h1 : info.cashAdvances > 0 <;> by_cases h2 : info.accounts > 0 <;>
    by_cases h3 : info.charges > 0 <;> by_cases h4 : info.sss > 0 <;>
    by_cases h5 : info.philhealth > 0 <;> simp [List.filter, h1, h2, h3, h4, h5]

theorem foldl_add_snd (l : List Deduction) (s : ℚ) :
    l.foldl (fun s d => s + d.2) s = s + (l.map Prod.snd).sum := by
  induction l generalizing s with
  | nil => simp
  | cons d t ih => simp [List.foldl, ih, add_assoc]

theorem deductionSum_eq (info : EmpInfo) :
    deductionSum info =
      (if info.cashAdvances > 0 then info.cashAdvances else 0)
      + (if info.accounts > 0 then info.accounts else 0)
      + (if info.charges > 0 then info.charges else 0)
      + (if info.sss > 0 then info.sss else 0)
      + (if info.philhealth > 0 then info.philhealth else 0) := by
  unfold deductionSum
  rw [foldl_add_snd]
  unfold deductionsArr
  by_cases h1 : info.cashAdvances > 0 <;> by_cases h2 : info.accounts > 0 <;>
    by_cases h3 : info.charges > 0 <;> by_cases h4 : info.sss > 0 <;>
    by_cases h5 : info.philhealth > 0 <;> simp [h1, h2, h3, h4, h5] <;> ring

theorem foldl_append_map {β : Type} (g : Str → β → Str) (f : β → Str)
    (hg : ∀ line d, g line d = line ++ f d) (l : List β) (line : Str) :
    l.foldl g line = line ++ (l.map f).flatten := by
  induction l generalizing line with
  | nil => simp
  | cons d t ih => rw [List.foldl_cons, ih, hg, List.map_cons, List.flatten_cons, List.append_assoc]

theorem foldl_append_items (numStr : ℚ → Str) (l : List Deduction) (line : Str) :
    l.foldl (fun line d => line ++ " - ".toList ++ d.1 ++ " ".toList ++ numStr d.2) line
      = line ++ (l.map (deductionItem numStr)).flatten :=
  foldl_append_map _ _ (fun line d => by simp [deductionItem, List.append_assoc]) l line

/-- C1: the net salary is `a*dailyRate1 + a*dailyRate2 + extraPerDay*a +
(135*soloDays if soloDays > 0) + bakeryAllowance` minus the deductions that are
included (those strictly positive), it is the number printed after
`= Net Salary`, and attendance 5 at daily rate 300 with every other field 0
gives exactly 1500. -/
theorem C1_net_salary_formula (numStr : ℚ → Str) (empName : Str) (info : EmpInfo) (a : ℚ) :
    netSalary info a =
        a * info.daily1 + a * info.daily2 + info.extraPerDay * a
          + (if info.soloDays > 0 then 135 * info.soloDays else 0) + info.bakeryAllowance
          - ((if info.cashAdvances > 0 then info.cashAdvances else 0)
            + (if info.accounts > 0 then info.accounts else 0)
            + (if info.charges > 0 then info.charges else 0)
            + (if info.sss > 0 then info.sss else 0)
            + (if info.philhealth > 0 then info.philhealth else 0))
    ∧ (∃ pre : Str, lineNet numStr empName info a
        = pre ++ " = Net Salary ".toList ++ numStr (netSalary info a))
    ∧ netSalary ⟨300, 0, 0, 0, 0, 0, 0, 0, 0, 0, 0⟩ 5 = 1500 := by
  refine ⟨?_, ⟨_, rfl⟩, ?_⟩
  · unfold netSalary gross sumDaily totalD1 totalD2 totalAdditional totalSolo totalBakeryAllow
    rw [deductionSum_eq, orZero_eq]
    split_ifs <;> ring
  · unfold netSalary gross sumDaily totalD1 totalD2 totalAdditional totalSolo totalBakeryAllow
    rw [deductionSum_eq, orZero_eq]
    norm_num


/-- C7: each of the five deductions (Cash Advances, Accounts, Charges, SSS,
Philhealth) is kept in `deductionsArr`, rendered as its own ` - <Label> <value>`
item and subtracted from the net salary if and only if its value is strictly
positive; the kept items stay in the fixed order. -/
theorem C7_deductions_rendered_iff_positive (numStr : ℚ → Str) (empName : Str)
    (info : EmpInfo) (a : ℚ) :
    deductionsArr info = (deductionCandidates info).filter (fun d => decide (d.2 > 0))
    ∧ (∀ d ∈ deductionCandidates info, d ∈ deductionsArr info ↔ d.2 > 0)
    ∧ netSalary info a = gross info a
        - (((deductionCandidates info).filter (fun d => decide (d.2 > 0))).map Prod.snd).sum
    ∧ lineNet numStr empName info a
        = lineAdditions numStr empName info a
          ++ ((deductionsArr info).map (deductionItem numStr)).flatten
          ++ " = Net Salary ".toList ++ numStr (netSalary info a) := by
  refine ⟨deductionsArr_eq_filter info, ?_, ?_, ?_⟩
  · intro d hd
    rw [deductionsArr_eq_filter, List.mem_filter]
    simp [hd]
  · unfold netSalary deductionSum
    rw [foldl_add_snd, deductionsArr_eq_filter, zero_add]
  · unfold lineNet
    simp only [foldl_append_items]

/-- C8 (as stated) fails: with extraPerDay = -10, daily rate 300 and attendance 1
the additional pay is nonzero and enters the net salary (290, not 300), yet
no Additional term is rendered. -/
theorem C8_counterexample :
    totalAdditional ⟨300, 0, -10, 0, 0, 0, 0, 0, 0, 0, 0⟩ 1 ≠ 0
    ∧ sumDaily ⟨300, 0, -10, 0, 0, 0, 0, 0, 0, 0, 0⟩ 1 = 300
    ∧ netSalary ⟨300, 0, -10, 0, 0, 0, 0, 0, 0, 0, 0⟩ 1 = 290
    ∧ lineAdditions intStr "Ana".toList ⟨300, 0, -10, 0, 0, 0, 0, 0, 0, 0, 0⟩ 1
        = lineBase intStr "Ana".toList ⟨300, 0, -10, 0, 0, 0, 0, 0, 0, 0, 0⟩ 1 := by
  refine ⟨?_, ?_, ?_, ?_⟩
  · norm_num [totalAdditional]
  · norm_num [sumDaily, totalD1, totalD2]
  · unfold netSalary gross sumDaily totalD1 totalD2 totalAdditional totalSolo totalBakeryAllow
    rw [deductionSum_eq, orZero_eq]
    norm_num
  · unfold lineAdditions
    norm_num [totalAdditional, totalSolo, totalBakeryAllow, orZero_eq]

/-- C8 (amended): for every record and attendance, with no condition on signs,
the Additional term is rendered exactly when extraPerDay x attendance is
strictly positive and the Bakery Allowance term exactly when the allowance is
strictly positive (a zero amount is not rendered), and the net salary adds the
two amounts as they are, so a zero amount adds nothing to it; when neither
amount is negative, the net salary is the base pay plus exactly the rendered
amounts less the kept deductions, so every amount that enters it is shown in
the line. -/
theorem C8_additions_rendered_iff_positive (numStr : ℚ → Str) (empName : Str)
    (info : EmpInfo) (a : ℚ) :
    lineAdditions numStr empName info a
      = lineBase numStr empName info a
        ++ (if info.extraPerDay * a > 0 then
              " + (Additional) ".toList ++ numStr info.extraPerDay ++ " x ".toList
                ++ numStr a ++ "(=".toList ++ numStr (info.extraPerDay * a) ++ ")".toList
            else [])
        ++ (if info.soloDays > 0 then
              " + (Solo Days) 135 x ".toList ++ numStr info.soloDays ++ "(=".toList
                ++ numStr (info.soloDays * 135) ++ ")".toList
            else [])
        ++ (if info.bakeryAllowance > 0 then
              " + Bakery Allowance ".toList ++ numStr info.bakeryAllowance
            else [])
    ∧ netSalary info a
      = sumDaily info a + info.extraPerDay * a
        + (if info.soloDays > 0 then info.soloDays * 135 else 0)
        + info.bakeryAllowance
        - (((deductionsArr info).map Prod.snd).sum)
    ∧ (0 ≤ info.extraPerDay * a → 0 ≤ info.bakeryAllowance →
        netSalary info a
          = sumDaily info a
            + (if info.extraPerDay * a > 0 then info.extraPerDay * a else 0)
            + (if info.soloDays > 0 then info.soloDays * 135 else 0)
            + (if info.bakeryAllowance > 0 then info.bakeryAllowance else 0)
            - (((deductionsArr info).map Prod.snd).sum)) := by
  have hnet : netSalary info a
      = sumDaily info a + info.extraPerDay * a
        + (if info.soloDays > 0 then info.soloDays * 135 else 0)
        + info.bakeryAllowance
        - (((deductionsArr info).map Prod.snd).sum) := by
    unfold netSalary gross totalAdditional totalSolo totalBakeryAllow deductionSum
    rw [foldl_add_snd, orZero_eq, zero_add]
  refine ⟨?_, hnet, ?_⟩
  · unfold lineAdditions totalAdditional totalSolo totalBakeryAllow
    simp only [orZero_eq]
    by_cases h1 : info.extraPerDay * a > 0 <;> by_cases h2 : info.soloDays > 0 <;>
      by_cases h3 : info.bakeryAllowance > 0 <;>
      simp [h1, h2, h3, List.append_assoc]
  · intro hAdd hAllow
    have e1 : (if info.extraPerDay * a > 0 then info.extraPerDay * a else 0)
        = info.extraPerDay * a := by
      split_ifs with h
      · rfl
      · exact le_antisymm hAdd (not_lt.mp h)
    have e2 : (if info.bakeryAllowance > 0 then info.bakeryAllowance else 0)
        = info.bakeryAllowance := by
      split_ifs with h
      · rfl
      · exact le_antisymm hAllow (not_lt.mp h)
    rw [e1, e2, hnet]

/-- An instance of C8 (amended): daily rate 300, extra 20 per day, allowance 50 and
attendance 2 give the net salary 690, the base pay 600 plus the two rendered
amounts 40 and 50. -/
theorem C8_additions_rendered_iff_positive_witness :
    (0 : ℚ) ≤ (⟨300, 0, 20, 0, 50, 0, 0, 0, 0, 0, 0⟩ : EmpInfo).extraPerDay * 2
    ∧ (0 : ℚ) ≤ (⟨300, 0, 20, 0, 50, 0, 0, 0, 0, 0, 0⟩ : EmpInfo).bakeryAllowance
    ∧ netSalary ⟨300, 0, 20, 0, 50, 0, 0, 0, 0, 0, 0⟩ 2 = 690 := by
  have h1 : (0 : ℚ) ≤ (⟨300, 0, 20, 0, 50, 0, 0, 0, 0, 0, 0⟩ : EmpInfo).extraPerDay * 2 := by
    norm_num
  have h2 : (0 : ℚ) ≤ (⟨300, 0, 20, 0, 50, 0, 0, 0, 0, 0, 0⟩ : EmpInfo).bakeryAllowance := by
    norm_num
  refine ⟨h1, h2, ?_⟩
  rw [(C8_additions_rendered_iff_positive intStr "Ana".toList
    ⟨300, 0, 20, 0, 50, 0, 0, 0, 0, 0, 0⟩ 2).2.2 h1 h2]
  norm_num [sumDaily, totalD1, totalD2, deductionsArr]

/-- C9: the cell text is the net-salary line followed, exactly when the
previous balance P is strictly positive, by the line
`Previous Balance P - Cash Advances C = Current Balance P - C` with C the cash
advances only; the net-salary line does not depend on the previous balance. -/
theorem C9_previous_balance_line (numStr : ℚ → Str) (empName : Str) (info : EmpInfo)
    (a : ℚ) :
    salaryLine numStr empName info a
      = lineNet numStr empName info a
        ++ (if info.previousBalance > 0 then
              [nl] ++ "Previous Balance ".toList ++ numStr info.previousBalance
                ++ " - Cash Advances ".toList ++ numStr info.cashAdvances
                ++ " = Current Balance ".toList
                ++ numStr (info.previousBalance - info.cashAdvances)
            else [])
    ∧ (info.previousBalance > 0 ↔
        salaryLine numStr empName info a ≠ lineNet numStr empName info a)
    ∧ ∀ p : ℚ, lineNet numStr empName { info with previousBalance := p } a
        = lineNet numStr empName info a := by
  have key : salaryLine numStr empName info a
      = lineNet numStr empName info a
        ++ (if info.previousBalance > 0 then
              [nl] ++ "Previous Balance ".toList ++ numStr info.previousBalance
                ++ " - Cash Advances ".toList ++ numStr info.cashAdvances
                ++ " = Current Balance ".toList
                ++ numStr (info.previousBalance - info.cashAdvances)
            else []) := by
    unfold salaryLine
    simp only [orZero_eq]
    split_ifs <;> simp [List.append_assoc]
  refine ⟨key, ?_, ?_⟩
  · rw [key]
    by_cases h : info.previousBalance > 0
    · simp [h]
    · simp [h]
  · intro p
    rfl

/-! ## Duty-roster tokens -/

theorem greedyGroup_none {α : Type} (tail : Str → Option α) (r : Str)
    (h : ∀ b, b <:+ r → b ≠ [] → tail b = none) (pre : Str) :
    greedyGroup tail pre r = none := by
  induction r generalizing pre with
  | nil => rfl
  | cons c rest ih =>
    have h1 : greedyGroup tail (pre ++ [c]) rest = none :=
      ih (fun b hb hne => h b (hb.trans (List.suffix_cons c rest)) hne) _
    have h2 : tail (c :: rest) = none := h _ (List.suffix_refl _) (by simp)
    simp [greedyGroup, h1, h2]

theorem greedyGroup_some {α : Type} (tail : Str → Option α) (suf : Str) (v : α)
    (hv : tail suf = some v) (hne : suf ≠ [])
    (hprop : ∀ b, b <:+ suf → b ≠ [] → b ≠ suf → tail b = none)
    (x pre : Str) (hx : pre ++ x ≠ [])
    (hlt : (pre ++ x).all (fun c => !isLineTerminator c) = true) :
    greedyGroup tail pre (x ++ suf) = some (pre ++ x, v) := by
  induction x generalizing pre with
  | nil =>
    obtain ⟨c, rest, rfl⟩ := List.exists_cons_of_ne_nil hne
    have h1 : greedyGroup tail (pre ++ [c]) rest = none := by
      apply greedyGroup_none
      intro b hb hbne
      apply hprop b (hb.trans (List.suffix_cons c rest)) hbne
      intro hEq
      have := hb.length_le
      rw [hEq] at this
      simp at this
    simp only [List.append_nil] at hx hlt
    simp [greedyGroup, h1, hv, hx, hlt]
  | cons d x ih =>
    have h1 := ih (pre ++ [d]) (by simp) (by simpa using hlt)
    simp only [List.append_assoc, List.singleton_append] at h1
    simp [greedyGroup, h1]

/-- Two suffixes of one text that both start with the only `(` they contain
coincide. -/
theorem paren_suffix_unique (e b1 b2 t1 t2 : Str) (h1 : b1 <:+ e) (h2 : b2 <:+ e)
    (e1 : b1 = '(' :: t1) (n1 : '(' ∉ t1) (e2 : b2 = '(' :: t2) (n2 : '(' ∉ t2) :
    b1 = b2 := by
  have aux : ∀ (u v tu tv : Str), u <:+ v → u = '(' :: tu → v = '(' :: tv → '(' ∉ tv →
      u = v := by
    intro u v tu tv ⟨a, ha⟩ hu hv hn
    cases a with
    | nil => simpa using ha
    | cons c a =>
      exfalso
      apply hn
      have : tv = a ++ u := by
        rw [hv] at ha
        simp at ha
        exact ha.2.symm
      rw [this, hu]
      simp
  rcases List.suffix_or_suffix_of_suffix h1 h2 with h | h
  · exact aux b1 b2 t1 t2 h e1 e2 n2
  · exact (aux b2 b1 t2 t1 h e2 e1 n1).symm

theorem isDecimal_chars (h : Str) (hd : isDecimal h = true) :
    ∀ c ∈ h, c.isDigit = true ∨ c = '.' := by
  intro c hc
  rw [← List.takeWhile_append_dropWhile Char.isDigit h, List.mem_append] at hc
  rcases hc with hc | hc
  · exact Or.inl (List.mem_takeWhile_imp hc)
  · unfold isDecimal at hd
    simp only [Bool.and_eq_true, Bool.or_eq_true] at hd
    rcases hd.2 with hnil | hrest
    · rw [List.isEmpty_iff] at hnil
      rw [hnil] at hc
      simp at hc
    · cases hrw : h.dropWhile Char.isDigit with
      | nil => rw [hrw] at hc; simp at hc
      | cons d fr =>
        rw [hrw] at hc hrest
        simp at hrest
        rcases List.mem_cons.mp hc with rfl | hfr
        · exact Or.inr hrest.1.1
        · exact Or.inl (hrest.2 c hfr)

theorem isDecimal_no_paren (h : Str) (hd : isDecimal h = true) : '(' ∉ h := by
  intro hc
  rcases isDecimal_chars h hd _ hc with h1 | h1
  · exact absurd h1 (by decide)
  · exact absurd h1 (by decide)

theorem hdTail_shape (b : Str) (u : Unit) (hb : hdTail b = some u) :
    ∃ c1 c2, b = ['(', c1, c2, ')'] ∧ (c1 = 'H' ∨ c1 = 'h') ∧ (c2 = 'D' ∨ c2 = 'd') := by
  unfold hdTail at hb
  split at hb
  · split_ifs at hb with hc
    obtain ⟨rfl, h1, h2, rfl⟩ := hc
    exact ⟨_, _, rfl, h1, h2⟩
  · simp at hb

theorem hoursTail_shape (x1 x2 y1 y2 : Char) (b v : Str)
    (hb : hoursTail x1 x2 y1 y2 b = some v) :
    ∃ c1 c2, b = '(' :: c1 :: c2 :: ':' :: (v ++ [')']) ∧ (c1 = x1 ∨ c1 = x2)
      ∧ (c2 = y1 ∨ c2 = y2) ∧ isDecimal v = true := by
  unfold hoursTail at hb
  split at hb
  · split_ifs at hb with hc
    obtain ⟨rfl, h1, h2, rfl, h3, h4⟩ := hc
    simp only [Option.some.injEq] at hb
    subst hb
    refine ⟨_, _, ?_, h1, h2, h4⟩
    rw [List.dropLast_append_getLast? _ h3]
  · simp at hb

theorem hoursTail_intro (x1 x2 y1 y2 c1 c2 : Char) (h : Str)
    (h1 : c1 = x1 ∨ c1 = x2) (h2 : c2 = y1 ∨ c2 = y2) (hd : isDecimal h = true) :
    hoursTail x1 x2 y1 y2 ('(' :: c1 :: c2 :: ':' :: (h ++ [')'])) = some h := by
  simp [hoursTail, h1, h2, hd]

theorem parenTail_hd : ParenTail hdTail := by
  intro b u hb
  obtain ⟨c1, c2, rfl, h1, h2⟩ := hdTail_shape b u hb
  refine ⟨_, rfl, ?_⟩
  rcases h1 with rfl | rfl <;> rcases h2 with rfl | rfl <;> decide

theorem parenTail_hours (x1 x2 y1 y2 : Char) (hx1 : x1 ≠ '(') (hx2 : x2 ≠ '(')
    (hy1 : y1 ≠ '(') (hy2 : y2 ≠ '(') : ParenTail (hoursTail x1 x2 y1 y2) := by
  intro b v hb
  obtain ⟨c1, c2, rfl, h1, h2, hd⟩ := hoursTail_shape x1 x2 y1 y2 b v hb
  refine ⟨_, rfl, ?_⟩
  have hv := isDecimal_no_paren v hd
  have n1 : c1 ≠ '(' := by rcases h1 with rfl | rfl <;> assumption
  have n2 : c2 ≠ '(' := by rcases h2 with rfl | rfl <;> assumption
  simp [n1.symm, n2.symm, hv]

theorem greedy_paren_some {α : Type} (tail : Str → Option α) (hpt : ParenTail tail)
    (t nm : Str) (v : α) (ht : '(' ∉ t) (hv : tail ('(' :: t) = some v) (hnm : nm ≠ [])
    (hlt : nm.all (fun c => !isLineTerminator c) = true) :
    greedyGroup tail [] (nm ++ '(' :: t) = some (nm, v) := by
  have key := greedyGroup_some tail ('(' :: t) v hv (by simp) ?_ nm []
    (by simpa using hnm) (by simpa using hlt)
  · simpa using key
  · intro b hb _ hbS
    by_contra hcon
    obtain ⟨w, hw⟩ := Option.ne_none_iff_exists'.mp hcon
    obtain ⟨t2, rfl, ht2⟩ := hpt b w hw
    exact hbS (paren_suffix_unique _ _ _ t2 t hb (List.suffix_refl _) rfl ht2 rfl ht)

theorem greedy_paren_none {α : Type} (tail : Str → Option α) (hpt : ParenTail tail)
    (t nm pre : Str) (ht : '(' ∉ t) (hv : tail ('(' :: t) = none) :
    greedyGroup tail pre (nm ++ '(' :: t) = none := by
  apply greedyGroup_none
  intro b hb _
  by_contra hcon
  obtain ⟨w, hw⟩ := Option.ne_none_iff_exists'.mp hcon
  obtain ⟨t2, rfl, ht2⟩ := hpt b w hw
  have := paren_suffix_unique _ _ _ t2 t hb (List.suffix_append nm _) rfl ht2 rfl ht
  rw [this, hv] at hw
  exact absurd hw (by simp)

theorem greedy_bare_none {α : Type} (tail : Str → Option α) (hpt : ParenTail tail)
    (e pre : Str) (he : '(' ∉ e) : greedyGroup tail pre e = none := by
  apply greedyGroup_none
  intro b hb _
  by_contra hcon
  obtain ⟨w, hw⟩ := Option.ne_none_iff_exists'.mp hcon
  obtain ⟨t2, rfl, _⟩ := hpt b w hw
  exact he (hb.subset (List.mem_cons_self _ _))

theorem hdTail_hours_none (c1 c2 : Char) (h : Str) :
    hdTail ('(' :: c1 :: c2 :: ':' :: (h ++ [')'])) = none := by
  cases h <;> simp [hdTail]

theorem decimalValue_eq (s : Str) :
    decimalValue s = (natOfDigits (s.takeWhile Char.isDigit) : ℚ)
      + (natOfDigits ((s.dropWhile Char.isDigit).drop 1) : ℚ)
        / 10 ^ ((s.dropWhile Char.isDigit).drop 1).length := rfl

/-- C4: a trimmed roster entry is classified by the first matching rule, in the
order HD, OT, UT, bare name: `Name(HD)` in any letter case credits 1/2,
`Name(OT:h)` with `h` a decimal credits (12 + h)/12, `Name(UT:h)` credits h/12,
and an entry without a parenthesis credits 1; the credited name is the trimmed
text before the parenthesis (`Name` is a non-empty text without line breaks).
`Nina(OT:3)` gives 5/4, `Anna(UT:2)` 1/6, `Romelyn` 1 and `Jeanny(HD)` 1/2. -/
theorem C4_entry_classification (nm h : Str) (c1 c2 o1 o2 u1 u2 : Char)
    (hnm : nm ≠ []) (hlt : nm.all (fun c => !isLineTerminator c) = true)
    (hdec : isDecimal h = true)
    (hc1 : c1 = 'H' ∨ c1 = 'h') (hc2 : c2 = 'D' ∨ c2 = 'd')
    (ho1 : o1 = 'O' ∨ o1 = 'o') (ho2 : o2 = 'T' ∨ o2 = 't')
    (hu1 : u1 = 'U' ∨ u1 = 'u') (hu2 : u2 = 'T' ∨ u2 = 't') :
    classifyEntry (nm ++ ['(', c1, c2, ')']) = (jsTrim nm, 1 / 2)
    ∧ classifyEntry (nm ++ '(' :: o1 :: o2 :: ':' :: (h ++ [')']))
        = (jsTrim nm, (12 + decimalValue h) / 12)
    ∧ classifyEntry (nm ++ '(' :: u1 :: u2 :: ':' :: (h ++ [')']))
        = (jsTrim nm, decimalValue h / 12)
    ∧ ('(' ∉ nm → jsTrim nm ≠ [] → classifyEntry nm = (jsTrim nm, 1))
    ∧ (∀ e g, hdMatch e = some g → classifyEntry e = (jsTrim g, 1 / 2))
    ∧ (∀ e g x, hdMatch e = none → otMatch e = some (g, x) →
        classifyEntry e = (jsTrim g, (12 + decimalValue x) / 12))
    ∧ (∀ e g x, hdMatch e = none → otMatch e = none → utMatch e = some (g, x) →
        classifyEntry e = (jsTrim g, decimalValue x / 12))
    ∧ (∀ e, hdMatch e = none → otMatch e = none → utMatch e = none → jsTrim e ≠ [] →
        classifyEntry e = (jsTrim e, 1))
    ∧ classifyEntry "Nina(OT:3)".toList = ("Nina".toList, 5 / 4)
    ∧ classifyEntry "Anna(UT:2)".toList = ("Anna".toList, 1 / 6)
    ∧ classifyEntry "Romelyn".toList = ("Romelyn".toList, 1)
    ∧ classifyEntry "Jeanny(HD)".toList = ("Jeanny".toList, 1 / 2) := by
  have ptO := parenTail_hours 'O' 'o' 'T' 't' (by decide) (by decide) (by decide) (by decide)
  have ptU := parenTail_hours 'U' 'u' 'T' 't' (by decide) (by decide) (by decide) (by decide)
  have no1 : o1 ≠ '(' := by rcases ho1 with rfl | rfl <;> decide
  have no2 : o2 ≠ '(' := by rcases ho2 with rfl | rfl <;> decide
  have nu1 : u1 ≠ '(' := by rcases hu1 with rfl | rfl <;> decide
  have nu2 : u2 ≠ '(' := by rcases hu2 with rfl | rfl <;> decide
  have hvp := isDecimal_no_paren h hdec
  have pO : '(' ∉ o1 :: o2 :: ':' :: (h ++ [')']) := by simp [no1.symm, no2.symm, hvp]
  have pU : '(' ∉ u1 :: u2 :: ':' :: (h ++ [')']) := by simp [nu1.symm, nu2.symm, hvp]
  refine ⟨?_, ?_, ?_, ?_, ?_, ?_, ?_, ?_, ?_, ?_, ?_, ?_⟩
  · have pH : '(' ∉ [c1, c2, ')'] := by
      rcases hc1 with rfl | rfl <;> rcases hc2 with rfl | rfl <;> decide
    have hm : hdMatch (nm ++ ['(', c1, c2, ')']) = some nm := by
      unfold hdMatch
      rw [greedy_paren_some hdTail parenTail_hd [c1, c2, ')'] nm () pH
        (by simp [hdTail, hc1, hc2]) hnm hlt]
      rfl
    simp [classifyEntry, hm]
  · have hm : hdMatch (nm ++ '(' :: o1 :: o2 :: ':' :: (h ++ [')'])) = none := by
      unfold hdMatch
      rw [greedy_paren_none hdTail parenTail_hd _ nm [] pO (hdTail_hours_none o1 o2 h)]
      rfl
    have ho : otMatch (nm ++ '(' :: o1 :: o2 :: ':' :: (h ++ [')'])) = some (nm, h) := by
      unfold otMatch
      exact greedy_paren_some _ ptO _ nm h pO
        (hoursTail_intro 'O' 'o' 'T' 't' o1 o2 h ho1 ho2 hdec) hnm hlt
    simp [classifyEntry, hm, ho]
  · have hm : hdMatch (nm ++ '(' :: u1 :: u2 :: ':' :: (h ++ [')'])) = none := by
      unfold hdMatch
      rw [greedy_paren_none hdTail parenTail_hd _ nm [] pU (hdTail_hours_none u1 u2 h)]
      rfl
    have ho : otMatch (nm ++ '(' :: u1 :: u2 :: ':' :: (h ++ [')'])) = none := by
      unfold otMatch
      apply greedy_paren_none _ ptO _ nm [] pU
      rcases hu1 with rfl | rfl <;> simp [hoursTail]
    have hu : utMatch (nm ++ '(' :: u1 :: u2 :: ':' :: (h ++ [')'])) = some (nm, h) := by
      unfold utMatch
      exact greedy_paren_some _ ptU _ nm h pU
        (hoursTail_intro 'U' 'u' 'T' 't' u1 u2 h hu1 hu2 hdec) hnm hlt
    simp [classifyEntry, hm, ho, hu]
  · intro hp htrim
    have hm : hdMatch nm = none := by
      unfold hdMatch
      rw [greedy_bare_none hdTail parenTail_hd nm [] hp]
      rfl
    have ho : otMatch nm = none := greedy_bare_none _ ptO nm [] hp
    have hu : utMatch nm = none := greedy_bare_none _ ptU nm [] hp
    simp [classifyEntry, hm, ho, hu, htrim]
  · intro e g h1
    simp [classifyEntry, h1]
  · intro e g x h1 h2
    simp [classifyEntry, h1, h2]
  · intro e g x h1 h2 h3
    simp [classifyEntry, h1, h2, h3]
  · intro e h1 h2 h3 h4
    simp [classifyEntry, h1, h2, h3, h4]
  · have hm : hdMatch "Nina(OT:3)".toList = none := by decide
    have ho : otMatch "Nina(OT:3)".toList = some ("Nina".toList, "3".toList) := by decide
    have ht : jsTrim "Nina".toList = "Nina".toList := by decide
    have e1 : natOfDigits ("3".toList.takeWhile Char.isDigit) = 3 := by decide
    have e2 : natOfDigits (("3".toList.dropWhile Char.isDigit).drop 1) = 0 := by decide
    have e3 : (("3".toList.dropWhile Char.isDigit).drop 1).length = 0 := by decide
    simp only [classifyEntry, hm, ho, ht, decimalValue_eq, e1, e2, e3]
    norm_num
  · have hm : hdMatch "Anna(UT:2)".toList = none := by decide
    have ho : otMatch "Anna(UT:2)".toList = none := by decide
    have hu : utMatch "Anna(UT:2)".toList = some ("Anna".toList, "2".toList) := by decide
    have ht : jsTrim "Anna".toList = "Anna".toList := by decide
    have e1 : natOfDigits ("2".toList.takeWhile Char.isDigit) = 2 := by decide
    have e2 : natOfDigits (("2".toList.dropWhile Char.isDigit).drop 1) = 0 := by decide
    have e3 : (("2".toList.dropWhile Char.isDigit).drop 1).length = 0 := by decide
    simp only [classifyEntry, hm, ho, hu, ht, decimalValue_eq, e1, e2, e3]
    norm_num
  · have hm : hdMatch "Romelyn".toList = none := by decide
    have ho : otMatch "Romelyn".toList = none := by decide
    have hu : utMatch "Romelyn".toList = none := by decide
    have ht : jsTrim "Romelyn".toList = "Romelyn".toList := by decide
    simp only [classifyEntry, hm, ho, hu, ht]
    simp
  · have hm : hdMatch "Jeanny(HD)".toList = some "Jeanny".toList := by decide
    have ht : jsTrim "Jeanny".toList = "Jeanny".toList := by decide
    simp only [classifyEntry, hm, ht]

/-- An instance of C4: `Nina(ot:1.5)` credits Nina with (12 + 1.5)/12. -/
theorem C4_entry_classification_witness :
    classifyEntry ("Nina".toList ++ '(' :: 'o' :: 't' :: ':' :: ("1.5".toList ++ [')']))
      = (jsTrim "Nina".toList, (12 + decimalValue "1.5".toList) / 12) :=
  (C4_entry_classification "Nina".toList "1.5".toList 'H' 'd' 'o' 't' 'u' 'T'
    (by decide) (by decide) (by decide) (by decide) (by decide) (by decide) (by decide)
    (by decide) (by decide)).2.1

/-! ## Attendance accumulation -/

theorem getOwn_setOwn_same {V : Type} (o : JsObj V) (k : Str) (v : V) :
    getOwn (setOwn o k v) k = some v := by
  induction o with
  | nil => simp [setOwn, getOwn]
  | cons p t ih =>
    obtain ⟨k', v'⟩ := p
    by_cases h : k' = k
    · simp [setOwn, getOwn, h]
    · simp [setOwn, getOwn, h, ih]

theorem getOwn_setOwn_ne {V : Type} (o : JsObj V) (k n : Str) (v : V) (h : k ≠ n) :
    getOwn (setOwn o k v) n = getOwn o n := by
  induction o with
  | nil => simp [setOwn, getOwn, h]
  | cons p t ih =>
    obtain ⟨k', v'⟩ := p
    by_cases h1 : k' = k
    · subst h1
      simp [setOwn, getOwn, h]
    · by_cases h2 : k' = n
      · subst h2
        simp [setOwn, getOwn, h1]
      · simp [setOwn, getOwn, h1, h2, ih]

theorem creditAttendance_getOwn_ne (counts : JsObj AttVal) (name n : Str) (inc : ℚ)
    (h : name ≠ n) : getOwn (creditAttendance counts name inc) n = getOwn counts n := by
  unfold creditAttendance
  cases h1 : getOwn counts name with
  | none =>
    by_cases hp : name ∈ objectProtoNames
    · simp only [hp, if_true, h1]
      split_ifs
      · rfl
      · exact getOwn_setOwn_ne _ _ _ _ h
    · simp only [hp, if_false, getOwn_setOwn_same]
      rw [getOwn_setOwn_ne _ _ _ _ h, getOwn_setOwn_ne _ _ _ _ h]
  | some v =>
    cases v with
    | text =>
      simp only [h1]
      exact getOwn_setOwn_ne _ _ _ _ h
    | num q =>
      by_cases hq : q = 0
      · simp only [hq, if_true, getOwn_setOwn_same]
        rw [getOwn_setOwn_ne _ _ _ _ h, getOwn_setOwn_ne _ _ _ _ h]
      · simp only [hq, if_false, h1]
        exact getOwn_setOwn_ne _ _ _ _ h

theorem creditAttendance_getOwn_same (counts : JsObj AttVal) (n : Str) (inc : ℚ)
    (hn : n ∉ objectProtoNames) :
    getOwn (creditAttendance counts n inc) n = bump (getOwn counts n) inc := by
  unfold creditAttendance
  cases h1 : getOwn counts n with
  | none => simp [hn, getOwn_setOwn_same, bump]
  | some v =>
    cases v with
    | text => simp [h1, getOwn_setOwn_same, bump]
    | num q =>
      by_cases hq : q = 0
      · simp [hq, getOwn_setOwn_same, bump]
      · simp [hq, h1, getOwn_setOwn_same, bump]

theorem creditEntry_getOwn (counts : JsObj AttVal) (entry n : Str)
    (hn : n ∉ objectProtoNames) :
    getOwn (creditEntry counts entry) n = stepVal n (getOwn counts n) (classifyEntry entry) := by
  unfold creditEntry stepVal
  by_cases h1 : (classifyEntry entry).1 ≠ []
  · rw [if_pos h1]
    by_cases h2 : (classifyEntry entry).1 = n
    · rw [if_pos ⟨h1, h2⟩]
      have := creditAttendance_getOwn_same counts (classifyEntry entry).1
        (classifyEntry entry).2 (h2 ▸ hn)
      rw [h2] at this
      rw [h2]
      exact this
    · rw [if_neg (fun h => h2 h.2)]
      exact creditAttendance_getOwn_ne _ _ _ _ h2
  · rw [if_neg h1, if_neg (fun h => h1 h.1)]

theorem foldl_creditEntry_getOwn (entries : List Str) (counts : JsObj AttVal) (n : Str)
    (hn : n ∉ objectProtoNames) :
    getOwn (entries.foldl creditEntry counts) n
      = (entries.map classifyEntry).foldl (stepVal n) (getOwn counts n) := by
  induction entries generalizing counts with
  | nil => rfl
  | cons e t ih => simp only [List.foldl_cons, List.map_cons, ih, creditEntry_getOwn _ _ _ hn]

theorem foldl_stepVal_filter (n : Str) (l : List (Str × ℚ)) (cur : Option AttVal) :
    l.foldl (stepVal n) cur
      = (((l.filter (fun p => decide (p.1 ≠ []))).filter (fun p => decide (p.1 = n))).map
          Prod.snd).foldl bump cur := by
  induction l generalizing cur with
  | nil => rfl
  | cons p t ih =>
    rw [List.foldl_cons, ih]
    unfold stepVal
    by_cases h1 : p.1 ≠ []
    · by_cases h2 : p.1 = n
      · rw [if_pos ⟨h1, h2⟩, List.filter_cons_of_pos (by simpa using h1),
          List.filter_cons_of_pos (by simpa using h2), List.map_cons, List.foldl_cons]
      · rw [if_neg (fun h => h2 h.2), List.filter_cons_of_pos (by simpa using h1),
          List.filter_cons_of_neg (by simpa using h2)]
    · rw [if_neg (fun h => h1 h.1), List.filter_cons_of_neg (by simpa using h1)]

theorem foldl_bump_num (l : List ℚ) (q : ℚ) :
    l.foldl bump (some (AttVal.num q)) = some (AttVal.num (q + l.sum)) := by
  induction l generalizing q with
  | nil => simp
  | cons a t ih => simp [List.foldl_cons, bump, ih, add_assoc]

theorem foldl_bump_none (l : List ℚ) :
    l.foldl bump none = if l = [] then none else some (AttVal.num l.sum) := by
  cases l with
  | nil => simp
  | cons a t => simp [List.foldl_cons, bump, foldl_bump_num]

theorem attendanceRow_getOwn (startDate endDate : Int) (counts : JsObj AttVal)
    (row : DataRow) (n : Str) (hn : n ∉ objectProtoNames) :
    getOwn (attendanceRow startDate endDate counts row) n
      = (((rowCredits startDate endDate row).filter (fun p => decide (p.1 = n))).map
          Prod.snd).foldl bump (getOwn counts n) := by
  unfold attendanceRow rowCredits
  cases row.dateVal with
  | none => simp
  | some d =>
    by_cases hr : d < startDate ∨ d > endDate
    · have hr2 : ¬ (startDate ≤ d ∧ d ≤ endDate) := by
        rintro ⟨h1, h2⟩
        rcases hr with h | h
        · exact absurd h (not_lt.mpr h1)
        · exact absurd h (not_lt.mpr h2)
      simp [hr, hr2]
    · have hr2 : startDate ≤ d ∧ d ≤ endDate := by
        constructor
        · exact not_lt.mp (fun h => hr (Or.inl h))
        · exact not_lt.mp (fun h => hr (Or.inr h))
      simp only [hr, hr2, if_false, if_true, and_self]
      by_cases hi : innerDuties row.duties = []
      · simp [hi, rosterParts, splitChar, splitCharAux, jsTrim, jsTrimEnd]
      · simp only [hi, if_false]
        rw [foldl_creditEntry_getOwn _ _ _ hn, foldl_stepVal_filter]

theorem attendance_foldl_getOwn (startDate endDate : Int) (rows : List DataRow)
    (counts : JsObj AttVal) (n : Str) (hn : n ∉ objectProtoNames) :
    getOwn (rows.foldl (attendanceRow startDate endDate) counts) n
      = ((((rows.map (rowCredits startDate endDate)).flatten).filter
          (fun p => decide (p.1 = n))).map Prod.snd).foldl bump (getOwn counts n) := by
  induction rows generalizing counts with
  | nil => rfl
  | cons r t ih =>
    rw [List.foldl_cons, ih, attendanceRow_getOwn _ _ _ _ _ hn]
    simp [List.foldl_append]

/-- C6 (as stated) fails: one in-range row whose roster is the single bare
token `constructor` is due the credit 1, yet the value accumulated under that
name is not a number, because the read `attendanceCounts[name]` sees the member
inherited from `Object.prototype` and the initialisation to 0 is skipped. -/
theorem C6_counterexample :
    creditsOf 0 10 [⟨some 5, "duties=".toList ++ [dq] ++ "constructor".toList ++ [dq]⟩]
        "constructor".toList = [1]
    ∧ getOwn (attendanceCounts 0 10
        [⟨some 5, "duties=".toList ++ [dq] ++ "constructor".toList ++ [dq]⟩])
        "constructor".toList = some AttVal.text := by
  constructor
  · have h1 : rosterParts (innerDuties ("duties=".toList ++ [dq] ++ "constructor".toList ++ [dq]))
        = ["constructor".toList] := by decide
    have h2 : hdMatch "constructor".toList = none := by decide
    have h3 : otMatch "constructor".toList = none := by decide
    have h4 : utMatch "constructor".toList = none := by decide
    have h5 : jsTrim "constructor".toList = "constructor".toList := by decide
    have h6 : classifyEntry "constructor".toList = ("constructor".toList, 1) := by
      simp only [classifyEntry, h2, h3, h4, h5]
      simp
    simp only [creditsOf, rowCredits, List.map_cons, List.map_nil, h1, h6]
    simp
  · decide

/-- C6 (amended): for every employee name that is not a member name of
`Object.prototype`, the value accumulated in `attendanceCounts` is the plain sum
of the increments of that employee's entries in the rosters of exactly the rows
whose date `d` satisfies `startDate ≤ d ≤ endDate` (absent when there is no such
entry); a row without a date or outside the range leaves the object unchanged. -/
theorem C6_attendance_is_range_sum (startDate endDate : Int) (dataValues : List DataRow)
    (n : Str) (hn : n ∉ objectProtoNames) :
    getOwn (attendanceCounts startDate endDate dataValues) n
      = (if creditsOf startDate endDate dataValues n = [] then none
         else some (AttVal.num (creditsOf startDate endDate dataValues n).sum))
    ∧ (∀ counts row, row.dateVal = none →
        attendanceRow startDate endDate counts row = counts)
    ∧ (∀ counts row d, row.dateVal = some d → (d < startDate ∨ endDate < d) →
        attendanceRow startDate endDate counts row = counts)
    ∧ (∀ row d, row.dateVal = some d → startDate ≤ d → d ≤ endDate →
        rowCredits startDate endDate row
          = ((rosterParts (innerDuties row.duties)).map classifyEntry).filter
              (fun p => decide (p.1 ≠ []))) := by
  refine ⟨?_, ?_, ?_, ?_⟩
  · unfold attendanceCounts
    rw [attendance_foldl_getOwn _ _ _ _ _ hn]
    simp only [getOwn]
    rw [foldl_bump_none]
    rfl
  · intro counts row h
    simp [attendanceRow, h]
  · intro counts row d h hd
    have : d < startDate ∨ d > endDate := hd
    simp [attendanceRow, h, this]
  · intro row d h h1 h2
    simp [rowCredits, h, h1, h2]

/-- An instance of C6 (amended): the roster `Nina(HD), Nina` on an in-range date. -/
theorem C6_attendance_is_range_sum_witness :
    "Nina".toList ∉ objectProtoNames
    ∧ getOwn (attendanceCounts 0 10
        [⟨some 5, "duties=".toList ++ [dq] ++ "Nina(HD), Nina".toList ++ [dq]⟩]) "Nina".toList
      = (if creditsOf 0 10
            [⟨some 5, "duties=".toList ++ [dq] ++ "Nina(HD), Nina".toList ++ [dq]⟩]
            "Nina".toList = [] then none
         else some (AttVal.num (creditsOf 0 10
            [⟨some 5, "duties=".toList ++ [dq] ++ "Nina(HD), Nina".toList ++ [dq]⟩]
            "Nina".toList).sum)) :=
  ⟨by decide, (C6_attendance_is_range_sum 0 10
    [⟨some 5, "duties=".toList ++ [dq] ++ "Nina(HD), Nina".toList ++ [dq]⟩] "Nina".toList
    (by decide)).1⟩

/-! ## Rate table and output rows -/

theorem rateRowFor_cons (r : EmpRow) (t : List EmpRow) (k : Str) :
    rateRowFor (r :: t) k
      = (match rateRowFor t k with
         | some x => some x
         | none => if jsTrim r.name = k ∧ k ≠ [] then some r else none) := rfl

theorem buildEmpInfo_fold (rows : List EmpRow) (acc : EmpTable) (k : Str)
    (h : ∀ r ∈ rows, jsTrim r.name ≠ protoKey) :
    (rows.foldl empInfoRow acc).proto = acc.proto
    ∧ getOwn (rows.foldl empInfoRow acc).own k
        = (match rateRowFor rows k with
           | some r => some (toInfo r)
           | none => getOwn acc.own k) := by
  induction rows generalizing acc with
  | nil => simp [rateRowFor]
  | cons r t ih =>
    have ht : ∀ x ∈ t, jsTrim x.name ≠ protoKey :=
      fun x hx => h x (List.mem_cons_of_mem _ hx)
    have hr : jsTrim r.name ≠ protoKey := h r (List.mem_cons_self _ _)
    obtain ⟨ih1, ih2⟩ := ih (empInfoRow acc r) ht
    have hp : (empInfoRow acc r).proto = acc.proto := by
      unfold empInfoRow
      by_cases h0 : jsTrim r.name = []
      · simp [h0]
      · simp [h0, hr]
    refine ⟨by rw [List.foldl_cons, ih1, hp], ?_⟩
    rw [List.foldl_cons, ih2, rateRowFor_cons]
    cases rateRowFor t k with
    | some x => rfl
    | none =>
      simp only
      unfold empInfoRow
      by_cases h0 : jsTrim r.name = []
      · have : ¬ (jsTrim r.name = k ∧ k ≠ []) := by
          rintro ⟨h1, h2⟩
          exact h2 (h1 ▸ h0)
        simp [h0, this]
      · by_cases h1 : jsTrim r.name = k
        · have hk : k ≠ [] := h1 ▸ h0
          simp only [h0, hr, if_false]
          rw [h1, getOwn_setOwn_same]
          simp [hk]
        · simp only [h0, hr, if_false]
          rw [getOwn_setOwn_ne _ _ _ _ h1]
          simp [h1]

theorem lookupInfo_build (empValues : List EmpRow) (k : Str)
    (htbl : ∀ r ∈ empValues, jsTrim r.name ≠ protoKey)
    (hk : k ∉ objectProtoNames) :
    lookupInfo (buildEmpInfo empValues) k
      = (match rateRowFor empValues k with
         | some r => InfoLookup.found (toInfo r)
         | none => InfoLookup.missing) := by
  obtain ⟨h1, h2⟩ := buildEmpInfo_fold empValues ⟨[], none⟩ k htbl
  unfold lookupInfo buildEmpInfo
  rw [h2, h1]
  cases rateRowFor empValues k with
  | some r => rfl
  | none => simp [getOwn, hk]

theorem salaryRowsAux_eq (numStr : ℚ → Str) (counts : JsObj AttVal)
    (empValues : List EmpRow) (keys : List Str)
    (htbl : ∀ r ∈ empValues, jsTrim r.name ≠ protoKey)
    (hkeys : ∀ k ∈ keys, k ∉ objectProtoNames ∧ ∃ q, getOwn counts k = some (AttVal.num q)) :
    salaryRowsAux numStr counts (buildEmpInfo empValues) keys
      = some (keys.filterMap (rowFor numStr counts empValues)) := by
  induction keys with
  | nil => rfl
  | cons k ks ih =>
    obtain ⟨hk, q, hq⟩ := hkeys k (List.mem_cons_self _ _)
    have ih' := ih (fun x hx => hkeys x (List.mem_cons_of_mem _ hx))
    unfold salaryRowsAux
    rw [hq]
    simp only
    rw [lookupInfo_build empValues k htbl hk, ih']
    cases hr : rateRowFor empValues k with
    | some r => simp [List.filterMap_cons, rowFor, hq, hr]
    | none => simp [List.filterMap_cons, rowFor, hq, hr]

theorem insertIndex_perm (x : Nat × Str) (l : List (Nat × Str)) :
    (insertIndex x l).Perm (x :: l) := by
  induction l with
  | nil => exact List.Perm.refl _
  | cons y t ih =>
    unfold insertIndex
    split_ifs
    · exact List.Perm.refl _
    · exact (List.Perm.cons y ih).trans (List.Perm.swap x y t)

theorem sortIndices_perm (l : List (Nat × Str)) : (sortIndices l).Perm l := by
  induction l with
  | nil => exact List.Perm.refl _
  | cons x t ih => exact (insertIndex_perm x _).trans (List.Perm.cons x ih)

theorem ownKeys_perm {V : Type} (o : JsObj V) : (ownKeys o).Perm (o.map Prod.fst) := by
  unfold ownKeys
  have h1 : ((o.filterMap (fun p => (arrayIndex p.1).map (fun n => (n, p.1)))).map Prod.snd)
      = (o.filter (fun p => (arrayIndex p.1).isSome)).map Prod.fst := by
    induction o with
    | nil => rfl
    | cons p t ih =>
      cases hp : arrayIndex p.1 with
      | none => simp [List.filterMap_cons, List.filter_cons, hp, ih]
      | some n => simp [List.filterMap_cons, List.filter_cons, hp, ih]
  have h2 : ((sortIndices (o.filterMap (fun p => (arrayIndex p.1).map (fun n => (n, p.1))))).map
      Prod.snd).Perm ((o.filter (fun p => (arrayIndex p.1).isSome)).map Prod.fst) := by
    rw [← h1]
    exact (sortIndices_perm _).map _
  have h3 : ((o.filter (fun p => (arrayIndex p.1).isSome)).map Prod.fst
      ++ (o.filter (fun p => (arrayIndex p.1).isNone)).map Prod.fst).Perm (o.map Prod.fst) := by
    rw [← List.map_append]
    apply List.Perm.map
    have : (fun p : Str × V => (arrayIndex p.1).isNone)
        = (fun p => !(arrayIndex p.1).isSome) := by
      funext p
      cases arrayIndex p.1 <;> rfl
    rw [this]
    exact List.filter_append_perm _ _
  exact (List.Perm.append_right _ h2).trans h3

theorem getOwn_of_mem {V : Type} (o : JsObj V) (k : Str) (hk : k ∈ o.map Prod.fst) :
    ∃ v, getOwn o k = some v ∧ (k, v) ∈ o := by
  induction o with
  | nil => simp at hk
  | cons p t ih =>
    obtain ⟨k', v'⟩ := p
    by_cases h : k' = k
    · subst h
      exact ⟨v', by simp [getOwn], List.mem_cons_self _ _⟩
    · have hk' : k ∈ t.map Prod.fst := by
        simp only [List.map_cons, List.mem_cons] at hk
        rcases hk with hk | hk
        · exact absurd hk.symm h
        · exact hk
      obtain ⟨v, hv, hm⟩ := ih hk'
      exact ⟨v, by simp [getOwn, h, hv], List.mem_cons_of_mem _ hm⟩

theorem rateRowFor_isSome (empValues : List EmpRow) (k : Str) :
    (rateRowFor empValues k).isSome ↔ ∃ r ∈ empValues, jsTrim r.name = k ∧ k ≠ [] := by
  induction empValues with
  | nil => simp [rateRowFor]
  | cons r t ih =>
    rw [rateRowFor_cons]
    cases h : rateRowFor t k with
    | some x =>
      rw [h] at ih
      obtain ⟨y, hy, hy2⟩ := ih.mp rfl
      simp only [Option.isSome_some, true_iff]
      exact ⟨y, List.mem_cons_of_mem _ hy, hy2⟩
    | none =>
      rw [h] at ih
      have hno : ¬ ∃ r ∈ t, jsTrim r.name = k ∧ k ≠ [] := fun hh => by
        have := ih.mpr hh
        simp at this
      simp only
      by_cases hc : jsTrim r.name = k ∧ k ≠ []
      · rw [if_pos hc]
        simp only [Option.isSome_some, true_iff]
        exact ⟨r, List.mem_cons_self _ _, hc.1, hc.2⟩
      · rw [if_neg hc]
        simp only [Option.isSome_none, Bool.false_eq_true, false_iff]
        rintro ⟨y, hy, hy2⟩
        rcases List.mem_cons.mp hy with rfl | hy
        · exact hc hy2
        · exact hno ⟨y, hy, hy2⟩

/-- C10 (as stated) fails: the roster `Nina, constructor` against a rate table
that lists only Nina makes the run throw (no row at all is written), although
`constructor` is absent from the rate table and the roster `Nina` alone
produces Nina's row. -/
theorem C10_counterexample :
    rateRowFor [⟨"Nina".toList, some 300, none, none, none, none, none, none, none, none,
        none, none⟩] "constructor".toList = none
    ∧ updateSalaryDisplayRows intStr 0 10
        [⟨some 5, "duties=".toList ++ [dq] ++ "Nina, constructor".toList ++ [dq]⟩]
        [⟨"Nina".toList, some 300, none, none, none, none, none, none, none, none, none,
          none⟩] = none
    ∧ (updateSalaryDisplayRows intStr 0 10
        [⟨some 5, "duties=".toList ++ [dq] ++ "Nina".toList ++ [dq]⟩]
        [⟨"Nina".toList, some 300, none, none, none, none, none, none, none, none, none,
          none⟩]).isSome = true := by
  refine ⟨by decide, by decide, by decide⟩

/-- C10 (amended): for an attendance object that holds numbers under names that
are not member names of `Object.prototype`, and a rate table without a row named
`__proto__`, the run does not throw and the output has, in key order, exactly one
row for each attended employee whose name is the trimmed non-empty name of some
rate row (built from the last such row) and no row for an employee absent from
the rate table; each row depends only on its own employee. -/
theorem C10_rows_for_known_employees (numStr : ℚ → Str) (counts : JsObj AttVal)
    (empValues : List EmpRow)
    (hnum : ∀ p ∈ counts, p.2 ≠ AttVal.text)
    (hkeys : ∀ p ∈ counts, p.1 ∉ objectProtoNames)
    (htbl : ∀ r ∈ empValues, jsTrim r.name ≠ protoKey) :
    salaryRows numStr counts (buildEmpInfo empValues)
      = some ((ownKeys counts).filterMap (rowFor numStr counts empValues))
    ∧ (ownKeys counts).Perm (counts.map Prod.fst)
    ∧ (∀ k, (rateRowFor empValues k).isSome ↔ ∃ r ∈ empValues, jsTrim r.name = k ∧ k ≠ [])
    ∧ (∀ k, rateRowFor empValues k = none → rowFor numStr counts empValues k = none)
    ∧ (∀ k q r, getOwn counts k = some (AttVal.num q) → rateRowFor empValues k = some r →
        rowFor numStr counts empValues k
          = some (salaryLine numStr k (toInfo r) (toFixed6 q)))
    ∧ (∀ startDate endDate dataValues, dataValues ≠ [] → empValues ≠ [] →
        updateSalaryDisplayRows numStr startDate endDate dataValues empValues
          = salaryRows numStr (attendanceCounts startDate endDate dataValues)
              (buildEmpInfo empValues)) := by
  refine ⟨?_, ownKeys_perm counts, rateRowFor_isSome empValues, ?_, ?_, ?_⟩
  · unfold salaryRows
    apply salaryRowsAux_eq numStr counts empValues _ htbl
    intro k hk
    have hk' : k ∈ counts.map Prod.fst := (ownKeys_perm counts).mem_iff.mp hk
    obtain ⟨v, hv, hm⟩ := getOwn_of_mem counts k hk'
    refine ⟨hkeys _ hm, ?_⟩
    cases v with
    | num q => exact ⟨q, hv⟩
    | text => exact absurd rfl (hnum _ hm)
  · intro k hk
    unfold rowFor
    rw [hk]
    cases getOwn counts k with
    | none => rfl
    | some v => cases v <;> rfl
  · intro k q r h1 h2
    unfold rowFor
    rw [h1, h2]
  · intro startDate endDate dataValues h1 h2
    unfold updateSalaryDisplayRows
    rw [if_neg h1]
    cases empValues with
    | nil => exact absurd rfl h2
    | cons r t => rfl

/-- An instance of C10 (amended): Nina is in the rate table (as ` Nina `), Zed is not;
exactly one row is produced. -/
theorem C10_rows_for_known_employees_witness :
    (salaryRows intStr [("Nina".toList, AttVal.num 1), ("Zed".toList, AttVal.num 2)]
        (buildEmpInfo [⟨" Nina ".toList, some 300, none, none, none, none, none, none, none,
          none, none, none⟩])).map List.length = some 1 := by
  have h := (C10_rows_for_known_employees intStr
    [("Nina".toList, AttVal.num 1), ("Zed".toList, AttVal.num 2)]
    [⟨" Nina ".toList, some 300, none, none, none, none, none, none, none, none, none, none⟩]
    (by decide) (by decide) (by decide)).1
  rw [h]
  decide

/-! ## Multi-line values: join and re-split -/

theorem splitEscAux_line (l cur : Str) (h : ¬ [bsl, 'n'] <:+: l) :
    splitEscAux l cur = [cur ++ l] := by
  induction l generalizing cur with
  | nil => simp [splitEscAux]
  | cons c t ih =>
    cases t with
    | nil => simp [splitEscAux]
    | cons d t =>
      have hne : ¬ (c = bsl ∧ d = 'n') := by
        rintro ⟨rfl, rfl⟩
        exact h ⟨[], t, rfl⟩
      have ht : ¬ [bsl, 'n'] <:+: d :: t := fun hi => h (hi.trans (List.infix_cons (List.infix_refl _)))
      rw [splitEscAux, if_neg hne, ih _ ht]
      simp

theorem splitEscAux_sep (l cur rest : Str) (h : ¬ [bsl, 'n'] <:+: l) :
    splitEscAux (l ++ bsl :: 'n' :: rest) cur = (cur ++ l) :: splitEscAux rest [] := by
  induction l generalizing cur with
  | nil => simp [splitEscAux]
  | cons c t ih =>
    have ht : ¬ [bsl, 'n'] <:+: t := fun hi => h (hi.trans (List.infix_cons (List.infix_refl _)))
    cases t with
    | nil =>
      have hne : ¬ (c = bsl ∧ bsl = 'n') := fun hh => absurd hh.2 (by decide)
      simp only [List.singleton_append]
      rw [splitEscAux, if_neg hne]
      simp [splitEscAux]
    | cons d t =>
      have hne : ¬ (c = bsl ∧ d = 'n') := by
        rintro ⟨rfl, rfl⟩
        exact h ⟨[], t, rfl⟩
      have := ih (cur ++ [c]) ht
      simp only [List.cons_append] at this ⊢
      rw [splitEscAux, if_neg hne, this]
      simp

theorem splitEsc_joinWith (ls : List Str) (hne : ls ≠ [])
    (h : ∀ l ∈ ls, ¬ [bsl, 'n'] <:+: l) :
    splitEsc (joinWith [bsl, 'n'] ls) = ls := by
  induction ls with
  | nil => exact absurd rfl hne
  | cons l t ih =>
    cases t with
    | nil =>
      simp only [joinWith, splitEsc]
      rw [splitEscAux_line _ _ (h l (List.mem_cons_self _ _))]
      simp
    | cons m t =>
      have ih' := ih (by simp) (fun x hx => h x (List.mem_cons_of_mem _ hx))
      simp only [joinWith, splitEsc, List.append_assoc, List.cons_append, List.nil_append]
      rw [splitEscAux_sep _ _ _ (h l (List.mem_cons_self _ _))]
      unfold splitEsc at ih'
      rw [ih']
      simp

theorem popTrailingBlanks_spec (values : List Str) :
    (∃ k, values = popTrailingBlanks values ++ List.replicate k [])
    ∧ (popTrailingBlanks values).getLast? ≠ some [] := by
  unfold popTrailingBlanks
  constructor
  · refine ⟨(values.reverse.takeWhile (fun l => decide (l = []))).length, ?_⟩
    have h1 : values = (values.reverse.dropWhile (fun l => decide (l = []))).reverse
        ++ (values.reverse.takeWhile (fun l => decide (l = []))).reverse := by
      rw [← List.reverse_append, List.takeWhile_append_dropWhile, List.reverse_reverse]
    have h2 : (values.reverse.takeWhile (fun l => decide (l = []))).reverse
        = List.replicate (values.reverse.takeWhile (fun l => decide (l = []))).length [] := by
      rw [List.eq_replicate_iff]
      refine ⟨by simp, ?_⟩
      intro b hb
      have := List.mem_takeWhile_imp (List.mem_reverse.mp hb)
      simpa using this
    rw [← h2]
    exact h1
  · rw [List.getLast?_reverse]
    intro hh
    cases hd : values.reverse.dropWhile (fun l => decide (l = [])) with
    | nil => rw [hd] at hh; simp at hh
    | cons x t =>
      rw [hd] at hh
      simp only [List.head?_cons, Option.some.injEq] at hh
      have := List.head_dropWhile_not (fun l => decide (l = [])) values.reverse
        (by rw [hd]; simp)
      simp only [hd, List.head_cons] at this
      simp [hh] at this

/-- C3 (as stated) fails: a cell line that itself holds the two characters
backslash, `n` is split in two when the joined value is re-split, and a column
of blank cells only comes back as one blank line instead of no line. -/
theorem C3_counterexample :
    splitEsc (gatherLinesKeepBlanks_ [['a', bsl, 'n', 'b']]) = ["a".toList, "b".toList]
    ∧ popTrailingBlanks [['a', bsl, 'n', 'b']] = [['a', bsl, 'n', 'b']]
    ∧ splitEsc (gatherLinesKeepBlanks_ [[], []]) = [[]]
    ∧ popTrailingBlanks [[], []] = [] := by
  decide

/-- C3 (amended): when no cell line contains the two characters backslash, `n`,
joining with `gatherLinesKeepBlanks_` and re-splitting on that escape gives
back the sequence with only its trailing blank lines removed (interior blank
lines stay in place, nothing else is added, dropped or changed), except that a
sequence with no non-blank line comes back as a single blank line. -/
theorem C3_join_split_roundtrip (values : List Str)
    (h : ∀ l ∈ values, ¬ [bsl, 'n'] <:+: l) :
    splitEsc (gatherLinesKeepBlanks_ values)
      = (if popTrailingBlanks values = [] then [[]] else popTrailingBlanks values)
    ∧ (∃ k, values = popTrailingBlanks values ++ List.replicate k [])
    ∧ (popTrailingBlanks values).getLast? ≠ some [] := by
  refine ⟨?_, (popTrailingBlanks_spec values).1, (popTrailingBlanks_spec values).2⟩
  unfold gatherLinesKeepBlanks_
  by_cases he : popTrailingBlanks values = []
  · rw [he, if_pos rfl]
    rfl
  · rw [if_neg he]
    apply splitEsc_joinWith _ he
    intro l hl
    obtain ⟨k, hk⟩ := (popTrailingBlanks_spec values).1
    apply h l
    rw [hk]
    exact List.mem_append_left _ hl

/-- An instance of C3 (amended): the lines `a`, blank, `b`, blank, blank. -/
theorem C3_join_split_roundtrip_witness :
    splitEsc (gatherLinesKeepBlanks_ ["a".toList, [], "b".toList, [], []])
      = (if popTrailingBlanks ["a".toList, [], "b".toList, [], []] = [] then [[]]
         else popTrailingBlanks ["a".toList, [], "b".toList, [], []]) :=
  (C3_join_split_roundtrip ["a".toList, [], "b".toList, [], []] (by decide)).1

/-! ## Quoted pairs: encode and decode -/

theorem takeWhile_not_dq (a t : Str) (ha : dq ∉ a) :
    (a ++ dq :: t).takeWhile (fun c => c != dq) = a := by
  induction a with
  | nil => simp [List.takeWhile]
  | cons c a ih =>
    have hc : c ≠ dq := fun hh => ha (hh ▸ List.mem_cons_self _ _)
    have ha' : dq ∉ a := fun hh => ha (List.mem_cons_of_mem _ hh)
    have hb : (c != dq) = true := by simpa using hc
    rw [List.cons_append, List.takeWhile_cons, hb, if_pos rfl, ih ha']

theorem dropWhile_not_dq (a t : Str) (ha : dq ∉ a) :
    (a ++ dq :: t).dropWhile (fun c => c != dq) = dq :: t := by
  induction a with
  | nil => simp [List.dropWhile]
  | cons c a ih =>
    have hc : c ≠ dq := fun hh => ha (hh ▸ List.mem_cons_self _ _)
    have ha' : dq ∉ a := fun hh => ha (List.mem_cons_of_mem _ hh)
    have hb : (c != dq) = true := by simpa using hc
    rw [List.cons_append, List.dropWhile_cons, hb, if_pos rfl, ih ha']

/-- Two quote-free texts that are each followed by a quote at the start of the
same text are equal. -/
theorem prefix_dq_eq (a b t : Str) (ha : dq ∉ a) (hb : dq ∉ b)
    (h : (a ++ [dq]) <+: (b ++ dq :: t)) : a = b := by
  obtain ⟨u, hu⟩ := h
  have h1 := takeWhile_not_dq a u ha
  have h2 := takeWhile_not_dq b t hb
  have : a ++ dq :: u = b ++ dq :: t := by simpa using hu
  rw [this] at h1
  rw [← h1, h2]

theorem quotedAt_none_of_ne (lit x t : Str) (hl : dq ∉ lit) (hx : dq ∉ x) (hne : lit ≠ x) :
    quotedAt lit (x ++ dq :: t) = none := by
  unfold quotedAt
  have : ¬ ((lit ++ [dq]).isPrefixOf (x ++ dq :: t) = true) := by
    intro hh
    exact hne (prefix_dq_eq lit x t hl hx (List.isPrefixOf_iff_prefix.mp hh))
  simp [this]

theorem quotedAt_hit (lit v rest : Str) (hv : dq ∉ v) :
    quotedAt lit (lit ++ dq :: (v ++ dq :: rest)) = some v := by
  unfold quotedAt
  have h1 : (lit ++ [dq]).isPrefixOf (lit ++ dq :: (v ++ dq :: rest)) = true := by
    rw [List.isPrefixOf_iff_prefix]
    exact ⟨v ++ dq :: rest, by simp⟩
  have h2 : (lit ++ dq :: (v ++ dq :: rest)).drop (lit.length + 1) = v ++ dq :: rest := by
    have : lit ++ dq :: (v ++ dq :: rest) = (lit ++ [dq]) ++ (v ++ dq :: rest) := by simp
    rw [this, List.drop_left' (by simp)]
  simp only [h1, if_true, h2]
  rw [dropWhile_not_dq v rest hv, takeWhile_not_dq v rest hv]
  simp

theorem findQuoted_of_quotedAt (lit s v : Str) (h : quotedAt lit s = some v) :
    findQuoted lit s = some v := by
  cases s with
  | nil => simpa [findQuoted] using h
  | cons c t => simp [findQuoted, h]

/-- The scan skips a quote-free stretch that does not end in `lit`. -/
theorem findQuoted_skip (lit x t : Str) (hl : dq ∉ lit) (hx : dq ∉ x)
    (hs : ¬ lit <:+ x) : findQuoted lit (x ++ dq :: t) = findQuoted lit t := by
  induction x with
  | nil =>
    have hne : lit ≠ [] := fun hh => hs (hh ▸ List.nil_suffix)
    have : quotedAt lit (dq :: t) = none := by
      have := quotedAt_none_of_ne lit [] t hl (by simp) hne
      simpa using this
    simp [findQuoted, this]
  | cons c x ih =>
    have hx' : dq ∉ x := fun hh => hx (List.mem_cons_of_mem _ hh)
    have hs' : ¬ lit <:+ x := fun hh => hs (hh.trans (List.suffix_cons c x))
    have hne : lit ≠ c :: x := fun hh => hs (hh ▸ List.suffix_refl _)
    have := quotedAt_none_of_ne lit (c :: x) t hl hx hne
    simp only [List.cons_append] at this ⊢
    rw [findQuoted, this]
    exact ih hx' hs'

/-- The scan finds `lit"v"` after a quote-free lead. -/
theorem findQuoted_lead (lit x v rest : Str) (hl : dq ∉ lit) (hx : dq ∉ x) (hv : dq ∉ v) :
    findQuoted lit (x ++ lit ++ dq :: (v ++ dq :: rest)) = some v := by
  induction x with
  | nil =>
    simp only [List.nil_append]
    exact findQuoted_of_quotedAt _ _ _ (quotedAt_hit lit v rest hv)
  | cons c x ih =>
    have hx' : dq ∉ x := fun hh => hx (List.mem_cons_of_mem _ hh)
    have hne : lit ≠ (c :: x) ++ lit := by
      intro hh
      have := congrArg List.length hh
      simp at this
      omega
    have hq : dq ∉ (c :: x) ++ lit := by
      intro hh
      rcases List.mem_append.mp hh with h1 | h1
      · exact hx h1
      · exact hl h1
    have := quotedAt_none_of_ne lit ((c :: x) ++ lit) (v ++ dq :: rest) hl hq hne
    simp only [List.cons_append, List.append_assoc] at this ⊢
    rw [findQuoted, this]
    have ih' := ih hx'
    simp only [List.append_assoc] at ih'
    exact ih'

theorem findQuoted_quotedUpTo (lit v rest : Str) (pre : List (Str × Str)) (lead : Str)
    (hl : dq ∉ lit) (hv : dq ∉ v) (hlead : lead <:+ "; ".toList)
    (hpre : ∀ f ∈ pre, dq ∉ f.1 ∧ dq ∉ f.2 ∧ ¬ lit <:+ f.2
      ∧ ¬ lit <:+ ("; ".toList ++ f.1 ++ ['='])) :
    findQuoted lit (quotedUpTo lit v rest lead pre) = some v := by
  have hdl : ∀ ld : Str, ld <:+ "; ".toList → dq ∉ ld := by
    intro ld h hm
    have := h.subset hm
    exact absurd this (by decide)
  induction pre generalizing lead with
  | nil =>
    unfold quotedUpTo
    exact findQuoted_lead lit lead v rest hl (hdl lead hlead) hv
  | cons f pre ih =>
    obtain ⟨h1, h2, h3, h4⟩ := hpre f (List.mem_cons_self _ _)
    unfold quotedUpTo
    have hq : dq ∉ lead ++ f.1 ++ ['='] := by
      intro hh
      rcases List.mem_append.mp hh with hh | hh
      · rcases List.mem_append.mp hh with hh | hh
        · exact hdl lead hlead hh
        · exact h1 hh
      · exact absurd hh (by decide)
    have hs : ¬ lit <:+ lead ++ f.1 ++ ['='] := by
      intro hh
      apply h4
      refine hh.trans ?_
      obtain ⟨u, hu⟩ := hlead
      exact ⟨u, by rw [← hu]; simp⟩
    rw [findQuoted_skip lit _ _ hl hq hs, findQuoted_skip lit _ _ hl h2 h3]
    exact ih "; ".toList (List.suffix_refl _)
      (fun g hg => hpre g (List.mem_cons_of_mem _ hg))

theorem preOk_nil (k : Str) : PreOk k [] := by
  intro f hf
  simp at hf

theorem preOk_cons (k n w : Str) (pre : List (Str × Str)) (h1 : dq ∉ n) (h2 : dq ∉ w)
    (h3 : ¬ (k ++ ['=']) <:+ w) (h4 : ¬ (k ++ ['=']) <:+ ("; ".toList ++ n ++ ['=']))
    (hrest : PreOk k pre) : PreOk k ((n, w) :: pre) := by
  intro f hf
  rcases List.mem_cons.mp hf with rfl | hf
  · exact ⟨h1, h2, h3, h4⟩
  · exact hrest f hf

theorem extract_quotedUpTo (k v rest : Str) (pre : List (Str × Str)) (hk : dq ∉ k)
    (hv : dq ∉ v) (hpre : PreOk k pre) :
    extractKeyFromCell (quotedUpTo (k ++ ['=']) v rest [] pre) k = v := by
  unfold extractKeyFromCell
  have hl : dq ∉ k ++ ['='] := by
    intro hh
    rcases List.mem_append.mp hh with hh | hh
    · exact hk hh
    · exact absurd hh (by decide)
  rw [findQuoted_quotedUpTo (k ++ ['=']) v rest pre [] hl hv List.nil_suffix hpre]

/-- C2 (as stated) fails: in column D, the quote-free printable value `bills=`
for `expensesam` makes the decoder return `; expensespm=` for the key `bills`
instead of the stored value `x`. -/
theorem C2_counterexample :
    dq ∉ "bills=".toList
    ∧ extractKeyFromCell (colDString "bills=".toList [] [] "x".toList [] []) "bills".toList
        = "; expensespm=".toList := by
  decide

/-- C2 (amended): when the values hold no double quote and none of them ends with a
field name of its own cell followed by `=`, encoding them as `name="value"; `
pairs the way `updateMoonlitData` builds columns D and H and decoding each name
with `extractKeyFromCell` returns that name's value exactly. -/
theorem C2_quoted_codec_roundtrip (e1 e2 e3 e4 e5 e6 t1 t2 t3 t4 t5 : Str)
    (hqD : ∀ v ∈ [e1, e2, e3, e4, e5, e6], dq ∉ v)
    (hsD : ∀ v ∈ [e1, e2, e3, e4, e5, e6], ∀ k ∈ colDKeys, ¬ (k ++ ['=']) <:+ v)
    (hqH : ∀ v ∈ [t1, t2, t3, t4, t5], dq ∉ v)
    (hsH : ∀ v ∈ [t1, t2, t3, t4, t5], ∀ k ∈ colHKeys, ¬ (k ++ ['=']) <:+ v) :
    extractKeyFromCell (colDString e1 e2 e3 e4 e5 e6) "expensesam".toList = e1
    ∧ extractKeyFromCell (colDString e1 e2 e3 e4 e5 e6) "expensespm".toList = e2
    ∧ extractKeyFromCell (colDString e1 e2 e3 e4 e5 e6) "inouts".toList = e3
    ∧ extractKeyFromCell (colDString e1 e2 e3 e4 e5 e6) "bills".toList = e4
    ∧ extractKeyFromCell (colDString e1 e2 e3 e4 e5 e6) "pulloutsam".toList = e5
    ∧ extractKeyFromCell (colDString e1 e2 e3 e4 e5 e6) "pulloutspm".toList = e6
    ∧ extractKeyFromCell (colHString t1 t2 t3 t4 t5) "totaldeposit".toList = t1
    ∧ extractKeyFromCell (colHString t1 t2 t3 t4 t5) "absences".toList = t2
    ∧ extractKeyFromCell (colHString t1 t2 t3 t4 t5) "accountsam".toList = t3
    ∧ extractKeyFromCell (colHString t1 t2 t3 t4 t5) "accountspm".toList = t4
    ∧ extractKeyFromCell (colHString t1 t2 t3 t4 t5) "coffeesales".toList = t5 := by
  refine ⟨?_, ?_, ?_, ?_, ?_, ?_, ?_, ?_, ?_, ?_, ?_⟩
  · have e : colDString e1 e2 e3 e4 e5 e6
        = quotedUpTo ("expensesam".toList ++ ['=']) e1
            ("; ".toList ++ "expensespm=".toList ++ [dq] ++ e2 ++ [dq] ++ "; ".toList ++ "inouts=".toList ++ [dq] ++ e3 ++ [dq] ++ "; ".toList ++ "bills=".toList ++ [dq] ++ e4 ++ [dq] ++ "; ".toList ++ "pulloutsam=".toList ++ [dq] ++ e5 ++ [dq] ++ "; ".toList ++ "pulloutspm=".toList ++ [dq] ++ e6 ++ [dq] ++ ";".toList) []
            [] := by
      simp [colDString, quotedUpTo, List.append_assoc]
    rw [e]
    exact extract_quotedUpTo _ _ _ _ (by decide) (hqD _ (by simp))
      (preOk_nil _)
  · have e : colDString e1 e2 e3 e4 e5 e6
        = quotedUpTo ("expensespm".toList ++ ['=']) e2
            ("; ".toList ++ "inouts=".toList ++ [dq] ++ e3 ++ [dq] ++ "; ".toList ++ "bills=".toList ++ [dq] ++ e4 ++ [dq] ++ "; ".toList ++ "pulloutsam=".toList ++ [dq] ++ e5 ++ [dq] ++ "; ".toList ++ "pulloutspm=".toList ++ [dq] ++ e6 ++ [dq] ++ ";".toList) []
            [("expensesam".toList, e1)] := by
      simp [colDString, quotedUpTo, List.append_assoc]
    rw [e]
    exact extract_quotedUpTo _ _ _ _ (by decide) (hqD _ (by simp))
      (preOk_cons _ _ _ _ (by decide) (hqD _ (by simp)) (hsD _ (by simp) _ (by decide)) (by decide)
        (preOk_nil _))
  · have e : colDString e1 e2 e3 e4 e5 e6
        = quotedUpTo ("inouts".toList ++ ['=']) e3
            ("; ".toList ++ "bills=".toList ++ [dq] ++ e4 ++ [dq] ++ "; ".toList ++ "pulloutsam=".toList ++ [dq] ++ e5 ++ [dq] ++ "; ".toList ++ "pulloutspm=".toList ++ [dq] ++ e6 ++ [dq] ++ ";".toList) []
            [("expensesam".toList, e1), ("expensespm".toList, e2)] := by
      simp [colDString, quotedUpTo, List.append_assoc]
    rw [e]
    exact extract_quotedUpTo _ _ _ _ (by decide) (hqD _ (by simp))
      (preOk_cons _ _ _ _ (by decide) (hqD _ (by simp)) (hsD _ (by simp) _ (by decide)) (by decide)
        (preOk_cons _ _ _ _ (by decide) (hqD _ (by simp)) (hsD _ (by simp) _ (by decide)) (by decide)
        (preOk_nil _)))
  · have e : colDString e1 e2 e3 e4 e5 e6
        = quotedUpTo ("bills".toList ++ ['=']) e4
            ("; ".toList ++ "pulloutsam=".toList ++ [dq] ++ e5 ++ [dq] ++ "; ".toList ++ "pulloutspm=".toList ++ [dq] ++ e6 ++ [dq] ++ ";".toList) []
            [("expensesam".toList, e1), ("expensespm".toList, e2), ("inouts".toList, e3)] := by
      simp [colDString, quotedUpTo, List.append_assoc]
    rw [e]
    exact extract_quotedUpTo _ _ _ _ (by decide) (hqD _ (by simp))
      (preOk_cons _ _ _ _ (by decide) (hqD _ (by simp)) (hsD _ (by simp) _ (by decide)) (by decide)
        (preOk_cons _ _ _ _ (by decide) (hqD _ (by simp)) (hsD _ (by simp) _ (by decide)) (by decide)
        (preOk_cons _ _ _ _ (by decide) (hqD _ (by simp)) (hsD _ (by simp) _ (by decide)) (by decide)
        (preOk_nil _))))
  · have e : colDString e1 e2 e3 e4 e5 e6
        = quotedUpTo ("pulloutsam".toList ++ ['=']) e5
            ("; ".toList ++ "pulloutspm=".toList ++ [dq] ++ e6 ++ [dq] ++ ";".toList) []
            [("expensesam".toList, e1), ("expensespm".toList, e2), ("inouts".toList, e3), ("bills".toList, e4)] := by
      simp [colDString, quotedUpTo, List.append_assoc]
    rw [e]
    exact extract_quotedUpTo _ _ _ _ (by decide) (hqD _ (by simp))
      (preOk_cons _ _ _ _ (by decide) (hqD _ (by simp)) (hsD _ (by simp) _ (by decide)) (by decide)
        (preOk_cons _ _ _ _ (by decide) (hqD _ (by simp)) (hsD _ (by simp) _ (by decide)) (by decide)
        (preOk_cons _ _ _ _ (by decide) (hqD _ (by simp)) (hsD _ (by simp) _ (by decide)) (by decide)
        (preOk_cons _ _ _ _ (by decide) (hqD _ (by simp)) (hsD _ (by simp) _ (by decide)) (by decide)
        (preOk_nil _)))))
  · have e : colDString e1 e2 e3 e4 e5 e6
        = quotedUpTo ("pulloutspm".toList ++ ['=']) e6
            (";".toList) []
            [("expensesam".toList, e1), ("expensespm".toList, e2), ("inouts".toList, e3), ("bills".toList, e4), ("pulloutsam".toList, e5)] := by
      simp [colDString, quotedUpTo, List.append_assoc]
    rw [e]
    exact extract_quotedUpTo _ _ _ _ (by decide) (hqD _ (by simp))
      (preOk_cons _ _ _ _ (by decide) (hqD _ (by simp)) (hsD _ (by simp) _ (by decide)) (by decide)
        (preOk_cons _ _ _ _ (by decide) (hqD _ (by simp)) (hsD _ (by simp) _ (by decide)) (by decide)
        (preOk_cons _ _ _ _ (by decide) (hqD _ (by simp)) (hsD _ (by simp) _ (by decide)) (by decide)
        (preOk_cons _ _ _ _ (by decide) (hqD _ (by simp)) (hsD _ (by simp) _ (by decide)) (by decide)
        (preOk_cons _ _ _ _ (by decide) (hqD _ (by simp)) (hsD _ (by simp) _ (by decide)) (by decide)
        (preOk_nil _))))))
  · have e : colHString t1 t2 t3 t4 t5
        = quotedUpTo ("totaldeposit".toList ++ ['=']) t1
            ("; ".toList ++ "absences=".toList ++ [dq] ++ t2 ++ [dq] ++ "; ".toList ++ "accountsam=".toList ++ [dq] ++ t3 ++ [dq] ++ "; ".toList ++ "accountspm=".toList ++ [dq] ++ t4 ++ [dq] ++ "; ".toList ++ "coffeesales=".toList ++ [dq] ++ t5 ++ [dq]) []
            [] := by
      simp [colHString, quotedUpTo, List.append_assoc]
    rw [e]
    exact extract_quotedUpTo _ _ _ _ (by decide) (hqH _ (by simp))
      (preOk_nil _)
  · have e : colHString t1 t2 t3 t4 t5
        = quotedUpTo ("absences".toList ++ ['=']) t2
            ("; ".toList ++ "accountsam=".toList ++ [dq] ++ t3 ++ [dq] ++ "; ".toList ++ "accountspm=".toList ++ [dq] ++ t4 ++ [dq] ++ "; ".toList ++ "coffeesales=".toList ++ [dq] ++ t5 ++ [dq]) []
            [("totaldeposit".toList, t1)] := by
      simp [colHString, quotedUpTo, List.append_assoc]
    rw [e]
    exact extract_quotedUpTo _ _ _ _ (by decide) (hqH _ (by simp))
      (preOk_cons _ _ _ _ (by decide) (hqH _ (by simp)) (hsH _ (by simp) _ (by decide)) (by decide)
        (preOk_nil _))
  · have e : colHString t1 t2 t3 t4 t5
        = quotedUpTo ("accountsam".toList ++ ['=']) t3
            ("; ".toList ++ "accountspm=".toList ++ [dq] ++ t4 ++ [dq] ++ "; ".toList ++ "coffeesales=".toList ++ [dq] ++ t5 ++ [dq]) []
            [("totaldeposit".toList, t1), ("absences".toList, t2)] := by
      simp [colHString, quotedUpTo, List.append_assoc]
    rw [e]
    exact extract_quotedUpTo _ _ _ _ (by decide) (hqH _ (by simp))
      (preOk_cons _ _ _ _ (by decide) (hqH _ (by simp)) (hsH _ (by simp) _ (by decide)) (by decide)
        (preOk_cons _ _ _ _ (by decide) (hqH _ (by simp)) (hsH _ (by simp) _ (by decide)) (by decide)
        (preOk_nil _)))
  · have e : colHString t1 t2 t3 t4 t5
        = quotedUpTo ("accountspm".toList ++ ['=']) t4
            ("; ".toList ++ "coffeesales=".toList ++ [dq] ++ t5 ++ [dq]) []
            [("totaldeposit".toList, t1), ("absences".toList, t2), ("accountsam".toList, t3)] := by
      simp [colHString, quotedUpTo, List.append_assoc]
    rw [e]
    exact extract_quotedUpTo _ _ _ _ (by decide) (hqH _ (by simp))
      (preOk_cons _ _ _ _ (by decide) (hqH _ (by simp)) (hsH _ (by simp) _ (by decide)) (by decide)
        (preOk_cons _ _ _ _ (by decide) (hqH _ (by simp)) (hsH _ (by simp) _ (by decide)) (by decide)
        (preOk_cons _ _ _ _ (by decide) (hqH _ (by simp)) (hsH _ (by simp) _ (by decide)) (by decide)
        (preOk_nil _))))
  · have e : colHString t1 t2 t3 t4 t5
        = quotedUpTo ("coffeesales".toList ++ ['=']) t5
            [] []
            [("totaldeposit".toList, t1), ("absences".toList, t2), ("accountsam".toList, t3), ("accountspm".toList, t4)] := by
      simp [colHString, quotedUpTo, List.append_assoc]
    rw [e]
    exact extract_quotedUpTo _ _ _ _ (by decide) (hqH _ (by simp))
      (preOk_cons _ _ _ _ (by decide) (hqH _ (by simp)) (hsH _ (by simp) _ (by decide)) (by decide)
        (preOk_cons _ _ _ _ (by decide) (hqH _ (by simp)) (hsH _ (by simp) _ (by decide)) (by decide)
        (preOk_cons _ _ _ _ (by decide) (hqH _ (by simp)) (hsH _ (by simp) _ (by decide)) (by decide)
        (preOk_cons _ _ _ _ (by decide) (hqH _ (by simp)) (hsH _ (by simp) _ (by decide)) (by decide)
        (preOk_nil _)))))

/-- An instance of C2 (amended): a value holding `=` in the middle does no harm. -/
theorem C2_quoted_codec_roundtrip_witness :
    extractKeyFromCell
      (colDString "1. rice 50".toList [] "a=b".toList "x".toList [] "bread".toList)
      "bills".toList = "x".toList :=
  (C2_quoted_codec_roundtrip "1. rice 50".toList [] "a=b".toList "x".toList []
    "bread".toList "Sales: 5".toList [] "Jeanny=10".toList [] []
    (by decide) (by decide) (by decide) (by decide)).2.2.2.1

/-! ## Accounts aggregation -/

theorem getOwn_eq_none_iff {V : Type} (o : JsObj V) (k : Str) :
    getOwn o k = none ↔ k ∉ o.map Prod.fst := by
  induction o with
  | nil =>
    constructor
    · intro _
      exact List.not_mem_nil _
    · intro _
      rfl
  | cons p t ih =>
    obtain ⟨k', v'⟩ := p
    by_cases h : k' = k
    · constructor
      · intro hh
        rw [getOwn, if_pos h] at hh
        cases hh
      · intro hh
        exfalso
        apply hh
        rw [List.map_cons, h]
        exact List.mem_cons_self _ _
    · rw [getOwn, if_neg h, ih, List.map_cons, List.mem_cons, not_or]
      constructor
      · intro hh
        exact ⟨fun e => h e.symm, hh⟩
      · intro hh
        exact hh.2

theorem setOwn_cons_eq {V : Type} (t : JsObj V) (k : Str) (v v' : V) :
    setOwn ((k, v') :: t) k v = (k, v) :: t := by
  rw [setOwn, if_pos rfl]

theorem setOwn_cons_ne {V : Type} (t : JsObj V) (k k' : Str) (v v' : V) (h : k' ≠ k) :
    setOwn ((k', v') :: t) k v = (k', v') :: setOwn t k v := by
  rw [setOwn, if_neg h]

theorem keys_setOwn_mem {V : Type} (o : JsObj V) (k : Str) (v : V)
    (h : k ∈ o.map Prod.fst) : (setOwn o k v).map Prod.fst = o.map Prod.fst := by
  induction o with
  | nil => exact absurd h (List.not_mem_nil _)
  | cons p t ih =>
    obtain ⟨k', v'⟩ := p
    by_cases hk : k' = k
    · subst hk
      rw [setOwn_cons_eq]
      rfl
    · have : k ∈ t.map Prod.fst := by
        rw [List.map_cons, List.mem_cons] at h
        rcases h with h | h
        · exact absurd h.symm hk
        · exact h
      rw [setOwn_cons_ne _ _ _ _ _ hk, List.map_cons, ih this, List.map_cons]

theorem keys_setOwn_not_mem {V : Type} (o : JsObj V) (k : Str) (v : V)
    (h : k ∉ o.map Prod.fst) : (setOwn o k v).map Prod.fst = o.map Prod.fst ++ [k] := by
  induction o with
  | nil => rfl
  | cons p t ih =>
    obtain ⟨k', v'⟩ := p
    have hk : k' ≠ k := fun hh => h (by rw [List.map_cons, hh]; exact List.mem_cons_self _ _)
    have ht : k ∉ t.map Prod.fst := fun hh => h (by
      rw [List.map_cons]
      exact List.mem_cons_of_mem _ hh)
    rw [setOwn_cons_ne _ _ _ _ _ hk, List.map_cons, ih ht, List.map_cons, List.cons_append]

theorem keys_pushEntry (totals : JsObj (List ℚ)) (e : Str × ℚ) :
    (pushEntry totals e).map Prod.fst
      = if e.1 ∈ totals.map Prod.fst then totals.map Prod.fst
        else totals.map Prod.fst ++ [e.1] := by
  unfold pushEntry
  cases h : getOwn totals e.1 with
  | none =>
    have hn := (getOwn_eq_none_iff totals e.1).mp h
    rw [if_neg hn]
    exact keys_setOwn_not_mem _ _ _ hn
  | some a =>
    have hn : e.1 ∈ totals.map Prod.fst := by
      by_contra hc
      rw [(getOwn_eq_none_iff totals e.1).mpr hc] at h
      exact absurd h (by simp)
    rw [if_pos hn]
    exact keys_setOwn_mem _ _ _ hn

theorem keys_foldl_pushEntry (entries : List (Str × ℚ)) (acc : JsObj (List ℚ)) :
    (entries.foldl pushEntry acc).map Prod.fst
      = acc.map Prod.fst
        ++ (firstSeen (entries.map Prod.fst)).filter
            (fun m => decide (m ∉ acc.map Prod.fst)) := by
  induction entries generalizing acc with
  | nil => simp [firstSeen]
  | cons e t ih =>
    rw [List.foldl_cons, ih, keys_pushEntry]
    simp only [List.map_cons, firstSeen]
    by_cases h : e.1 ∈ acc.map Prod.fst
    · rw [if_pos h, List.filter_cons_of_neg (by simpa using h), List.filter_filter]
      congr 1
      apply List.filter_congr
      intro m _
      by_cases hm : m ∈ acc.map Prod.fst
      · simp [hm]
      · have : m ≠ e.1 := fun hh => hm (hh ▸ h)
        simp [hm, this]
    · rw [if_neg h, List.filter_cons_of_pos (by simpa using h), List.filter_filter,
        List.append_assoc]
      congr 1
      simp only [List.singleton_append]
      congr 1
      apply List.filter_congr
      intro m _
      by_cases hm : m ∈ acc.map Prod.fst
      · simp [hm]
      · by_cases hme : m = e.1
        · simp [hme]
        · simp [hm, hme]

theorem getOwn_pushEntry (totals : JsObj (List ℚ)) (e : Str × ℚ) (n : Str) :
    getOwn (pushEntry totals e) n
      = if e.1 = n then
          (match getOwn totals n with
           | some a => some (a ++ [e.2])
           | none => some [e.2])
        else getOwn totals n := by
  unfold pushEntry
  by_cases h : e.1 = n
  · subst h
    rw [if_pos rfl]
    cases getOwn totals e.1 <;> simp [getOwn_setOwn_same]
  · rw [if_neg h]
    cases getOwn totals e.1 <;> simp [getOwn_setOwn_ne _ _ _ _ h]

theorem getOwn_foldl_pushEntry (entries : List (Str × ℚ)) (acc : JsObj (List ℚ)) (n : Str) :
    getOwn (entries.foldl pushEntry acc) n
      = (match getOwn acc n with
         | some a => some (a ++ amountsOf entries n)
         | none => if amountsOf entries n = [] then none else some (amountsOf entries n)) := by
  induction entries generalizing acc with
  | nil => cases h : getOwn acc n <;> simp [amountsOf, h]
  | cons e t ih =>
    rw [List.foldl_cons, ih, getOwn_pushEntry]
    by_cases h : e.1 = n
    · have ha : amountsOf (e :: t) n = e.2 :: amountsOf t n := by
        simp [amountsOf, List.filter_cons, h]
      rw [if_pos h, ha]
      cases getOwn acc n <;> simp
    · have ha : amountsOf (e :: t) n = amountsOf t n := by
        simp [amountsOf, List.filter_cons, h]
      rw [if_neg h, ha]

theorem mem_firstSeen (l : List Str) (n : Str) : n ∈ firstSeen l ↔ n ∈ l := by
  induction l with
  | nil => simp [firstSeen]
  | cons m t ih =>
    simp only [firstSeen, List.mem_cons, List.mem_filter, ih]
    by_cases h : n = m
    · simp [h]
    · simp [h]

theorem nodup_firstSeen (l : List Str) : (firstSeen l).Nodup := by
  induction l with
  | nil => simp [firstSeen]
  | cons m t ih =>
    simp only [firstSeen, List.nodup_cons]
    exact ⟨by simp [List.mem_filter], ih.filter _⟩

theorem ownKeys_of_no_index {V : Type} (o : JsObj V)
    (h : ∀ p ∈ o, arrayIndex p.1 = none) : ownKeys o = o.map Prod.fst := by
  unfold ownKeys
  have h1 : o.filterMap (fun p => (arrayIndex p.1).map (fun n => (n, p.1))) = [] := by
    rw [List.filterMap_eq_nil_iff]
    intro p hp
    simp [h p hp]
  have h2 : o.filter (fun p => (arrayIndex p.1).isNone) = o := by
    rw [List.filter_eq_self]
    intro p hp
    simp [h p hp]
  rw [h1, h2]
  simp [sortIndices]

theorem processLine_ok (parseFloat : Str → Option ℚ) (totals : JsObj (List ℚ)) (line : Str)
    (h : ∀ e, lineEntry parseFloat line = some e → e.1 ∉ objectProtoNames) :
    processLine parseFloat totals line
      = some (([line].filterMap (lineEntry parseFloat)).foldl pushEntry totals) := by
  have key : ∀ e, lineEntry parseFloat line = some e →
      processLine parseFloat totals line = some (pushEntry totals e) := by
    intro e he
    have hp := h e he
    unfold lineEntry at he
    unfold processLine
    split at he
    · rename_i p0 p1 hs
      simp only
      cases hv : parseFloat (jsTrim p1) with
      | none => rw [hv] at he; simp at he
      | some value =>
        rw [hv] at he
        simp only [Option.map_some', Option.some.injEq] at he
        subst he
        simp only at hp ⊢
        unfold pushEntry
        cases getOwn totals (jsTrim p0) with
        | none => simp [hp]
        | some a => rfl
    · simp at he
  have key2 : lineEntry parseFloat line = none →
      processLine parseFloat totals line = some totals := by
    intro he
    unfold lineEntry at he
    unfold processLine
    split at he
    · rename_i p0 p1 hs
      simp only
      cases hv : parseFloat (jsTrim p1) with
      | none => rfl
      | some value => rw [hv] at he; simp at he
    · rfl
  cases he : lineEntry parseFloat line with
  | none => simp [List.filterMap_cons, he, key2 he]
  | some e => simp [List.filterMap_cons, he, key e he]

theorem processLines_ok (parseFloat : Str → Option ℚ) (lines : List Str)
    (totals : JsObj (List ℚ))
    (h : ∀ e ∈ lines.filterMap (lineEntry parseFloat), e.1 ∉ objectProtoNames) :
    processLines parseFloat totals lines
      = some ((lines.filterMap (lineEntry parseFloat)).foldl pushEntry totals) := by
  induction lines generalizing totals with
  | nil => rfl
  | cons l ls ih =>
    have h1 : ∀ e, lineEntry parseFloat l = some e → e.1 ∉ objectProtoNames := by
      intro e he
      apply h e
      simp [List.filterMap_cons, he]
    have h2 : ∀ e ∈ ls.filterMap (lineEntry parseFloat), e.1 ∉ objectProtoNames := by
      intro e he
      apply h e
      cases hl : lineEntry parseFloat l <;> simp [List.filterMap_cons, hl, he]
    rw [processLines, processLine_ok parseFloat totals l h1]
    simp only
    rw [ih _ h2]
    cases hl : lineEntry parseFloat l <;> simp [List.filterMap_cons, hl]

theorem accountsRow_ok (parseFloat : Str → Option ℚ) (startDate endDate : Int)
    (totals : JsObj (List ℚ)) (row : AccountsRow)
    (h : ∀ e ∈ rowEntries parseFloat startDate endDate row, e.1 ∉ objectProtoNames) :
    accountsRow parseFloat startDate endDate totals row
      = some ((rowEntries parseFloat startDate endDate row).foldl pushEntry totals) := by
  unfold accountsRow
  unfold rowEntries at h ⊢
  cases hd : row.dateVal with
  | none => simp
  | some d =>
    rw [hd] at h
    simp only at h ⊢
    by_cases hr : d < startDate ∨ d > endDate
    · have hr2 : ¬ (startDate ≤ d ∧ d ≤ endDate) := by
        rintro ⟨h1, h2⟩
        rcases hr with h' | h'
        · exact absurd h' (not_lt.mpr h1)
        · exact absurd h' (not_lt.mpr h2)
      rw [if_pos hr, if_neg hr2]
      rfl
    · have hr2 : startDate ≤ d ∧ d ≤ endDate :=
        ⟨not_lt.mp (fun h' => hr (Or.inl h')), not_lt.mp (fun h' => hr (Or.inr h'))⟩
      rw [if_neg hr, if_pos hr2]
      rw [if_pos hr2, List.filterMap_append] at h
      rw [processLines_ok parseFloat _ totals (fun e he => h e (List.mem_append_left _ he))]
      simp only
      rw [processLines_ok parseFloat _ _ (fun e he => h e (List.mem_append_right _ he)),
        List.filterMap_append, List.foldl_append]

theorem accountsTotalsFrom_ok (parseFloat : Str → Option ℚ) (startDate endDate : Int)
    (rows : List AccountsRow) (totals : JsObj (List ℚ))
    (h : ∀ e ∈ accountEntries parseFloat startDate endDate rows, e.1 ∉ objectProtoNames) :
    accountsTotalsFrom parseFloat startDate endDate totals rows
      = some ((accountEntries parseFloat startDate endDate rows).foldl pushEntry totals) := by
  induction rows generalizing totals with
  | nil => rfl
  | cons r rs ih =>
    have h1 : ∀ e ∈ rowEntries parseFloat startDate endDate r, e.1 ∉ objectProtoNames := by
      intro e he
      apply h e
      simp only [accountEntries, List.map_cons, List.flatten_cons]
      exact List.mem_append_left _ he
    have h2 : ∀ e ∈ accountEntries parseFloat startDate endDate rs,
        e.1 ∉ objectProtoNames := by
      intro e he
      apply h e
      simp only [accountEntries, List.map_cons, List.flatten_cons]
      exact List.mem_append_right _ he
    rw [accountsTotalsFrom, accountsRow_ok parseFloat startDate endDate totals r h1]
    simp only
    rw [ih _ h2]
    simp only [accountEntries, List.map_cons, List.flatten_cons, List.foldl_append]

theorem foldl_add_eq_sum (l : List ℚ) (s : ℚ) :
    l.foldl (fun a b => a + b) s = s + l.sum := by
  induction l generalizing s with
  | nil => simp
  | cons a t ih => simp [List.foldl_cons, ih, add_assoc]

theorem totalsOutput_eq (numStr : ℚ → Str) (totals : JsObj (List ℚ)) :
    totalsOutput numStr totals
      = jsTrim ("Total Accounts :".toList ++ [nl, nl]
          ++ ((ownKeys totals).map (fun key =>
                match getOwn totals key with
                | some amounts => totalLine numStr key amounts
                | none => [])).flatten) := by
  unfold totalsOutput
  simp only
  rw [foldl_append_map _ (fun key =>
        match getOwn totals key with
        | some amounts => totalLine numStr key amounts
        | none => [])]
  intro out key
  cases getOwn totals key with
  | none => simp
  | some a =>
    simp only [totalLine, foldl_add_eq_sum, zero_add, List.append_assoc]

theorem decimalParse_digits (s : Str) (hne : s ≠ []) (hd : ∀ c ∈ s, c.isDigit = true) :
    decimalParse s = some (natOfDigits s : ℚ) := by
  have h1 : s.takeWhile Char.isDigit = s := List.takeWhile_eq_self_iff.mpr hd
  have h2 : s.dropWhile Char.isDigit = [] := List.dropWhile_eq_nil_iff.mpr hd
  have h3 : isDecimal s = true := by
    unfold isDecimal
    rw [h1, h2]
    cases s with
    | nil => exact absurd rfl hne
    | cons c t => rfl
  unfold decimalParse
  rw [if_pos h3, decimalValue_eq, h1, h2]
  simp [natOfDigits]

/-- C5 (as stated) fails: the account lines `Zed=5` then `7=3` are first
encountered in that order, yet the totals are enumerated with the array-index
name `7` first; and an account line for the name `toString` makes the run throw
before any totals block is written. -/
theorem C5_counterexample :
    (accountEntries decimalParse 0 10
        [⟨some 1, some (colHString [] [] ("Zed=5".toList ++ [bsl, 'n'] ++ "7=3".toList) [] [])⟩]).map
        Prod.fst = ["Zed".toList, "7".toList]
    ∧ (accountsTotals decimalParse 0 10
        [⟨some 1, some (colHString [] [] ("Zed=5".toList ++ [bsl, 'n'] ++ "7=3".toList) [] [])⟩]).map
        ownKeys = some ["7".toList, "Zed".toList]
    ∧ accountsTotals decimalParse 0 10
        [⟨some 1, some (colHString [] [] "toString=10".toList [] [])⟩] = none := by
  decide

/-- C5 (amended): when no account name is a member name of `Object.prototype`
or a canonical array index, the run does not throw, the totals block has exactly
one line per distinct account name, in the order the names are first
encountered (rows in sheet order, AM lines before PM lines), and each line reads
`Name: n1+n2+...+nk = sum` with that name's amounts in encounter order and their
arithmetic sum. -/
theorem C5_totals_first_seen (numStr : ℚ → Str) (parseFloat : Str → Option ℚ)
    (startDate endDate : Int) (dataValues : List AccountsRow)
    (h : ∀ e ∈ accountEntries parseFloat startDate endDate dataValues,
      e.1 ∉ objectProtoNames ∧ arrayIndex e.1 = none) :
    ∃ totals, accountsTotals parseFloat startDate endDate dataValues = some totals
      ∧ ownKeys totals
          = firstSeen ((accountEntries parseFloat startDate endDate dataValues).map Prod.fst)
      ∧ (firstSeen ((accountEntries parseFloat startDate endDate dataValues).map
          Prod.fst)).Nodup
      ∧ (∀ n, n ∈ firstSeen ((accountEntries parseFloat startDate endDate dataValues).map
          Prod.fst) ↔ ∃ v, (n, v) ∈ accountEntries parseFloat startDate endDate dataValues)
      ∧ (∀ n ∈ ownKeys totals, getOwn totals n
          = some (amountsOf (accountEntries parseFloat startDate endDate dataValues) n))
      ∧ totalsOutput numStr totals
          = jsTrim ("Total Accounts :".toList ++ [nl, nl]
              ++ ((firstSeen ((accountEntries parseFloat startDate endDate dataValues).map
                    Prod.fst)).map
                  (fun n => totalLine numStr n
                    (amountsOf (accountEntries parseFloat startDate endDate dataValues)
                      n))).flatten) := by
  set entries := accountEntries parseFloat startDate endDate dataValues with hE
  have hmem : ∀ n, n ∈ firstSeen (entries.map Prod.fst) ↔ ∃ v, (n, v) ∈ entries := by
    intro n
    rw [mem_firstSeen, List.mem_map]
    constructor
    · rintro ⟨⟨a, b⟩, hab, rfl⟩
      exact ⟨b, hab⟩
    · rintro ⟨v, hv⟩
      exact ⟨(n, v), hv, rfl⟩
  have hkeys : (entries.foldl pushEntry []).map Prod.fst = firstSeen (entries.map Prod.fst) := by
    rw [keys_foldl_pushEntry]
    simp
  have hown : ownKeys (entries.foldl pushEntry []) = firstSeen (entries.map Prod.fst) := by
    rw [← hkeys]
    apply ownKeys_of_no_index
    intro p hp
    have hp1 : p.1 ∈ (entries.foldl pushEntry []).map Prod.fst := List.mem_map_of_mem _ hp
    rw [hkeys] at hp1
    obtain ⟨v, hv⟩ := (hmem p.1).mp hp1
    exact (h _ hv).2
  have hget : ∀ n ∈ firstSeen (entries.map Prod.fst),
      getOwn (entries.foldl pushEntry []) n = some (amountsOf entries n) := by
    intro n hn
    obtain ⟨v, hv⟩ := (hmem n).mp hn
    rw [getOwn_foldl_pushEntry]
    have hne : amountsOf entries n ≠ [] := by
      unfold amountsOf
      intro hh
      have : (n, v) ∈ entries.filter (fun e => decide (e.1 = n)) := by
        rw [List.mem_filter]
        exact ⟨hv, by simp⟩
      have h2 := List.mem_map_of_mem Prod.snd this
      rw [hh] at h2
      exact absurd h2 (List.not_mem_nil _)
    simp [getOwn, hne]
  refine ⟨entries.foldl pushEntry [], ?_, hown, nodup_firstSeen _, hmem, ?_, ?_⟩
  · unfold accountsTotals
    exact accountsTotalsFrom_ok parseFloat startDate endDate dataValues []
      (fun e he => (h e he).1)
  · intro n hn
    rw [hown] at hn
    exact hget n hn
  · rw [totalsOutput_eq, hown]
    congr 3
    apply List.map_congr_left
    intro n hn
    rw [hget n hn]

theorem intStr_nat (n : Nat) : intStr (n : ℚ) = (Nat.repr n).toList := by
  unfold intStr
  have : ¬ ((n : ℚ) < 0) := not_lt.mpr (Nat.cast_nonneg n)
  rw [if_neg this]
  simp

theorem lineEntry_digits (name digits line : Str)
    (hs : splitChar '=' line = [name, digits]) (hn : jsTrim name = name)
    (hd : jsTrim digits = digits) (hne : digits ≠ []) (hall : ∀ c ∈ digits, c.isDigit = true) :
    lineEntry decimalParse line = some (name, (natOfDigits digits : ℚ)) := by
  unfold lineEntry
  rw [hs]
  simp only
  rw [hn, hd, decimalParse_digits digits hne hall]
  rfl

theorem accountsExample_entries :
    accountEntries decimalParse 1 3 accountsExample
      = [("Jeanny".toList, 10), ("Nina".toList, 80), ("Jeanny".toList, 5),
         ("Nina".toList, 100)] := by
  have a1 : accountLines (rowText ⟨some 1, some (colHString [] []
      ("Jeanny=10".toList ++ [bsl, 'n'] ++ "Nina=80".toList) [] [])⟩) "accountsam".toList
      = ["Jeanny=10".toList, "Nina=80".toList] := by decide
  have a2 : accountLines (rowText ⟨some 1, some (colHString [] []
      ("Jeanny=10".toList ++ [bsl, 'n'] ++ "Nina=80".toList) [] [])⟩) "accountspm".toList
      = [] := by decide
  have b1 : accountLines (rowText ⟨some 2, some (colHString [] [] "Jeanny=5".toList [] [])⟩)
      "accountsam".toList = ["Jeanny=5".toList] := by decide
  have b2 : accountLines (rowText ⟨some 2, some (colHString [] [] "Jeanny=5".toList [] [])⟩)
      "accountspm".toList = [] := by decide
  have c1 : accountLines (rowText ⟨some 3, some (colHString [] [] "Nina=100".toList [] [])⟩)
      "accountsam".toList = ["Nina=100".toList] := by decide
  have c2 : accountLines (rowText ⟨some 3, some (colHString [] [] "Nina=100".toList [] [])⟩)
      "accountspm".toList = [] := by decide
  have e1 := lineEntry_digits "Jeanny".toList "10".toList "Jeanny=10".toList (by decide)
    (by decide) (by decide) (by decide) (by decide)
  have e2 := lineEntry_digits "Nina".toList "80".toList "Nina=80".toList (by decide)
    (by decide) (by decide) (by decide) (by decide)
  have e3 := lineEntry_digits "Jeanny".toList "5".toList "Jeanny=5".toList (by decide)
    (by decide) (by decide) (by decide) (by decide)
  have e4 := lineEntry_digits "Nina".toList "100".toList "Nina=100".toList (by decide)
    (by decide) (by decide) (by decide) (by decide)
  have n1 : natOfDigits "10".toList = 10 := by decide
  have n2 : natOfDigits "80".toList = 80 := by decide
  have n3 : natOfDigits "5".toList = 5 := by decide
  have n4 : natOfDigits "100".toList = 100 := by decide
  rw [n1] at e1
  rw [n2] at e2
  rw [n3] at e3
  rw [n4] at e4
  simp only [accountsExample, accountEntries, rowEntries, List.map_cons, List.map_nil, a1, a2, b1,
    b2, c1, c2]
  simp only [List.filterMap_cons, List.filterMap_nil, List.cons_append, List.nil_append,
    List.append_nil, e1, e2, e3, e4, List.flatten_cons, List.flatten_nil, ite_true,
    show (1 : Int) ≤ 1 ∧ (1 : Int) ≤ 3 from by decide,
    show (1 : Int) ≤ 2 ∧ (2 : Int) ≤ 3 from by decide,
    show (1 : Int) ≤ 3 ∧ (3 : Int) ≤ 3 from by decide]
  norm_num

/-- An instance of C5 (amended), the three-date example: the totals block reads
`Jeanny: 10+5 = 15` and `Nina: 80+100 = 180`. -/
theorem C5_totals_first_seen_witness :
    ∃ totals, accountsTotals decimalParse 1 3 accountsExample = some totals
      ∧ totalsOutput intStr totals
        = "Total Accounts :".toList ++ [nl, nl] ++ "Jeanny: 10+5 = 15".toList ++ [nl]
          ++ "Nina: 80+100 = 180".toList := by
  obtain ⟨totals, h1, _, _, _, _, h6⟩ :=
    C5_totals_first_seen intStr decimalParse 1 3 accountsExample (by
      rw [accountsExample_entries]
      decide)
  refine ⟨totals, h1, ?_⟩
  rw [h6, accountsExample_entries]
  have f : firstSeen (List.map Prod.fst
      [("Jeanny".toList, (10 : ℚ)), ("Nina".toList, 80), ("Jeanny".toList, 5),
       ("Nina".toList, 100)]) = ["Jeanny".toList, "Nina".toList] := by decide
  have am1 : amountsOf [("Jeanny".toList, (10 : ℚ)), ("Nina".toList, 80),
      ("Jeanny".toList, 5), ("Nina".toList, 100)] "Jeanny".toList = [10, 5] := by
    simp [amountsOf, List.filter_cons]
  have am2 : amountsOf [("Jeanny".toList, (10 : ℚ)), ("Nina".toList, 80),
      ("Jeanny".toList, 5), ("Nina".toList, 100)] "Nina".toList = [80, 100] := by
    simp [amountsOf, List.filter_cons]
  have i10 : intStr 10 = "10".toList := by
    rw [show (10 : ℚ) = ((10 : ℕ) : ℚ) by norm_num, intStr_nat]
    decide
  have i5 : intStr 5 = "5".toList := by
    rw [show (5 : ℚ) = ((5 : ℕ) : ℚ) by norm_num, intStr_nat]
    decide
  have i15 : intStr 15 = "15".toList := by
    rw [show (15 : ℚ) = ((15 : ℕ) : ℚ) by norm_num, intStr_nat]
    decide
  have i80 : intStr 80 = "80".toList := by
    rw [show (80 : ℚ) = ((80 : ℕ) : ℚ) by norm_num, intStr_nat]
    decide
  have i100 : intStr 100 = "100".toList := by
    rw [show (100 : ℚ) = ((100 : ℕ) : ℚ) by norm_num, intStr_nat]
    decide
  have i180 : intStr 180 = "180".toList := by
    rw [show (180 : ℚ) = ((180 : ℕ) : ℚ) by norm_num, intStr_nat]
    decide
  have s1 : ([10, 5] : List ℚ).sum = 15 := by norm_num
  have s2 : ([80, 100] : List ℚ).sum = 180 := by norm_num
  rw [f]
  simp only [List.map_cons, List.map_nil, am1, am2, totalLine, s1, s2, joinWith, i10, i5, i15,
    i80, i100, i180]
  decide

/-! ## Malformed tokens and lines -/

theorem splitCharAux_no_sep (sep : Char) (a cur : Str) (h : sep ∉ a) :
    splitCharAux sep a cur = [cur ++ a] := by
  induction a generalizing cur with
  | nil => simp [splitCharAux]
  | cons c t ih =>
    have hc : c ≠ sep := fun e => h (e ▸ List.mem_cons_self _ _)
    have ht : sep ∉ t := fun e => h (List.mem_cons_of_mem _ e)
    rw [splitCharAux, if_neg hc, ih _ ht]
    simp

theorem splitCharAux_sep (sep : Char) (a b cur : Str) (h : sep ∉ a) :
    splitCharAux sep (a ++ sep :: b) cur = (cur ++ a) :: splitCharAux sep b [] := by
  induction a generalizing cur with
  | nil => simp [splitCharAux]
  | cons c t ih =>
    have hc : c ≠ sep := fun e => h (e ▸ List.mem_cons_self _ _)
    have ht : sep ∉ t := fun e => h (List.mem_cons_of_mem _ e)
    rw [List.cons_append, splitCharAux, if_neg hc, ih _ ht]
    simp

theorem splitChar_pair (sep : Char) (a b : Str) (ha : sep ∉ a) (hb : sep ∉ b) :
    splitChar sep (a ++ sep :: b) = [a, b] := by
  unfold splitChar
  rw [splitCharAux_sep sep a b [] ha, splitCharAux_no_sep sep b [] hb]
  simp

theorem processLines_append (parseFloat : Str → Option ℚ) (a b : List Str)
    (totals : JsObj (List ℚ)) :
    processLines parseFloat totals (a ++ b)
      = (processLines parseFloat totals a).bind (fun t => processLines parseFloat t b) := by
  induction a generalizing totals with
  | nil => rfl
  | cons l ls ih =>
    rw [List.cons_append, processLines, processLines]
    cases processLine parseFloat totals l with
    | none => rfl
    | some t => exact ih t

/-- C12: in the accounts aggregation a line `Name=v` whose value does not parse
as a number leaves the totals as they were and does not abort; the totals
computed from a sequence of lines are the same with and without such a line; and
a line changes the totals only when it has the form `p0=p1` with `p1` parsing as
a number, in which case the number is appended to the amounts of the trimmed
`p0`. -/
theorem C12_unparsed_line_dropped (parseFloat : Str → Option ℚ) (name v : Str)
    (hn : '=' ∉ name) (hv : '=' ∉ v) (hp : parseFloat (jsTrim v) = none) :
    (∀ totals, processLine parseFloat totals (name ++ '=' :: v) = some totals)
    ∧ (∀ totals pre post,
        processLines parseFloat totals (pre ++ (name ++ '=' :: v) :: post)
          = processLines parseFloat totals (pre ++ post))
    ∧ (∀ totals line t, processLine parseFloat totals line = some t → t ≠ totals →
        ∃ p0 p1 value, splitChar '=' line = [p0, p1] ∧ parseFloat (jsTrim p1) = some value
          ∧ t = setOwn totals (jsTrim p0) ((getOwn totals (jsTrim p0)).getD [] ++ [value])) := by
  have h1 : ∀ totals, processLine parseFloat totals (name ++ '=' :: v) = some totals := by
    intro totals
    unfold processLine
    rw [splitChar_pair '=' name v hn hv]
    simp only [hp]
  refine ⟨h1, ?_, ?_⟩
  · intro totals pre post
    rw [processLines_append, processLines_append]
    cases processLines parseFloat totals pre with
    | none => rfl
    | some t =>
      simp only [Option.some_bind]
      rw [processLines, h1 t]
  · intro totals line t ht hne
    unfold processLine at ht
    split at ht
    · rename_i p0 p1 hs
      simp only at ht
      split at ht
      · rename_i value hval
        refine ⟨p0, p1, value, hs, hval, ?_⟩
        split at ht
        · rename_i amounts ha
          rw [ha]
          exact (Option.some.inj ht).symm
        · rename_i hnone
          rw [hnone]
          split_ifs at ht
          exact (Option.some.inj ht).symm
      · exact absurd (Option.some.inj ht).symm hne
    · exact absurd (Option.some.inj ht).symm hne

/-- C12 at the lines `Jeanny=10`, `Nina=abc`, `Jeanny=5` with `decimalParse`: the
middle line is dropped and the run continues. -/
theorem C12_unparsed_line_dropped_witness :
    processLine decimalParse [] "Nina=abc".toList = some []
    ∧ processLines decimalParse [] ["Jeanny=10".toList, "Nina=abc".toList, "Jeanny=5".toList]
        = processLines decimalParse [] ["Jeanny=10".toList, "Jeanny=5".toList] :=
  ⟨(C12_unparsed_line_dropped decimalParse "Nina".toList "abc".toList (by decide) (by decide)
      (by decide)).1 [],
   (C12_unparsed_line_dropped decimalParse "Nina".toList "abc".toList (by decide) (by decide)
      (by decide)).2.1 [] ["Jeanny=10".toList] ["Jeanny=5".toList]⟩
theorem splitChar_joinWith (sep : Char) (toks : List Str) (hne : toks ≠ [])
    (h : ∀ t ∈ toks, sep ∉ t) : splitChar sep (joinWith [sep] toks) = toks := by
  induction toks with
  | nil => exact absurd rfl hne
  | cons l t ih =>
    cases t with
    | nil =>
      simp only [joinWith, splitChar]
      rw [splitCharAux_no_sep _ _ _ (h l (List.mem_cons_self _ _))]
      simp
    | cons m t =>
      have ih' := ih (by simp) (fun x hx => h x (List.mem_cons_of_mem _ hx))
      simp only [joinWith, splitChar, List.append_assoc, List.cons_append, List.nil_append]
      rw [splitCharAux_sep _ _ _ _ (h l (List.mem_cons_self _ _))]
      unfold splitChar at ih'
      rw [ih']
      simp

theorem rosterParts_joinWith (toks : List Str) (h : ∀ t ∈ toks, ',' ∉ t) :
    rosterParts (joinWith [','] toks)
      = (toks.map jsTrim).filter (fun s => decide (s.length ≠ 0)) := by
  unfold rosterParts
  cases toks with
  | nil => decide
  | cons l t => rw [splitChar_joinWith ',' (l :: t) (by simp) h]

theorem creditAttendance_getOwn_congr (c1 c2 : JsObj AttVal) (name n : Str) (inc : ℚ)
    (h : getOwn c1 n = getOwn c2 n) :
    getOwn (creditAttendance c1 name inc) n = getOwn (creditAttendance c2 name inc) n := by
  by_cases hn : name = n
  · subst hn
    unfold creditAttendance
    rw [h]
    cases h2 : getOwn c2 name with
    | none =>
      by_cases hp : name ∈ objectProtoNames
      · simp only [hp, if_true, h, h2]
        split_ifs
        · exact h
        · rw [getOwn_setOwn_same, getOwn_setOwn_same]
      · simp only [hp, if_false, getOwn_setOwn_same]
    | some v =>
      cases v with
      | text => simp only [h, h2, getOwn_setOwn_same]
      | num q =>
        by_cases hq : q = 0
        · simp only [hq, if_true, getOwn_setOwn_same]
        · simp only [hq, if_false, h, h2, getOwn_setOwn_same]
  · rw [creditAttendance_getOwn_ne _ _ _ _ hn, creditAttendance_getOwn_ne _ _ _ _ hn, h]

theorem creditEntry_getOwn_congr (c1 c2 : JsObj AttVal) (e n : Str)
    (h : getOwn c1 n = getOwn c2 n) :
    getOwn (creditEntry c1 e) n = getOwn (creditEntry c2 e) n := by
  unfold creditEntry
  simp only
  split_ifs
  · exact creditAttendance_getOwn_congr _ _ _ _ _ h
  · exact h

theorem foldl_creditEntry_congr (l : List Str) (c1 c2 : JsObj AttVal) (n : Str)
    (h : getOwn c1 n = getOwn c2 n) :
    getOwn (l.foldl creditEntry c1) n = getOwn (l.foldl creditEntry c2) n := by
  induction l generalizing c1 c2 with
  | nil => exact h
  | cons e t ih => exact ih _ _ (creditEntry_getOwn_congr _ _ _ _ h)

theorem creditEntry_getOwn_other (counts : JsObj AttVal) (e n : Str)
    (h : n ≠ (classifyEntry e).1) : getOwn (creditEntry counts e) n = getOwn counts n := by
  unfold creditEntry
  simp only
  split_ifs
  · exact creditAttendance_getOwn_ne _ _ _ _ (fun x => h x.symm)
  · rfl

/-- C11 (as stated) fails: the roster `Nina(OT:x)` of an in-range row has one
token; it matches none of the three annotation patterns, so branch d) takes the
whole token as a name and credits it one full day. -/
theorem C11_counterexample :
    rosterParts (innerDuties ("duties=".toList ++ [dq] ++ "Nina(OT:x)".toList ++ [dq]))
        = ["Nina(OT:x)".toList]
    ∧ otMatch "Nina(OT:x)".toList = none
    ∧ getOwn (attendanceCounts 0 10
        [⟨some 5, "duties=".toList ++ [dq] ++ "Nina(OT:x)".toList ++ [dq]⟩])
        "Nina(OT:x)".toList = some (AttVal.num 1) := by
  have h1 : rosterParts (innerDuties ("duties=".toList ++ [dq] ++ "Nina(OT:x)".toList ++ [dq]))
      = ["Nina(OT:x)".toList] := by decide
  refine ⟨h1, by decide, ?_⟩
  have hp : "Nina(OT:x)".toList ∉ objectProtoNames := by decide
  have h2 : hdMatch "Nina(OT:x)".toList = none := by decide
  have h3 : otMatch "Nina(OT:x)".toList = none := by decide
  have h4 : utMatch "Nina(OT:x)".toList = none := by decide
  have h5 : jsTrim "Nina(OT:x)".toList = "Nina(OT:x)".toList := by decide
  have h6 : classifyEntry "Nina(OT:x)".toList = ("Nina(OT:x)".toList, 1) := by
    simp only [classifyEntry, h2, h3, h4, h5]
    simp
  unfold attendanceCounts
  rw [attendance_foldl_getOwn _ _ _ _ _ hp]
  simp only [rowCredits, List.map_cons, List.map_nil, h1, h6]
  simp [bump, getOwn]

/-- C11 (amended): a token that is empty after trimming is dropped from the
roster, so the other tokens are credited as if it were not there; a token that
is not blank and matches none of the three annotation patterns (such as
`Nina(OT:x)`) is credited one full day under its whole trimmed text, and, like
every token, it changes the value held for no other name: the values of all
other names are those computed from the roster without it. -/
theorem C11_blank_and_unmatched_tokens :
    (∀ pre post t, (∀ x ∈ pre ++ t :: post, ',' ∉ x) → jsTrim t = [] →
        rosterParts (joinWith [','] (pre ++ t :: post))
          = rosterParts (joinWith [','] (pre ++ post)))
    ∧ (∀ e, hdMatch e = none → otMatch e = none → utMatch e = none → jsTrim e ≠ [] →
        classifyEntry e = (jsTrim e, 1)
        ∧ ∀ counts, creditEntry counts e = creditAttendance counts (jsTrim e) 1)
    ∧ (∀ counts pre post e n, n ≠ (classifyEntry e).1 →
        getOwn ((pre ++ e :: post).foldl creditEntry counts) n
          = getOwn ((pre ++ post).foldl creditEntry counts) n) := by
  refine ⟨?_, ?_, ?_⟩
  · intro pre post t h ht
    have h2 : ∀ x ∈ pre ++ post, ',' ∉ x := by
      intro x hx
      apply h x
      rcases List.mem_append.mp hx with hx | hx
      · exact List.mem_append_left _ hx
      · exact List.mem_append_right _ (List.mem_cons_of_mem _ hx)
    rw [rosterParts_joinWith _ h, rosterParts_joinWith _ h2]
    simp [List.map_append, List.filter_append, List.filter_cons, ht]
  · intro e h1 h2 h3 h4
    have hc : classifyEntry e = (jsTrim e, 1) := by
      simp only [classifyEntry, h1, h2, h3]
      simp [h4]
    refine ⟨hc, fun counts => ?_⟩
    unfold creditEntry
    simp only [hc]
    rw [if_pos h4]
  · intro counts pre post e n hn
    rw [List.foldl_append, List.foldl_append, List.foldl_cons]
    exact foldl_creditEntry_congr _ _ _ _ (creditEntry_getOwn_other _ _ _ hn)

/-- C11 (amended) at the roster `Nina, ,Ana`: the blank middle token is dropped;
and at the token `Nina(OT:x)`, which is credited as a bare name. -/
theorem C11_blank_and_unmatched_tokens_witness :
    rosterParts (joinWith [','] (["Nina".toList] ++ " ".toList :: ["Ana".toList]))
        = rosterParts (joinWith [','] (["Nina".toList] ++ ["Ana".toList]))
    ∧ classifyEntry "Nina(OT:x)".toList = (jsTrim "Nina(OT:x)".toList, 1) :=
  ⟨C11_blank_and_unmatched_tokens.1 ["Nina".toList] ["Ana".toList] " ".toList (by decide)
      (by decide),
   (C11_blank_and_unmatched_tokens.2.1 "Nina(OT:x)".toList (by decide) (by decide) (by decide)
      (by decide)).1⟩

/-! ## Rounding of the attendance -/

theorem toFixed6_of_int (k : ℤ) : toFixed6 ((k : ℚ) / 10 ^ 6) = (k : ℚ) / 10 ^ 6 := by
  unfold toFixed6
  split_ifs with h1 h2
  · rfl
  · have e : -((k : ℚ) / 10 ^ 6) * 10 ^ 6 + 1 / 2 = ((-k : ℤ) : ℚ) + 1 / 2 := by
      push_cast
      field_simp
      ring
    rw [e]
    have f : Int.floor (((-k : ℤ) : ℚ) + 1 / 2) = -k := by
      rw [Int.floor_eq_iff]
      constructor <;> norm_num
    rw [f]
    push_cast
    ring
  · have e : (k : ℚ) / 10 ^ 6 * 10 ^ 6 + 1 / 2 = (k : ℚ) + 1 / 2 := by
      field_simp
    rw [e]
    have f : Int.floor ((k : ℚ) + 1 / 2) = k := by
      rw [Int.floor_eq_iff]
      constructor <;> norm_num
    rw [f]

theorem toFixed6_sixth : toFixed6 (1 / 6) = 166667 / 1000000 := by
  unfold toFixed6
  have h1 : ¬ ((1 / 6 : ℚ) ≥ 10 ^ 21 ∨ (1 / 6 : ℚ) ≤ -(10 ^ 21)) := by norm_num
  have h2 : ¬ ((1 / 6 : ℚ) < 0) := by norm_num
  rw [if_neg h1, if_neg h2]
  have f : Int.floor ((1 / 6 : ℚ) * 10 ^ 6 + 1 / 2) = 166667 := by
    rw [Int.floor_eq_iff]
    constructor <;> norm_num
  rw [f]
  norm_num

/-! ## Date records -/

theorem findDateRow_none (d : Int) (data : List LedgerRow) (i : Nat) :
    findDateRow d data i = none ↔ ∀ r ∈ data, r.aTime ≠ some d := by
  induction data generalizing i with
  | nil => simp [findDateRow]
  | cons r rs ih =>
    unfold findDateRow
    by_cases h : r.aTime = some d
    · simp [h]
    · simp [h, ih]

theorem findDateRow_some (d : Int) (data : List LedgerRow) (i row : Nat)
    (h : findDateRow d data i = some row) :
    ∃ k, row = i + k + 1 ∧ k < data.length ∧ (data[k]?).map LedgerRow.aTime = some (some d)
      ∧ ∀ j, j < k → ∀ r, data[j]? = some r → r.aTime ≠ some d := by
  induction data generalizing i with
  | nil => simp [findDateRow] at h
  | cons r rs ih =>
    unfold findDateRow at h
    by_cases hr : r.aTime = some d
    · rw [if_pos hr] at h
      refine ⟨0, ?_, by simp, by simp [hr], ?_⟩
      · exact (Option.some.inj h).symm
      · intro j hj
        exact absurd hj (Nat.not_lt_zero _)
    · rw [if_neg hr] at h
      obtain ⟨k, h1, h2, h3, h4⟩ := ih (i + 1) h
      refine ⟨k + 1, by omega, by simp [h2], by simpa using h3, ?_⟩
      intro j hj r' hr'
      cases j with
      | zero =>
        simp at hr'
        rw [← hr']
        exact hr
      | succ j =>
        simp at hr'
        exact h4 j (by omega) r' hr'

theorem findDateRow_append_self (d : Int) (data : List LedgerRow) (i : Nat)
    (h : findDateRow d data i = none) :
    findDateRow d (data ++ [newDateRow d]) i = some (i + data.length + 1) := by
  induction data generalizing i with
  | nil => simp [findDateRow, newDateRow]
  | cons r rs ih =>
    unfold findDateRow at h
    by_cases hr : r.aTime = some d
    · rw [if_pos hr] at h
      exact absurd h (by simp)
    · rw [if_neg hr] at h
      rw [List.cons_append, findDateRow, if_neg hr, ih (i + 1) h]
      simp only [List.length_cons]
      congr 1
      omega

theorem findOrCreate_found (data : List LedgerRow) (d : Int) (row : Nat)
    (h : findDateRow d data 0 = some row) : findOrCreateDateRow data d = (row, data) := by
  unfold findOrCreateDateRow
  rw [h]

theorem findOrCreate_new (data : List LedgerRow) (d : Int)
    (h : findDateRow d data 0 = none) :
    findOrCreateDateRow data d = (data.length + 1, data ++ [newDateRow d]) := by
  unfold findOrCreateDateRow
  rw [h]

/-- C21: for a date already present in column A, `findOrCreateDateRow` returns
the number of the first row whose date has the same time value and leaves the
data sheet as it was; and for every date, present or not, a second call right
after the first returns the same row number and the same sheet. -/
theorem C21_find_existing_row (data : List LedgerRow) (d : Int)
    (h : ∃ r ∈ data, r.aTime = some d) :
    (∃ k, k < data.length ∧ findOrCreateDateRow data d = (k + 1, data)
      ∧ (data[k]?).map LedgerRow.aTime = some (some d)
      ∧ ∀ j, j < k → ∀ r, data[j]? = some r → r.aTime ≠ some d)
    ∧ (∀ (sheet : List LedgerRow) (date : Int),
        findOrCreateDateRow (findOrCreateDateRow sheet date).2 date
          = findOrCreateDateRow sheet date) := by
  constructor
  · cases hf : findDateRow d data 0 with
    | none =>
      obtain ⟨r, hr, hd⟩ := h
      exact absurd hd ((findDateRow_none d data 0).mp hf r hr)
    | some row =>
      obtain ⟨k, h1, h2, h3, h4⟩ := findDateRow_some d data 0 row hf
      refine ⟨k, h2, ?_, h3, h4⟩
      rw [findOrCreate_found data d row hf, h1]
      simp
  · intro sheet date
    cases hf : findDateRow date sheet 0 with
    | none =>
      rw [findOrCreate_new sheet date hf]
      simp only
      rw [findOrCreate_found _ date _ (findDateRow_append_self date sheet 0 hf)]
      simp
    | some row =>
      rw [findOrCreate_found sheet date row hf]
      simp only
      rw [findOrCreate_found sheet date row hf]

/-- C21 on a sheet with a header row and the dates 5, 7, 5: the date 5 is found
in row 2. -/
theorem C21_find_existing_row_witness :
    ∃ k, k < 4 ∧ findOrCreateDateRow
        [⟨none, [], [], [], [], [], [], []⟩, ⟨some 5, [], [], [], [], [], [], []⟩,
         ⟨some 7, [], [], [], [], [], [], []⟩, ⟨some 5, [], [], "x".toList, [], [], [], []⟩] 5
      = (k + 1, [⟨none, [], [], [], [], [], [], []⟩, ⟨some 5, [], [], [], [], [], [], []⟩,
         ⟨some 7, [], [], [], [], [], [], []⟩, ⟨some 5, [], [], "x".toList, [], [], [], []⟩]) := by
  obtain ⟨k, h1, h2, _⟩ := (C21_find_existing_row
    [⟨none, [], [], [], [], [], [], []⟩, ⟨some 5, [], [], [], [], [], [], []⟩,
     ⟨some 7, [], [], [], [], [], [], []⟩, ⟨some 5, [], [], "x".toList, [], [], [], []⟩] 5
    ⟨⟨some 5, [], [], [], [], [], [], []⟩, by decide, rfl⟩).1
  exact ⟨k, h1, h2⟩

/-- C22: if no two rows of the data sheet hold the same date, this still holds
after `findOrCreateDateRow` and exactly one row holds the given date; the rows
present before are all kept unchanged at their places; a date that no row holds
is added as one new row right after the last row, and a date that is held adds
none; in the new row every quoted sub-field of columns D and F decodes to the
empty text and `totaldeposit` decodes to the deposit-summary template. -/
theorem C22_one_row_per_date (data : List LedgerRow) (d : Int)
    (h : (data.filterMap LedgerRow.aTime).Nodup) :
    ((findOrCreateDateRow data d).2.filterMap LedgerRow.aTime).Nodup
    ∧ ((findOrCreateDateRow data d).2.filterMap LedgerRow.aTime).count d = 1
    ∧ data <+: (findOrCreateDateRow data d).2
    ∧ ((∀ r ∈ data, r.aTime ≠ some d) →
        findOrCreateDateRow data d = (data.length + 1, data ++ [newDateRow d]))
    ∧ ((∃ r ∈ data, r.aTime = some d) → (findOrCreateDateRow data d).2 = data)
    ∧ (newDateRow d).aTime = some d
    ∧ (∀ k ∈ colDKeys, extractKeyFromCell (newDateRow d).colD k = [])
    ∧ extractKeyFromCell (newDateRow d).colF "duties".toList = []
    ∧ extractKeyFromCell (newDateRow d).colH "totaldeposit".toList
        = "Sales AM: ".toList ++ [bsl, 'n'] ++ "Sales PM: ".toList ++ [bsl, 'n']
          ++ "Coffee Sales: ".toList ++ [bsl, 'n'] ++ "NS:".toList ++ [bsl, 'n', bsl, 'n']
          ++ "Total Sales:".toList ++ [bsl, 'n', bsl, 'n'] ++ "Total Previous:".toList
          ++ [bsl, 'n'] ++ "Expenses:".toList ++ [bsl, 'n'] ++ "Grand Net Total:".toList
          ++ [bsl, 'n'] ++ "Deposited (Y or N):".toList := by
  have hmem : ∀ l : List LedgerRow, d ∈ l.filterMap LedgerRow.aTime ↔ ∃ r ∈ l, r.aTime = some d := by
    intro l
    simp [List.mem_filterMap]
  have key : ((findOrCreateDateRow data d).2.filterMap LedgerRow.aTime).Nodup
      ∧ d ∈ (findOrCreateDateRow data d).2.filterMap LedgerRow.aTime
      ∧ data <+: (findOrCreateDateRow data d).2 := by
    cases hf : findDateRow d data 0 with
    | none =>
      rw [findOrCreate_new data d hf]
      have hnot : d ∉ data.filterMap LedgerRow.aTime := by
        rw [hmem]
        rintro ⟨r, hr, hd⟩
        exact (findDateRow_none d data 0).mp hf r hr hd
      refine ⟨?_, ?_, List.prefix_append _ _⟩
      · simp only [List.filterMap_append, List.filterMap_cons, List.filterMap_nil, newDateRow]
        rw [List.nodup_append]
        refine ⟨h, List.nodup_singleton _, ?_⟩
        intro a ha hb
        rw [List.mem_singleton] at hb
        exact hnot (hb ▸ ha)
      · simp [List.filterMap_append, newDateRow]
    | some row =>
      rw [findOrCreate_found data d row hf]
      refine ⟨h, ?_, List.prefix_refl _⟩
      obtain ⟨k, _, h2, h3, _⟩ := findDateRow_some d data 0 row hf
      rw [hmem]
      cases hk : data[k]? with
      | none => simp [hk] at h3
      | some r =>
        obtain ⟨hlt, he⟩ := List.getElem?_eq_some.mp hk
        refine ⟨r, he ▸ List.getElem_mem hlt, ?_⟩
        simpa [hk] using h3
  have hD : ∀ k ∈ colDKeys, extractKeyFromCell defaultDValue k = [] := by decide
  have hF : extractKeyFromCell defaultFValue "duties".toList = [] := by decide
  have hH : extractKeyFromCell defaultHValue "totaldeposit".toList
      = "Sales AM: ".toList ++ [bsl, 'n'] ++ "Sales PM: ".toList ++ [bsl, 'n']
        ++ "Coffee Sales: ".toList ++ [bsl, 'n'] ++ "NS:".toList ++ [bsl, 'n', bsl, 'n']
        ++ "Total Sales:".toList ++ [bsl, 'n', bsl, 'n'] ++ "Total Previous:".toList
        ++ [bsl, 'n'] ++ "Expenses:".toList ++ [bsl, 'n'] ++ "Grand Net Total:".toList
        ++ [bsl, 'n'] ++ "Deposited (Y or N):".toList := by decide
  refine ⟨key.1, List.count_eq_one_of_mem key.1 key.2.1, key.2.2, ?_, ?_, rfl, hD, hF, hH⟩
  · intro hn
    exact findOrCreate_new data d ((findDateRow_none d data 0).mpr hn)
  · rintro ⟨r, hr, hd⟩
    cases hf : findDateRow d data 0 with
    | none => exact absurd hd ((findDateRow_none d data 0).mp hf r hr)
    | some row => rw [findOrCreate_found data d row hf]

/-- C22 on a sheet with a header row and the date 5: the date 7 is added as
row 3. -/
theorem C22_one_row_per_date_witness :
    findOrCreateDateRow
        [⟨none, [], [], [], [], [], [], []⟩, ⟨some 5, [], [], [], [], [], [], []⟩] 7
      = (3, [⟨none, [], [], [], [], [], [], []⟩, ⟨some 5, [], [], [], [], [], [], []⟩,
          newDateRow 7]) :=
  (C22_one_row_per_date
    [⟨none, [], [], [], [], [], [], []⟩, ⟨some 5, [], [], [], [], [], [], []⟩] 7
    (by decide)).2.2.2.1 (by decide)

/-! ## Numbered blocks -/

theorem digit_char (n : Nat) (h : n < 10) :
    (Char.ofNat (48 + n)).isDigit = true ∧ digitVal (Char.ofNat (48 + n)) = n := by
  revert n
  decide

theorem natOfDigits_foldl (s : Str) (a : Nat) :
    s.foldl (fun n c => 10 * n + digitVal c) a = a * 10 ^ s.length + natOfDigits s := by
  unfold natOfDigits
  induction s generalizing a with
  | nil => simp
  | cons c t ih =>
    rw [List.foldl_cons, ih, List.foldl_cons, ih (10 * 0 + digitVal c)]
    simp only [List.length_cons]
    ring

theorem natOfDigits_cons (c : Char) (s : Str) :
    natOfDigits (c :: s) = digitVal c * 10 ^ s.length + natOfDigits s := by
  have h := natOfDigits_foldl s (10 * 0 + digitVal c)
  unfold natOfDigits at h ⊢
  rw [List.foldl_cons, h]
  simp

theorem decAux_value (fuel n : Nat) (acc : Str) (h : n < fuel) :
    natOfDigits (decAux fuel n acc) = n * 10 ^ acc.length + natOfDigits acc := by
  induction fuel generalizing n acc with
  | zero => exact absurd h (Nat.not_lt_zero _)
  | succ f ih =>
    unfold decAux
    split_ifs with h10
    · rw [natOfDigits_cons, (digit_char n h10).2]
    · have hlt : n / 10 < f := by omega
      rw [ih (n / 10) _ hlt, natOfDigits_cons, (digit_char (n % 10) (Nat.mod_lt _ (by norm_num))).2]
      simp only [List.length_cons]
      have := Nat.div_add_mod n 10
      calc n / 10 * 10 ^ (acc.length + 1) + (n % 10 * 10 ^ acc.length + natOfDigits acc)
          = (10 * (n / 10) + n % 10) * 10 ^ acc.length + natOfDigits acc := by ring
        _ = n * 10 ^ acc.length + natOfDigits acc := by rw [this]

theorem decAux_digits (fuel n : Nat) (acc : Str) (h : ∀ c ∈ acc, c.isDigit = true) :
    ∀ c ∈ decAux fuel n acc, c.isDigit = true := by
  induction fuel generalizing n acc with
  | zero => exact h
  | succ f ih =>
    unfold decAux
    split_ifs with h10
    · intro c hc
      rcases List.mem_cons.mp hc with rfl | hc
      · exact (digit_char n h10).1
      · exact h c hc
    · apply ih
      intro c hc
      rcases List.mem_cons.mp hc with rfl | hc
      · exact (digit_char (n % 10) (Nat.mod_lt _ (by norm_num))).1
      · exact h c hc

theorem decAux_ne_nil (fuel n : Nat) (acc : Str) (h : acc ≠ [] ∨ 0 < fuel) :
    decAux fuel n acc ≠ [] := by
  induction fuel generalizing n acc with
  | zero =>
    rcases h with h | h
    · exact h
    · exact absurd h (Nat.lt_irrefl _)
  | succ f ih =>
    unfold decAux
    split_ifs
    · simp
    · exact ih _ _ (Or.inl (by simp))

theorem decStr_value (n : Nat) : natOfDigits (decStr n) = n := by
  unfold decStr
  rw [decAux_value _ _ _ (Nat.lt_succ_self n)]
  simp [natOfDigits]

theorem decStr_digits (n : Nat) : ∀ c ∈ decStr n, c.isDigit = true :=
  decAux_digits _ _ _ (by simp)

theorem decStr_ne_nil (n : Nat) : decStr n ≠ [] :=
  decAux_ne_nil _ _ _ (Or.inr (Nat.succ_pos n))

theorem dropWhile_append_stop {α : Type} (p : α → Bool) (l1 l2 : List α) (c : α)
    (hc : p c = false) :
    (l1 ++ c :: l2).dropWhile p = l1.dropWhile p ++ c :: l2 := by
  induction l1 with
  | nil => simp [List.dropWhile_cons, hc]
  | cons a t ih =>
    by_cases ha : p a = true
    · simp [List.dropWhile_cons, ha, ih]
    · simp [List.dropWhile_cons, ha]

theorem jsTrimEnd_append_stop (a y : Str) (c : Char) (hc : isJsSpace c = false) :
    jsTrimEnd (a ++ c :: y) = a ++ c :: jsTrimEnd y := by
  unfold jsTrimEnd
  rw [List.reverse_append, List.reverse_cons, List.append_assoc, List.singleton_append,
    dropWhile_append_stop _ _ _ _ hc]
  simp

theorem jsTrimEnd_initial (y : Str) : jsTrimEnd y <+: y := by
  unfold jsTrimEnd
  have h := List.dropWhile_suffix isJsSpace (l := y.reverse)
  rw [← List.reverse_prefix] at h
  simpa using h

theorem digit_not_space (c : Char) (h : c.isDigit = true) : isJsSpace c = false := by
  have h1 : 48 ≤ c.toNat ∧ c.toNat ≤ 57 := by
    simp only [Char.isDigit, Bool.and_eq_true, decide_eq_true_eq] at h
    exact ⟨h.1, h.2⟩
  unfold isJsSpace
  simp only [Bool.or_eq_false_iff, beq_eq_false_iff_ne, Bool.and_eq_false_iff,
    decide_eq_false_iff_not]
  omega

theorem takeWhile_digits_append (d rest : Str) (c : Char) (hd : ∀ x ∈ d, x.isDigit = true)
    (hc : c.isDigit = false) :
    (d ++ c :: rest).takeWhile Char.isDigit = d
    ∧ (d ++ c :: rest).dropWhile Char.isDigit = c :: rest := by
  induction d with
  | nil => simp [List.takeWhile_cons, List.dropWhile_cons, hc]
  | cons a t ih =>
    have ha := hd a (List.mem_cons_self _ _)
    have ih' := ih (fun x hx => hd x (List.mem_cons_of_mem _ hx))
    simp [List.takeWhile_cons, List.dropWhile_cons, ha, ih'.1, ih'.2]

theorem jsTrim_header (d y : Str) (hne : d ≠ []) (hd : ∀ x ∈ d, x.isDigit = true) :
    jsTrim (d ++ '.' :: y) = d ++ '.' :: jsTrimEnd y := by
  unfold jsTrim
  cases d with
  | nil => exact absurd rfl hne
  | cons a t =>
    have ha := digit_not_space a (hd a (List.mem_cons_self _ _))
    rw [List.cons_append, List.dropWhile_cons, ha]
    simp only [Bool.false_eq_true, if_false]
    rw [← List.cons_append, jsTrimEnd_append_stop _ _ _ (by decide)]

theorem headerMatch_header (d y : Str) (hne : d ≠ []) (hd : ∀ x ∈ d, x.isDigit = true) :
    headerMatch (jsTrim (d ++ '.' :: ' ' :: y)) = some d := by
  rw [jsTrim_header d _ hne hd]
  have hdrop : (d ++ '.' :: jsTrimEnd (' ' :: y)).dropWhile isJsSpace
      = d ++ '.' :: jsTrimEnd (' ' :: y) := by
    cases d with
    | nil => exact absurd rfl hne
    | cons a t =>
      have ha := digit_not_space a (hd a (List.mem_cons_self _ _))
      rw [List.cons_append, List.dropWhile_cons, ha]
      simp
  obtain ⟨h1, h2⟩ := takeWhile_digits_append d (jsTrimEnd (' ' :: y)) '.' hd (by decide)
  unfold headerMatch
  simp only [hdrop, h1, h2, hne, if_false]
  obtain ⟨z, hz⟩ := jsTrimEnd_initial (' ' :: y)
  cases hj : jsTrimEnd (' ' :: y) with
  | nil => simp
  | cons e r =>
    rw [hj] at hz
    have he : e = ' ' := by
      simp only [List.cons_append, List.cons.injEq] at hz
      exact hz.1
    subst he
    simp
    decide

theorem scanAux_cons (numStr : ℚ → Str) (c : ColCell) (rest : List ColCell) (i : Nat)
    (st : Int × Int) :
    scanAux numStr (c :: rest) i st
      = scanAux numStr rest (i + 1)
          (if isBlankCell numStr c = true then st.1 else (i : Int),
           (cellNums numStr c).foldl max st.2) := by
  obtain ⟨a, b⟩ := st
  conv_lhs => unfold scanAux
  apply congrArg (scanAux numStr rest (i + 1))
  refine Prod.ext ?_ ?_
  · simp only [isBlankCell, decide_eq_true_eq]
    by_cases hb : jsTrim (cellString numStr c) = []
    · simp [hb]
    · simp [hb]
  · unfold cellNums
    cases c with
    | text s => cases hm : headerMatch (jsTrim (cellString numStr (ColCell.text s))) <;> simp
    | num q => cases hm : headerMatch (jsTrim (cellString numStr (ColCell.num q))) <;> simp

theorem scanAux_append (numStr : ℚ → Str) (a b : List ColCell) (i : Nat) (st : Int × Int) :
    scanAux numStr (a ++ b) i st = scanAux numStr b (i + a.length) (scanAux numStr a i st) := by
  induction a generalizing i st with
  | nil => simp [scanAux]
  | cons c t ih =>
    rw [List.cons_append, scanAux_cons, scanAux_cons, ih]
    simp only [List.length_cons]
    congr 1
    omega

theorem scanAux_snd (numStr : ℚ → Str) (col : List ColCell) (i : Nat) (st : Int × Int) :
    (scanAux numStr col i st).2 = (col.flatMap (cellNums numStr)).foldl max st.2 := by
  induction col generalizing i st with
  | nil => simp [scanAux]
  | cons c t ih =>
    rw [scanAux_cons, ih]
    simp [List.flatMap_cons, List.foldl_append]

theorem scanAux_fst_blank (numStr : ℚ → Str) (col : List ColCell) (i : Nat) (st : Int × Int)
    (h : ∀ c ∈ col, isBlankCell numStr c = true) : (scanAux numStr col i st).1 = st.1 := by
  induction col generalizing i st with
  | nil => simp [scanAux]
  | cons c t ih =>
    rw [scanAux_cons, ih _ _ (fun x hx => h x (List.mem_cons_of_mem _ hx))]
    simp [h c (List.mem_cons_self _ _)]

theorem scanAux_fst_last (numStr : ℚ → Str) (a b : List ColCell) (c : ColCell) (i : Nat)
    (st : Int × Int) (hc : isBlankCell numStr c = false)
    (hb : ∀ x ∈ b, isBlankCell numStr x = true) :
    (scanAux numStr (a ++ c :: b) i st).1 = ((i + a.length : Nat) : Int) := by
  rw [scanAux_append, scanAux_cons, scanAux_fst_blank _ _ _ _ hb]
  simp [hc]

theorem foldl_max_ge (l : List Int) (a : Int) :
    a ≤ l.foldl max a ∧ ∀ x ∈ l, x ≤ l.foldl max a := by
  induction l generalizing a with
  | nil => simp
  | cons y t ih =>
    rw [List.foldl_cons]
    obtain ⟨h1, h2⟩ := ih (max a y)
    refine ⟨le_trans (le_max_left _ _) h1, ?_⟩
    intro x hx
    rcases List.mem_cons.mp hx with rfl | hx
    · exact le_trans (le_max_right _ _) h1
    · exact h2 x hx

theorem foldl_max_mem (l : List Int) (a : Int) : l.foldl max a = a ∨ l.foldl max a ∈ l := by
  induction l generalizing a with
  | nil => simp
  | cons y t ih =>
    rw [List.foldl_cons]
    rcases ih (max a y) with h | h
    · rw [h]
      rcases max_choice a y with h2 | h2
      · exact Or.inl h2
      · exact Or.inr (by rw [h2]; exact List.mem_cons_self _ _)
    · exact Or.inr (List.mem_cons_of_mem _ h)

theorem scan_snd (numStr : ℚ → Str) (col : List ColCell) :
    (_scanNumberedColumn_ numStr col).2 = highestHeaderNum numStr col :=
  scanAux_snd numStr col 0 (-1, 0)

theorem exists_last_nonblank (numStr : ℚ → Str) (col : List ColCell)
    (h : ∃ c ∈ col, isBlankCell numStr c = false) :
    ∃ a c b, col = a ++ c :: b ∧ isBlankCell numStr c = false
      ∧ ∀ x ∈ b, isBlankCell numStr x = true := by
  induction col with
  | nil =>
    obtain ⟨c, hc, _⟩ := h
    exact absurd hc (List.not_mem_nil _)
  | cons x t ih =>
    by_cases ht : ∃ c ∈ t, isBlankCell numStr c = false
    · obtain ⟨a, c, b, h1, h2, h3⟩ := ih ht
      exact ⟨x :: a, c, b, by rw [h1, List.cons_append], h2, h3⟩
    · have hall : ∀ y ∈ t, isBlankCell numStr y = true := by
        intro y hy
        by_contra hn
        exact ht ⟨y, hy, by simpa using hn⟩
      obtain ⟨c, hc, hcb⟩ := h
      rcases List.mem_cons.mp hc with rfl | hc
      · exact ⟨[], c, t, rfl, hcb, hall⟩
      · rw [hall c hc] at hcb
        exact absurd hcb (by simp)

theorem scan_fst_blank (numStr : ℚ → Str) (col : List ColCell)
    (h : ∀ c ∈ col, isBlankCell numStr c = true) : (_scanNumberedColumn_ numStr col).1 = -1 :=
  scanAux_fst_blank numStr col 0 (-1, 0) h

theorem scan_fst_last (numStr : ℚ → Str) (a b : List ColCell) (c : ColCell)
    (hc : isBlankCell numStr c = false) (hb : ∀ x ∈ b, isBlankCell numStr x = true) :
    (_scanNumberedColumn_ numStr (a ++ c :: b)).1 = (a.length : Int) := by
  unfold _scanNumberedColumn_
  rw [scanAux_fst_last numStr a b c 0 (-1, 0) hc hb]
  simp

theorem scan_fst_neg_iff (numStr : ℚ → Str) (col : List ColCell) :
    (_scanNumberedColumn_ numStr col).1 < 0 ↔ ∀ c ∈ col, isBlankCell numStr c = true := by
  constructor
  · intro h c hc
    by_contra hn
    obtain ⟨a, x, b, h1, h2, h3⟩ := exists_last_nonblank numStr col ⟨c, hc, by simpa using hn⟩
    rw [h1, scan_fst_last numStr a b x h2 h3] at h
    omega
  · intro h
    rw [scan_fst_blank numStr col h]
    decide

theorem highest_spec (numStr : ℚ → Str) (l : List ColCell) :
    0 ≤ highestHeaderNum numStr l
    ∧ (∀ c ∈ l, ∀ n ∈ cellNums numStr c, n ≤ highestHeaderNum numStr l)
    ∧ (highestHeaderNum numStr l = 0
        ∨ ∃ c ∈ l, highestHeaderNum numStr l ∈ cellNums numStr c) := by
  unfold highestHeaderNum
  obtain ⟨h1, h2⟩ := foldl_max_ge (l.flatMap (cellNums numStr)) 0
  refine ⟨h1, ?_, ?_⟩
  · intro c hc n hn
    exact h2 n (List.mem_flatMap.mpr ⟨c, hc, hn⟩)
  · rcases foldl_max_mem (l.flatMap (cellNums numStr)) 0 with h | h
    · exact Or.inl h
    · obtain ⟨c, hc, hn⟩ := List.mem_flatMap.mp h
      exact Or.inr ⟨c, hc, hn⟩

theorem nextNum_eq (numStr : ℚ → Str) (col colJ : List ColCell) (inputA1 : Str) :
    nextNum numStr col colJ inputA1
      = max 1 ((if inputA1 = "C30".toList ∧ ∀ c ∈ col, isBlankCell numStr c = true then
            max (highestHeaderNum numStr col) (highestHeaderNum numStr colJ)
          else highestHeaderNum numStr col) + 1) := by
  unfold nextNum
  simp only [scan_snd, scan_fst_neg_iff]

theorem append_on_blank (numStr : ℚ → Str) (col colJ : List ColCell) (inputA1 input l1 : Str)
    (rest : List Str) (ht : jsTrim input ≠ []) (hl : blockLines (jsTrim input) = l1 :: rest)
    (hb : ∀ c ∈ col, isBlankCell numStr c = true) :
    appendNumberedBlock_ numStr col colJ inputA1 input
      = ColCell.text (decStr (nextNum numStr col colJ inputA1).toNat ++ ". ".toList ++ l1)
          :: rest.map ColCell.text ++ col.drop (1 + rest.length) := by
  have hs := scan_fst_blank numStr col hb
  unfold appendNumberedBlock_
  simp only [ht, if_false, hl]
  unfold blockRows
  simp only [hs]
  simp [Nat.add_comm]

theorem splice_after {α : Type} (a b out : List α) (c : α) :
    (a ++ c :: b).take (a.length + 1) ++ out ++ (a ++ c :: b).drop (a.length + 1 + out.length)
      = a ++ c :: out ++ b.drop out.length := by
  have h1 : (a ++ c :: b).take (a.length + 1) = a ++ [c] := by
    rw [List.take_append]
    simp
  have h2 : (a ++ c :: b).drop (a.length + 1 + out.length) = b.drop out.length := by
    have e : a.length + 1 + out.length = a.length + (out.length + 1) := by omega
    rw [e, List.drop_append]
    simp
  rw [h1, h2]
  simp

theorem append_on_content (numStr : ℚ → Str) (a b : List ColCell) (c : ColCell)
    (colJ : List ColCell) (inputA1 input l1 : Str) (rest : List Str)
    (ht : jsTrim input ≠ []) (hl : blockLines (jsTrim input) = l1 :: rest)
    (hc : isBlankCell numStr c = false) (hb : ∀ x ∈ b, isBlankCell numStr x = true) :
    appendNumberedBlock_ numStr (a ++ c :: b) colJ inputA1 input
      = a ++ c :: ColCell.text [] :: ColCell.text
          (decStr (nextNum numStr (a ++ c :: b) colJ inputA1).toNat ++ ". ".toList ++ l1)
          :: rest.map ColCell.text ++ b.drop (2 + rest.length) := by
  have hs := scan_fst_last numStr a b c hc hb
  have hc' : jsTrim (cellString numStr c) ≠ [] := by
    simpa [isBlankCell] using hc
  have hget : (a ++ c :: b)[a.length]? = some c := by
    rw [List.getElem?_append_right (Nat.le_refl _)]
    simp
  have hge : (a.length : Int) ≥ 0 := Int.natCast_nonneg _
  have hrows : blockRows numStr (a ++ c :: b) colJ inputA1 l1 rest
      = ColCell.text [] :: ColCell.text
          (decStr (nextNum numStr (a ++ c :: b) colJ inputA1).toNat ++ ". ".toList ++ l1)
          :: rest.map ColCell.text := by
    unfold blockRows
    simp only [hs, hge, if_true, Int.toNat_ofNat, hget, hc', ne_eq, not_false_eq_true]
    simp
  unfold appendNumberedBlock_
  simp only [ht, if_false, hl, hs, hge, if_true, Int.toNat_ofNat, hrows]
  rw [splice_after]
  have e : rest.length + 1 + 1 = 2 + rest.length := by omega
  simp [e]

/-- C20: for a non-empty input text with the trimmed lines `l1 :: rest`, the
target column after `appendNumberedBlock_` consists of its rows up to and
including the last non-empty row, unchanged, then one blank separator row, then
the row `N. l1`, then the remaining lines one per row without a prefix; a column
with no content receives the block from its first data row with no separator
(the rows written replace blank rows only; blank rows further down stay). -/
theorem C20_block_appended (numStr : ℚ → Str) (col colJ : List ColCell)
    (inputA1 input l1 : Str) (rest : List Str)
    (ht : jsTrim input ≠ []) (hl : blockLines (jsTrim input) = l1 :: rest) :
    ((∀ c ∈ col, isBlankCell numStr c = true) →
      appendNumberedBlock_ numStr col colJ inputA1 input
        = ColCell.text (decStr (nextNum numStr col colJ inputA1).toNat ++ ". ".toList ++ l1)
            :: rest.map ColCell.text ++ col.drop (1 + rest.length))
    ∧ (∀ a c b, col = a ++ c :: b → isBlankCell numStr c = false →
        (∀ x ∈ b, isBlankCell numStr x = true) →
        appendNumberedBlock_ numStr col colJ inputA1 input
          = a ++ c :: ColCell.text [] :: ColCell.text
              (decStr (nextNum numStr col colJ inputA1).toNat ++ ". ".toList ++ l1)
              :: rest.map ColCell.text ++ b.drop (2 + rest.length)) := by
  refine ⟨append_on_blank numStr col colJ inputA1 input l1 rest ht hl, ?_⟩
  intro a c b hcol hc hb
  subst hcol
  exact append_on_content numStr a b c colJ inputA1 input l1 rest ht hl hc hb

/-- C20 on the column `1. rice`, `salt` and the input ` oil 20` + line feed +
`gas `: a blank row, then `2. oil 20`, then `gas`. -/
theorem C20_block_appended_witness :
    appendNumberedBlock_ intStr [ColCell.text "1. rice".toList, ColCell.text "salt".toList] []
        "B30".toList (" oil 20".toList ++ [nl] ++ "gas ".toList)
      = [ColCell.text "1. rice".toList] ++ ColCell.text "salt".toList :: ColCell.text []
          :: ColCell.text (decStr (nextNum intStr
              [ColCell.text "1. rice".toList, ColCell.text "salt".toList] []
              "B30".toList).toNat ++ ". ".toList ++ "oil 20".toList)
          :: ["gas".toList].map ColCell.text ++ ([] : List ColCell).drop (2 + 1) :=
  (C20_block_appended intStr [ColCell.text "1. rice".toList, ColCell.text "salt".toList] []
    "B30".toList (" oil 20".toList ++ [nl] ++ "gas ".toList) "oil 20".toList ["gas".toList]
    (by decide) (by decide)).2 [ColCell.text "1. rice".toList] (ColCell.text "salt".toList) []
    rfl (by decide) (by decide)

theorem highest_append (numStr : ℚ → Str) (a b : List ColCell) :
    highestHeaderNum numStr (a ++ b)
      = (b.flatMap (cellNums numStr)).foldl max (highestHeaderNum numStr a) := by
  unfold highestHeaderNum
  rw [List.flatMap_append, List.foldl_append]

theorem cellNums_header (numStr : ℚ → Str) (n : Nat) (l1 : Str) :
    cellNums numStr (ColCell.text (decStr n ++ ". ".toList ++ l1)) = [(n : Int)] := by
  unfold cellNums
  simp only [cellString, List.append_nil]
  have e : decStr n ++ ". ".toList ++ l1 = decStr n ++ '.' :: ' ' :: l1 := by simp
  rw [e, headerMatch_header (decStr n) l1 (decStr_ne_nil _) (decStr_digits _)]
  simp only [decStr_value]

theorem header_not_blank (numStr : ℚ → Str) (n : Nat) (l1 : Str) :
    isBlankCell numStr (ColCell.text (decStr n ++ ". ".toList ++ l1)) = false := by
  unfold isBlankCell
  simp only [cellString, decide_eq_false_iff_not]
  have e : decStr n ++ ". ".toList ++ l1 = decStr n ++ '.' :: ' ' :: l1 := by simp
  rw [e, jsTrim_header (decStr n) _ (decStr_ne_nil _) (decStr_digits _)]
  simp

theorem cellNums_plain (numStr : ℚ → Str) (l : Str) (h : headerMatch (jsTrim l) = none) :
    cellNums numStr (ColCell.text l) = [] := by
  unfold cellNums
  simp [cellString, h]

theorem flatMap_plain (numStr : ℚ → Str) (rest : List Str)
    (h : ∀ l ∈ rest, headerMatch (jsTrim l) = none) :
    (rest.map ColCell.text).flatMap (cellNums numStr) = [] := by
  induction rest with
  | nil => rfl
  | cons l t ih =>
    rw [List.map_cons, List.flatMap_cons, cellNums_plain numStr l (h l (List.mem_cons_self _ _)),
      ih (fun x hx => h x (List.mem_cons_of_mem _ hx))]
    rfl

theorem highest_blockCells (numStr : ℚ → Str) (a : List ColCell) (n : Nat) (l1 : Str)
    (rest : List Str) (h : ∀ l ∈ rest, headerMatch (jsTrim l) = none) :
    highestHeaderNum numStr (a ++ blockCells n (l1 :: rest))
      = max (highestHeaderNum numStr a) (n : Int) := by
  rw [highest_append]
  unfold blockCells
  rw [List.flatMap_cons, cellNums_header, flatMap_plain numStr rest h]
  simp

theorem blockCells_last (numStr : ℚ → Str) (n : Nat) (l1 : Str) (rest : List Str)
    (h : ∀ l ∈ rest.getLast?, jsTrim l ≠ []) :
    ∃ a c, blockCells n (l1 :: rest) = a ++ [c] ∧ isBlankCell numStr c = false := by
  unfold blockCells
  rcases List.eq_nil_or_concat rest with hr | ⟨r, l, hr⟩
  · subst hr
    exact ⟨[], _, rfl, header_not_blank numStr n l1⟩
  · subst hr
    refine ⟨ColCell.text (decStr n ++ ". ".toList ++ l1) :: r.map ColCell.text, ColCell.text l,
      by simp, ?_⟩
    have hl := h l (by simp)
    simp [isBlankCell, cellString, hl]

theorem cellNums_empty (numStr : ℚ → Str) : cellNums numStr (ColCell.text []) = [] :=
  cellNums_plain numStr [] (by decide)

theorem empty_is_blank (numStr : ℚ → Str) : isBlankCell numStr (ColCell.text []) = true := by
  unfold isBlankCell
  simp only [cellString, decide_eq_true_eq]
  decide

theorem highest_empty_tail (numStr : ℚ → Str) (a b : List ColCell)
    (hb : ∀ x ∈ b, x = ColCell.text []) :
    highestHeaderNum numStr (a ++ b) = highestHeaderNum numStr a := by
  rw [highest_append]
  have : b.flatMap (cellNums numStr) = [] := by
    induction b with
    | nil => rfl
    | cons x t ih =>
      rw [List.flatMap_cons, hb x (List.mem_cons_self _ _), cellNums_empty,
        ih (fun y hy => hb y (List.mem_cons_of_mem _ hy))]
      rfl
  rw [this]
  rfl

theorem nextNum_on_content (numStr : ℚ → Str) (a b colJ : List ColCell) (c : ColCell)
    (inputA1 : Str) (k : Nat) (hc : isBlankCell numStr c = false)
    (hb : ∀ x ∈ b, x = ColCell.text [])
    (hk : highestHeaderNum numStr (a ++ [c]) = (k : Int)) :
    (nextNum numStr (a ++ c :: b) colJ inputA1).toNat = k + 1 := by
  rw [nextNum_eq]
  have hn : ¬ (inputA1 = "C30".toList ∧ ∀ x ∈ a ++ c :: b, isBlankCell numStr x = true) := by
    rintro ⟨_, h2⟩
    rw [h2 c (by simp)] at hc
    exact absurd hc (by simp)
  rw [if_neg hn]
  have e : a ++ c :: b = (a ++ [c]) ++ b := by simp
  rw [e, highest_empty_tail numStr _ b hb, hk]
  have : max (1 : Int) ((k : Int) + 1) = ((k + 1 : Nat) : Int) := by
    rw [max_eq_right (by omega)]
    simp
  rw [this, Int.toNat_ofNat]

theorem append_step (numStr : ℚ → Str) (a b colJ : List ColCell) (c : ColCell)
    (inputA1 input l1 : Str) (rest : List Str) (k : Nat)
    (ht : jsTrim input ≠ []) (hl : blockLines (jsTrim input) = l1 :: rest)
    (hc : isBlankCell numStr c = false) (hb : ∀ x ∈ b, x = ColCell.text [])
    (hk : highestHeaderNum numStr (a ++ [c]) = (k : Int)) :
    appendNumberedBlock_ numStr (a ++ c :: b) colJ inputA1 input
      = (a ++ [c]) ++ (ColCell.text [] :: blockCells (k + 1) (l1 :: rest))
          ++ b.drop (ColCell.text [] :: blockCells (k + 1) (l1 :: rest)).length := by
  have hb' : ∀ x ∈ b, isBlankCell numStr x = true := by
    intro x hx
    rw [hb x hx]
    exact empty_is_blank numStr
  rw [append_on_content numStr a b c colJ inputA1 input l1 rest ht hl hc hb',
    nextNum_on_content numStr a b colJ c inputA1 k hc hb hk]
  have e : (ColCell.text [] :: blockCells (k + 1) (l1 :: rest)).length = 2 + rest.length := by
    simp [blockCells]
    omega
  rw [e]
  simp [blockCells]

theorem appendAll_from (numStr : ℚ → Str) (colJ : List ColCell) (inputA1 : Str)
    (inputs : List Str) (a b : List ColCell) (c : ColCell) (k : Nat)
    (h1 : ∀ t ∈ inputs, jsTrim t ≠ [] ∧ blockLines (jsTrim t) ≠ [])
    (h2 : ∀ t ∈ inputs, ∀ l ∈ (blockLines (jsTrim t)).tail, headerMatch (jsTrim l) = none)
    (h3 : ∀ t ∈ inputs, ∀ l ∈ (blockLines (jsTrim t)).tail.getLast?, jsTrim l ≠ [])
    (hc : isBlankCell numStr c = false) (hb : ∀ x ∈ b, x = ColCell.text [])
    (hk : highestHeaderNum numStr (a ++ [c]) = (k : Int)) :
    appendAll numStr colJ inputA1 inputs (a ++ c :: b)
      = (a ++ [c]) ++ sepBlocks (k + 1) (inputs.map (fun t => blockLines (jsTrim t)))
          ++ b.drop (sepBlocks (k + 1) (inputs.map (fun t => blockLines (jsTrim t)))).length := by
  induction inputs generalizing a b c k with
  | nil => simp [appendAll, sepBlocks]
  | cons t ts ih =>
    obtain ⟨ht, hne⟩ := h1 t (List.mem_cons_self _ _)
    cases hl : blockLines (jsTrim t) with
    | nil => exact absurd hl hne
    | cons l1 rest =>
      have h2t : ∀ l ∈ rest, headerMatch (jsTrim l) = none := by
        have := h2 t (List.mem_cons_self _ _)
        rw [hl] at this
        exact this
      have h3t : ∀ l ∈ rest.getLast?, jsTrim l ≠ [] := by
        have := h3 t (List.mem_cons_self _ _)
        rw [hl] at this
        exact this
      obtain ⟨a2, c2, hcells, hc2⟩ := blockCells_last numStr (k + 1) l1 rest h3t
      have hstep := append_step numStr a b colJ c inputA1 t l1 rest k ht hl hc hb hk
      have hnew : (a ++ [c]) ++ (ColCell.text [] :: blockCells (k + 1) (l1 :: rest))
          = (a ++ [c] ++ ColCell.text [] :: a2) ++ [c2] := by
        rw [hcells]
        simp
      have hk2 : highestHeaderNum numStr ((a ++ [c] ++ ColCell.text [] :: a2) ++ [c2])
          = ((k + 1 : Nat) : Int) := by
        rw [← hnew]
        have e : (a ++ [c]) ++ (ColCell.text [] :: blockCells (k + 1) (l1 :: rest))
            = ((a ++ [c]) ++ [ColCell.text []]) ++ blockCells (k + 1) (l1 :: rest) := by simp
        rw [e, highest_blockCells numStr _ (k + 1) l1 rest h2t,
          highest_empty_tail numStr (a ++ [c]) [ColCell.text []] (by simp), hk]
        rw [max_eq_right (by push_cast; omega)]
      have hb2 : ∀ x ∈ b.drop (ColCell.text [] :: blockCells (k + 1) (l1 :: rest)).length,
          x = ColCell.text [] := fun x hx => hb x (List.mem_of_mem_drop hx)
      have ih' := ih (a ++ [c] ++ ColCell.text [] :: a2)
        (b.drop (ColCell.text [] :: blockCells (k + 1) (l1 :: rest)).length) c2 (k + 1)
        (fun x hx => h1 x (List.mem_cons_of_mem _ hx))
        (fun x hx => h2 x (List.mem_cons_of_mem _ hx))
        (fun x hx => h3 x (List.mem_cons_of_mem _ hx)) hc2 hb2 hk2
      have e2 : (a ++ [c] ++ ColCell.text [] :: a2) ++ c2
            :: b.drop (ColCell.text [] :: blockCells (k + 1) (l1 :: rest)).length
          = (a ++ [c]) ++ (ColCell.text [] :: blockCells (k + 1) (l1 :: rest))
            ++ b.drop (ColCell.text [] :: blockCells (k + 1) (l1 :: rest)).length := by
        rw [hnew]
        simp
      unfold appendAll at ih' ⊢
      rw [List.foldl_cons, hstep, ← e2, ih', ← hnew]
      simp only [List.map_cons, hl, sepBlocks, List.append_assoc, List.cons_append,
        List.length_cons, List.length_append, List.drop_drop]
      have ea : ∀ x y : Nat, x + 1 + y = x + y + 1 := fun x y => by omega
      rw [ea (blockCells (k + 1) (l1 :: rest)).length]

theorem jsTrim_last (t : Str) (h : jsTrim t ≠ []) :
    ∃ u d, jsTrim t = u ++ [d] ∧ isJsSpace d = false := by
  unfold jsTrim jsTrimEnd at h ⊢
  cases hr : ((t.dropWhile isJsSpace).reverse.dropWhile isJsSpace) with
  | nil => simp [hr] at h
  | cons d r =>
    have hd := List.head_dropWhile_not isJsSpace (t.dropWhile isJsSpace).reverse
      (by simp [hr])
    simp only [hr, List.head_cons] at hd
    exact ⟨r.reverse, d, by simp, by simpa using hd⟩

theorem jsTrim_snoc (w : Str) (d : Char) (hd : isJsSpace d = false) :
    jsTrim (w ++ [d]) = w.dropWhile isJsSpace ++ [d] := by
  unfold jsTrim
  rw [dropWhile_append_stop _ _ _ _ hd, jsTrimEnd_append_stop _ [] d hd]
  rfl

theorem splitLinesAux_last (n : Nat) : ∀ (u cur : Str) (d : Char), u.length ≤ n → d ≠ nl →
    ∃ init w, splitLinesAux (u ++ [d]) cur = init ++ [w ++ [d]] := by
  induction n with
  | zero =>
    intro u cur d hu hd
    have : u = [] := List.length_eq_zero.mp (Nat.le_zero.mp hu)
    subst this
    exact ⟨[], cur, by simp [splitLinesAux, hd]⟩
  | succ n ih =>
    intro u cur d hu hd
    cases u with
    | nil => exact ⟨[], cur, by simp [splitLinesAux, hd]⟩
    | cons c u1 =>
      cases u1 with
      | nil =>
        by_cases h1 : c = cr ∧ d = nl
        · exact absurd h1.2 hd
        · by_cases h2 : c = nl
          · refine ⟨[cur], [], ?_⟩
            simp [splitLinesAux, h2, hd]
          · refine ⟨[], cur ++ [c], ?_⟩
            simp [splitLinesAux, h1, h2, hd]
      | cons e u2 =>
        have hlen1 : (e :: u2).length ≤ n := by simpa using hu
        have hlen2 : u2.length ≤ n := by
          simp only [List.length_cons] at hu
          omega
        by_cases h1 : c = cr ∧ e = nl
        · obtain ⟨init, w, hw⟩ := ih u2 [] d hlen2 hd
          refine ⟨cur :: init, w, ?_⟩
          simp only [List.cons_append]
          rw [splitLinesAux, if_pos h1, hw]
        · by_cases h2 : c = nl
          · obtain ⟨init, w, hw⟩ := ih (e :: u2) [] d hlen1 hd
            refine ⟨cur :: init, w, ?_⟩
            simp only [List.cons_append] at hw ⊢
            rw [splitLinesAux, if_neg h1, if_pos h2, hw]
          · obtain ⟨init, w, hw⟩ := ih (e :: u2) (cur ++ [c]) d hlen1 hd
            refine ⟨init, w, ?_⟩
            simp only [List.cons_append] at hw ⊢
            rw [splitLinesAux, if_neg h1, if_neg h2, hw]

theorem keepLines_snoc (head tail : Int) (init : List Str) (last : Str) (i : Nat)
    (h : last ≠ []) :
    keepLines head tail (init ++ [last]) i = keepLines head tail init i ++ [last] := by
  induction init generalizing i with
  | nil => simp [keepLines, h]
  | cons s t ih =>
    rw [List.cons_append, keepLines, keepLines, ih]
    split_ifs <;> simp

theorem blockLines_last (t : Str) (h : jsTrim t ≠ []) :
    ∃ k last, blockLines (jsTrim t) = k ++ [last] ∧ jsTrim last ≠ [] := by
  obtain ⟨u, d, hu, hd⟩ := jsTrim_last t h
  have hdnl : d ≠ nl := by
    rintro rfl
    exact absurd hd (by decide)
  obtain ⟨init, w, hw⟩ := splitLinesAux_last u.length u [] d (Nat.le_refl _) hdnl
  have hlast : jsTrim (w ++ [d]) ≠ [] := by
    rw [jsTrim_snoc w d hd]
    simp
  have hlast2 : jsTrim (jsTrim (w ++ [d])) ≠ [] := by
    rw [jsTrim_snoc w d hd, jsTrim_snoc _ d hd]
    simp
  unfold blockLines splitLines
  rw [hu, hw]
  simp only [List.map_append, List.map_cons, List.map_nil]
  rw [keepLines_snoc _ _ _ _ _ hlast]
  exact ⟨_, _, rfl, hlast2⟩

theorem blockLines_facts (t : Str) (h : jsTrim t ≠ []) :
    blockLines (jsTrim t) ≠ []
    ∧ ∀ l ∈ (blockLines (jsTrim t)).tail.getLast?, jsTrim l ≠ [] := by
  obtain ⟨k, last, hk, hl⟩ := blockLines_last t h
  rw [hk]
  refine ⟨by simp, ?_⟩
  intro l hmem
  cases k with
  | nil => simp at hmem
  | cons a k1 =>
    simp only [List.cons_append, List.tail_cons, List.getLast?_append, List.getLast?_singleton,
      Option.mem_def] at hmem
    simp at hmem
    rw [← hmem]
    exact hl

/-- C18 (as stated) fails: the blocks `a`, `25` and `b` appended to an empty
column give the second block the header `26.`, because the scan takes the bare
line `25` of the first block for a header number; and through the input cell C30
the first block appended to an empty column continues the numbering of column
J (`3. x` there gives the header `4.`). -/
theorem C18_counterexample :
    appendAll intStr [] "B28".toList ["a".toList ++ [nl] ++ "25".toList, "b".toList] []
        = [ColCell.text "1. a".toList, ColCell.text "25".toList, ColCell.text [],
            ColCell.text "26. b".toList]
    ∧ appendAll intStr [ColCell.text "3. x".toList] "C30".toList ["a".toList] []
        = [ColCell.text "4. a".toList] := by
  decide

/-- C18 (amended): when no line after the first of any block reads as a header
(a bare number, or a number followed by a full stop and then a blank or the end
of the line), and the input cell is not C30 or column J shows no header number,
then appending the non-empty blocks one after another to an empty column yields
the blocks in order with the headers `1.`, `2.`, ..., `k.` fused onto their first
lines and exactly one blank row between consecutive blocks; the rows below stay
empty. -/
theorem C18_blocks_numbered (numStr : ℚ → Str) (colJ col : List ColCell) (inputA1 : Str)
    (inputs : List Str)
    (hcol : ∀ x ∈ col, x = ColCell.text [])
    (hJ : inputA1 ≠ "C30".toList ∨ highestHeaderNum numStr colJ = 0)
    (ht : ∀ t ∈ inputs, jsTrim t ≠ [])
    (h2 : ∀ t ∈ inputs, ∀ l ∈ (blockLines (jsTrim t)).tail, headerMatch (jsTrim l) = none) :
    appendAll numStr colJ inputA1 inputs col
      = numberedColumn (inputs.map (fun t => blockLines (jsTrim t)))
          ++ col.drop (numberedColumn (inputs.map (fun t => blockLines (jsTrim t)))).length := by
  have h1 : ∀ t ∈ inputs, jsTrim t ≠ [] ∧ blockLines (jsTrim t) ≠ [] :=
    fun t hm => ⟨ht t hm, (blockLines_facts t (ht t hm)).1⟩
  have h3 : ∀ t ∈ inputs, ∀ l ∈ (blockLines (jsTrim t)).tail.getLast?, jsTrim l ≠ [] :=
    fun t hm => (blockLines_facts t (ht t hm)).2
  cases inputs with
  | nil => simp [appendAll, numberedColumn]
  | cons t ts =>
    obtain ⟨ht, hne⟩ := h1 t (List.mem_cons_self _ _)
    cases hl : blockLines (jsTrim t) with
    | nil => exact absurd hl hne
    | cons l1 rest =>
      have h2t : ∀ l ∈ rest, headerMatch (jsTrim l) = none := by
        have := h2 t (List.mem_cons_self _ _)
        rw [hl] at this
        exact this
      have h3t : ∀ l ∈ rest.getLast?, jsTrim l ≠ [] := by
        have := h3 t (List.mem_cons_self _ _)
        rw [hl] at this
        exact this
      have hblank : ∀ c ∈ col, isBlankCell numStr c = true := by
        intro c hc
        rw [hcol c hc]
        exact empty_is_blank numStr
      have hzero : highestHeaderNum numStr col = 0 := by
        have := highest_empty_tail numStr [] col hcol
        simpa [highestHeaderNum] using this
      have hnext : (nextNum numStr col colJ inputA1).toNat = 1 := by
        rw [nextNum_eq, hzero]
        split_ifs with hc
        · rcases hJ with hJ | hJ
          · exact absurd hc.1 hJ
          · rw [hJ]
            decide
        · decide
      have hfirst := append_on_blank numStr col colJ inputA1 t l1 rest ht hl hblank
      rw [hnext] at hfirst
      obtain ⟨a2, c2, hcells, hc2⟩ := blockCells_last numStr 1 l1 rest h3t
      have hk : highestHeaderNum numStr (a2 ++ [c2]) = ((1 : Nat) : Int) := by
        rw [← hcells]
        have := highest_blockCells numStr [] 1 l1 rest h2t
        simpa [highestHeaderNum] using this
      have hlen : (blockCells 1 (l1 :: rest)).length = 1 + rest.length := by
        simp [blockCells]
        omega
      have hb : ∀ x ∈ col.drop (1 + rest.length), x = ColCell.text [] :=
        fun x hx => hcol x (List.mem_of_mem_drop hx)
      have hrest := appendAll_from numStr colJ inputA1 ts a2 (col.drop (1 + rest.length)) c2 1
        (fun x hx => h1 x (List.mem_cons_of_mem _ hx))
        (fun x hx => h2 x (List.mem_cons_of_mem _ hx))
        (fun x hx => h3 x (List.mem_cons_of_mem _ hx)) hc2 hb hk
      have e : ColCell.text (decStr 1 ++ ". ".toList ++ l1) :: rest.map ColCell.text
            ++ col.drop (1 + rest.length)
          = a2 ++ c2 :: col.drop (1 + rest.length) := by
        have : ColCell.text (decStr 1 ++ ". ".toList ++ l1) :: rest.map ColCell.text
            = a2 ++ [c2] := hcells
        rw [this]
        simp
      unfold appendAll at hrest ⊢
      rw [List.foldl_cons, hfirst, e, hrest, ← hcells]
      simp only [List.map_cons, hl, numberedColumn, List.append_assoc, List.length_append,
        List.drop_drop, hlen]

/-- C18 (amended) for blocks of sizes 2, 1 and 3 entered through B28. -/
theorem C18_blocks_numbered_witness :
    appendAll intStr [] "B28".toList
        ["a".toList ++ [nl] ++ "b".toList, "c".toList,
          "d".toList ++ [nl] ++ "e".toList ++ [nl] ++ "f".toList] []
      = numberedColumn [["a".toList, "b".toList], ["c".toList],
          ["d".toList, "e".toList, "f".toList]] ++ [] :=
  C18_blocks_numbered intStr [] [] "B28".toList
    ["a".toList ++ [nl] ++ "b".toList, "c".toList,
      "d".toList ++ [nl] ++ "e".toList ++ [nl] ++ "f".toList]
    (by decide) (Or.inl (by decide)) (by decide) (by decide)

/-! ## Decoders -/

theorem quotedAt_some_iff (lit t v : Str) :
    quotedAt lit t = some v ↔ dq ∉ v ∧ ∃ post, t = lit ++ dq :: (v ++ dq :: post) := by
  constructor
  · intro h
    unfold quotedAt at h
    split_ifs at h with h1
    simp only at h
    split_ifs at h with h2
    have hp := List.isPrefixOf_iff_prefix.mp h1
    obtain ⟨rest, hrest⟩ := hp
    have hd : t.drop (lit.length + 1) = rest := by
      rw [← hrest, List.drop_left' (by simp)]
    simp only [hd] at h h2
    have hv : v = rest.takeWhile (fun c => c != dq) := (Option.some.inj h).symm
    have hsplit := List.takeWhile_append_dropWhile (fun c => c != dq) rest
    cases hdw : rest.dropWhile (fun c => c != dq) with
    | nil => simp [hdw] at h2
    | cons c post =>
      have hc : c = dq := by
        have := List.head_dropWhile_not (fun c => c != dq) rest (by simp [hdw])
        simp only [hdw, List.head_cons] at this
        simpa using this
      subst hc
      refine ⟨?_, post, ?_⟩
      · rw [hv]
        intro hm
        have := List.mem_takeWhile_imp hm
        simp at this
      · rw [← hrest, hv]
        rw [hdw] at hsplit
        rw [List.append_assoc, List.singleton_append, hsplit]
  · rintro ⟨hv, post, rfl⟩
    exact quotedAt_hit lit v post hv

theorem findQuoted_some_iff (lit s v : Str) :
    findQuoted lit s = some v
      ↔ ∃ i, quotedAt lit (s.drop i) = some v ∧ ∀ j, j < i → quotedAt lit (s.drop j) = none := by
  induction s with
  | nil =>
    simp only [findQuoted, List.drop_nil]
    constructor
    · intro h
      exact ⟨0, h, fun j hj => absurd hj (Nat.not_lt_zero _)⟩
    · rintro ⟨_, h, _⟩
      exact h
  | cons c rest ih =>
    rw [findQuoted]
    cases hq : quotedAt lit (c :: rest) with
    | some w =>
      simp only
      constructor
      · intro h
        exact ⟨0, by simpa [hq] using h, fun j hj => absurd hj (Nat.not_lt_zero _)⟩
      · rintro ⟨i, h1, h2⟩
        cases i with
        | zero => simpa [hq] using h1
        | succ i =>
          have := h2 0 (Nat.succ_pos _)
          simp [hq] at this
    | none =>
      simp only
      rw [ih]
      constructor
      · rintro ⟨i, h1, h2⟩
        refine ⟨i + 1, by simpa using h1, ?_⟩
        intro j hj
        cases j with
        | zero => simpa using hq
        | succ j => simpa using h2 j (by omega)
      · rintro ⟨i, h1, h2⟩
        cases i with
        | zero => simp [hq] at h1
        | succ i =>
          refine ⟨i, by simpa using h1, ?_⟩
          intro j hj
          simpa using h2 (j + 1) (by omega)

theorem findQuoted_none_iff (lit s : Str) :
    findQuoted lit s = none ↔ ∀ i, quotedAt lit (s.drop i) = none := by
  induction s with
  | nil => simp [findQuoted]
  | cons c rest ih =>
    rw [findQuoted]
    cases hq : quotedAt lit (c :: rest) with
    | some w =>
      simp only
      constructor
      · intro h
        exact absurd h (by simp)
      · intro h
        have := h 0
        simp [hq] at this
    | none =>
      simp only
      rw [ih]
      constructor
      · intro h i
        cases i with
        | zero => simpa using hq
        | succ i => simpa using h i
      · intro h i
        simpa using h (i + 1)

theorem keyAt_iff (key s : Str) (i : Nat) (v : Str) :
    KeyAt key s i v ↔ quotedAt (key ++ ['=']) (s.drop i) = some v := by
  unfold KeyAt
  rw [quotedAt_some_iff]
  simp

theorem findQuoted_first (key s : Str) :
    ((∃ i v, KeyAt key s i v) →
      ∃ i v, KeyAt key s i v ∧ (∀ j, j < i → ∀ w, ¬ KeyAt key s j w)
        ∧ findQuoted (key ++ ['=']) s = some v)
    ∧ ((∀ i v, ¬ KeyAt key s i v) → findQuoted (key ++ ['=']) s = none) := by
  constructor
  · rintro ⟨i0, v0, h0⟩
    cases hf : findQuoted (key ++ ['=']) s with
    | none =>
      have := (findQuoted_none_iff _ _).mp hf i0
      rw [(keyAt_iff key s i0 v0).mp h0] at this
      exact absurd this (by simp)
    | some v =>
      obtain ⟨i, h1, h2⟩ := (findQuoted_some_iff _ _ _).mp hf
      refine ⟨i, v, (keyAt_iff key s i v).mpr h1, ?_, rfl⟩
      intro j hj w hw
      have := h2 j hj
      rw [(keyAt_iff key s j w).mp hw] at this
      exact absurd this (by simp)
  · intro h
    rw [findQuoted_none_iff]
    intro i
    cases hq : quotedAt (key ++ ['=']) (s.drop i) with
    | none => rfl
    | some v => exact absurd ((keyAt_iff key s i v).mpr hq) (h i v)

/-! ## Bare pairs -/

theorem jsTrim_fix_dropWhile (v : Str) (h : jsTrim v = v) : v.dropWhile isJsSpace = v := by
  have h1 : (jsTrimEnd (v.dropWhile isJsSpace)).length ≤ (v.dropWhile isJsSpace).length :=
    (jsTrimEnd_initial _).length_le
  have h2 : (v.dropWhile isJsSpace).length ≤ v.length :=
    (List.dropWhile_suffix isJsSpace).length_le
  unfold jsTrim at h
  rw [h] at h1
  exact (List.dropWhile_suffix isJsSpace).eq_of_length (le_antisymm h2 h1)

theorem jsTrim_fix_end (v : Str) (h : jsTrim v = v) : jsTrimEnd v = v := by
  have hd := jsTrim_fix_dropWhile v h
  unfold jsTrim at h
  rw [hd] at h
  exact h

theorem jsTrim_fix_head (k : Str) (h : jsTrim k = k) (hne : k ≠ []) :
    ∃ c t, k = c :: t ∧ isJsSpace c = false := by
  cases k with
  | nil => exact absurd rfl hne
  | cons c t =>
    refine ⟨c, t, rfl, ?_⟩
    by_contra hc
    have hc' : isJsSpace c = true := by simpa using hc
    have hd := jsTrim_fix_dropWhile (c :: t) h
    rw [List.dropWhile_cons, if_pos hc'] at hd
    have := (List.dropWhile_suffix isJsSpace (l := t)).length_le
    rw [hd] at this
    simp at this

theorem jsTrim_space_cons (x : Str) : jsTrim (' ' :: x) = jsTrim x := by
  unfold jsTrim
  rw [List.dropWhile_cons, if_pos (by decide)]

theorem jsTrim_pair (k v : Str) (hk : jsTrim k = k) (hne : k ≠ []) (hv : jsTrim v = v) :
    jsTrim (k ++ '=' :: v) = k ++ '=' :: v := by
  obtain ⟨c, t, rfl, hc⟩ := jsTrim_fix_head k hk hne
  unfold jsTrim
  rw [List.cons_append, List.dropWhile_cons, if_neg (by simp [hc]), ← List.cons_append,
    jsTrimEnd_append_stop _ _ _ (by decide), jsTrim_fix_end v hv]

theorem takeWhile_ne_sep (sep : Char) (k v : Str) (h : sep ∉ k) :
    (k ++ sep :: v).takeWhile (fun c => c != sep) = k := by
  induction k with
  | nil => simp [List.takeWhile]
  | cons c t ih =>
    have hc : c ≠ sep := fun e => h (e ▸ List.mem_cons_self _ _)
    have hb : (c != sep) = true := by simpa using hc
    rw [List.cons_append, List.takeWhile_cons, hb, if_pos rfl,
      ih (fun e => h (List.mem_cons_of_mem _ e))]

theorem pairStep_pair (result : JsObj Str) (piece k v : Str)
    (hp : jsTrim piece = k ++ '=' :: v) (hk : jsTrim k = k) (hne : k ≠ []) (hv : jsTrim v = v)
    (heq : '=' ∉ k) (hproto : k ≠ protoKey) :
    pairStep result piece = setOwn result k v := by
  have htw := takeWhile_ne_sep '=' k v heq
  have hlen : 0 < k.length := List.length_pos.mpr hne
  unfold pairStep
  simp only [hp, htw]
  rw [if_neg (by simp), if_pos ⟨by simp, hlen⟩]
  have h1 : (k ++ '=' :: v).take k.length = k := by simp
  have h2 : (k ++ '=' :: v).drop (k.length + 1) = v := by
    have : k ++ '=' :: v = (k ++ ['=']) ++ v := by simp
    rw [this, List.drop_left' (by simp)]
  rw [h1, h2, hk, hv]
  unfold assignProp
  rw [if_neg hproto]

theorem pairStep_blank (result : JsObj Str) (piece : Str) (hp : jsTrim piece = []) :
    pairStep result piece = result := by
  unfold pairStep
  simp [hp]

theorem splitCharAux_snoc (sep : Char) (x cur : Str) :
    splitCharAux sep (x ++ [sep]) cur = splitCharAux sep x cur ++ [[]] := by
  induction x generalizing cur with
  | nil => simp [splitCharAux]
  | cons c t ih =>
    rw [List.cons_append, splitCharAux, splitCharAux]
    split_ifs
    · rw [ih]
      simp
    · exact ih _

theorem parse_trailing_semicolon (x : Str) :
    parseKeyValuePairs (JsVal.str (x ++ [';'])) = parseKeyValuePairs (JsVal.str x) := by
  unfold parseKeyValuePairs
  simp only
  rw [if_neg (by simp)]
  unfold splitChar
  rw [splitCharAux_snoc, List.foldl_append]
  simp only [List.foldl_cons, List.foldl_nil]
  rw [pairStep_blank _ [] (by decide)]
  split_ifs with h
  · subst h
    decide
  · rfl

theorem bare_body (pairs : List (Str × Str)) :
    pairs.foldl (fun s p => s ++ p.1 ++ "=".toList ++ p.2 ++ "; ".toList) []
      = (pairs.map (fun p => p.1 ++ '=' :: p.2 ++ [';', ' '])).flatten := by
  have h := foldl_append_map (fun s (p : Str × Str) => s ++ p.1 ++ "=".toList ++ p.2 ++ "; ".toList)
    (fun p => p.1 ++ '=' :: p.2 ++ [';', ' ']) (by intro s p; simp) pairs []
  simpa using h

theorem later_body (ps : List (Str × Str)) :
    ' ' :: (ps.map (fun p => p.1 ++ '=' :: p.2 ++ [';', ' '])).flatten
      = laterPairs ps ++ [' '] := by
  induction ps with
  | nil => rfl
  | cons q rest ih =>
    simp only [List.map_cons, List.flatten_cons, laterPairs]
    have : q.1 ++ '=' :: q.2 ++ [';', ' '] ++ (rest.map (fun p => p.1 ++ '=' :: p.2 ++ [';', ' '])).flatten
        = q.1 ++ '=' :: q.2 ++ ';' :: (' ' :: (rest.map (fun p => p.1 ++ '=' :: p.2 ++ [';', ' '])).flatten) := by
      simp
    rw [this, ih]
    simp

theorem later_ends (ps : List (Str × Str)) : ∃ y, ';' :: laterPairs ps = y ++ [';'] := by
  induction ps with
  | nil => exact ⟨[], rfl⟩
  | cons q rest ih =>
    obtain ⟨y, hy⟩ := ih
    refine ⟨';' :: ' ' :: (q.1 ++ '=' :: q.2) ++ y, ?_⟩
    simp [laterPairs, hy]

theorem jsTrimEnd_snoc_space (x : Str) : jsTrimEnd (x ++ [' ']) = jsTrimEnd x := by
  unfold jsTrimEnd
  rw [List.reverse_append]
  simp only [List.reverse_cons, List.reverse_nil, List.nil_append, List.singleton_append]
  rw [List.dropWhile_cons, if_pos (by decide)]

theorem jsTrim_snoc_space (c d : Char) (t y : Str) (hc : isJsSpace c = false)
    (hd : isJsSpace d = false) (hx : c :: t = y ++ [d]) :
    jsTrim ((c :: t) ++ [' ']) = c :: t := by
  unfold jsTrim
  rw [List.cons_append, List.dropWhile_cons, if_neg (by simp [hc]), ← List.cons_append,
    jsTrimEnd_snoc_space, hx, jsTrimEnd_append_stop _ [] d hd]
  rfl

theorem bareColString_cons (p : Str × Str) (ps : List (Str × Str))
    (hk : jsTrim p.1 = p.1) (hne : p.1 ≠ []) :
    bareColString (p :: ps) = p.1 ++ '=' :: p.2 ++ ';' :: laterPairs ps := by
  unfold bareColString
  rw [bare_body]
  simp only [List.map_cons, List.flatten_cons]
  have e : p.1 ++ '=' :: p.2 ++ [';', ' '] ++ (ps.map (fun p => p.1 ++ '=' :: p.2 ++ [';', ' '])).flatten
      = p.1 ++ '=' :: p.2 ++ ';' :: (' ' :: (ps.map (fun p => p.1 ++ '=' :: p.2 ++ [';', ' '])).flatten) := by
    simp
  rw [e, later_body]
  obtain ⟨c, t, hct, hc⟩ := jsTrim_fix_head p.1 hk hne
  obtain ⟨y, hy⟩ := later_ends ps
  have e2 : p.1 ++ '=' :: p.2 ++ ';' :: (laterPairs ps ++ [' '])
      = (c :: (t ++ '=' :: p.2 ++ ';' :: laterPairs ps)) ++ [' '] := by
    rw [hct]
    simp
  have e3 : c :: (t ++ '=' :: p.2 ++ ';' :: laterPairs ps) = (c :: (t ++ '=' :: p.2 ++ y)) ++ [';'] := by
    simp [hy]
  rw [e2, jsTrim_snoc_space c ';' _ _ hc (by decide) e3, hct]
  simp

theorem split_laterPairs (ps : List (Str × Str))
    (h : ∀ p ∈ ps, ';' ∉ p.1 ∧ ';' ∉ p.2) :
    splitChar ';' (laterPairs ps) = ps.map (fun p => ' ' :: (p.1 ++ '=' :: p.2)) ++ [[]] := by
  induction ps with
  | nil => rfl
  | cons q rest ih =>
    obtain ⟨h1, h2⟩ := h q (List.mem_cons_self _ _)
    have hq : ';' ∉ ' ' :: (q.1 ++ '=' :: q.2) := by
      intro hm
      simp only [List.mem_cons, List.mem_append] at hm
      rcases hm with hm | hm | hm | hm
      · exact absurd hm (by decide)
      · exact h1 hm
      · exact absurd hm (by decide)
      · exact h2 hm
    have ih' := ih (fun p hp => h p (List.mem_cons_of_mem _ hp))
    unfold splitChar at ih' ⊢
    rw [laterPairs, splitCharAux_sep _ _ _ _ hq, ih']
    simp

theorem foldl_pairStep_later (ps : List (Str × Str)) (result : JsObj Str)
    (h : ∀ p ∈ ps, p.1 ≠ [] ∧ jsTrim p.1 = p.1 ∧ '=' ∉ p.1 ∧ p.1 ≠ protoKey ∧ jsTrim p.2 = p.2) :
    (ps.map (fun p => ' ' :: (p.1 ++ '=' :: p.2))).foldl pairStep result
      = ps.foldl (fun r p => setOwn r p.1 p.2) result := by
  induction ps generalizing result with
  | nil => rfl
  | cons q rest ih =>
    obtain ⟨h1, h2, h3, h4, h5⟩ := h q (List.mem_cons_self _ _)
    rw [List.map_cons, List.foldl_cons, List.foldl_cons,
      pairStep_pair result _ q.1 q.2
        (by rw [jsTrim_space_cons, jsTrim_pair q.1 q.2 h2 h1 h5]) h2 h1 h5 h3 h4]
    exact ih _ (fun p hp => h p (List.mem_cons_of_mem _ hp))

theorem getOwn_foldl_setOwn_not_mem (ps : List (Str × Str)) (result : JsObj Str) (k : Str)
    (h : k ∉ ps.map Prod.fst) :
    getOwn (ps.foldl (fun r p => setOwn r p.1 p.2) result) k = getOwn result k := by
  induction ps generalizing result with
  | nil => rfl
  | cons q rest ih =>
    have h1 : q.1 ≠ k := fun e => h (by simp [e])
    have h2 : k ∉ rest.map Prod.fst := fun e => h (by simp [e])
    rw [List.foldl_cons, ih _ h2, getOwn_setOwn_ne _ _ _ _ h1]

theorem getOwn_foldl_setOwn (ps : List (Str × Str)) (result : JsObj Str) (p : Str × Str)
    (hp : p ∈ ps) (hnd : (ps.map Prod.fst).Nodup) :
    getOwn (ps.foldl (fun r p => setOwn r p.1 p.2) result) p.1 = some p.2 := by
  induction ps generalizing result with
  | nil => exact absurd hp (List.not_mem_nil _)
  | cons q rest ih =>
    rw [List.map_cons, List.nodup_cons] at hnd
    rw [List.foldl_cons]
    rcases List.mem_cons.mp hp with rfl | hp
    · rw [getOwn_foldl_setOwn_not_mem _ _ _ hnd.1, getOwn_setOwn_same]
    · exact ih _ hp hnd.2

theorem parse_bare (pairs : List (Str × Str))
    (hkeys : ∀ p ∈ pairs, p.1 ≠ [] ∧ jsTrim p.1 = p.1 ∧ '=' ∉ p.1 ∧ ';' ∉ p.1 ∧ p.1 ≠ protoKey)
    (hvals : ∀ p ∈ pairs, ';' ∉ p.2 ∧ jsTrim p.2 = p.2) :
    parseKeyValuePairs (JsVal.str (bareColString pairs))
      = pairs.foldl (fun r p => setOwn r p.1 p.2) [] := by
  cases pairs with
  | nil => decide
  | cons p ps =>
    obtain ⟨k1, k2, k3, k4, k5⟩ := hkeys p (List.mem_cons_self _ _)
    obtain ⟨v1, v2⟩ := hvals p (List.mem_cons_self _ _)
    rw [bareColString_cons p ps k2 k1]
    unfold parseKeyValuePairs
    simp only
    have hne : p.1 ++ '=' :: p.2 ++ ';' :: laterPairs ps ≠ [] := by
      cases hp : p.1 with
      | nil => exact absurd hp k1
      | cons c t => simp
    rw [if_neg hne]
    have hsep : ';' ∉ p.1 ++ '=' :: p.2 := by
      intro hm
      simp only [List.mem_cons, List.mem_append] at hm
      rcases hm with hm | hm | hm
      · exact k4 hm
      · exact absurd hm (by decide)
      · exact v1 hm
    have e : p.1 ++ '=' :: p.2 ++ ';' :: laterPairs ps
        = (p.1 ++ '=' :: p.2) ++ ';' :: laterPairs ps := by simp
    have hs := split_laterPairs ps (fun q hq =>
      ⟨(hkeys q (List.mem_cons_of_mem _ hq)).2.2.2.1, (hvals q (List.mem_cons_of_mem _ hq)).1⟩)
    unfold splitChar at hs ⊢
    rw [e, splitCharAux_sep _ _ _ _ hsep, hs, List.nil_append, List.foldl_cons,
      pairStep_pair [] _ p.1 p.2 (jsTrim_pair p.1 p.2 k2 k1 v2) k2 k1 v2 k3 k5,
      List.foldl_append, foldl_pairStep_later ps _ (fun q hq =>
        ⟨(hkeys q (List.mem_cons_of_mem _ hq)).1, (hkeys q (List.mem_cons_of_mem _ hq)).2.1,
          (hkeys q (List.mem_cons_of_mem _ hq)).2.2.1,
          (hkeys q (List.mem_cons_of_mem _ hq)).2.2.2.2,
          (hvals q (List.mem_cons_of_mem _ hq)).2⟩)]
    simp only [List.foldl_cons, List.foldl_nil]
    rw [pairStep_blank _ [] (by decide)]

/-- C16 (as stated) fails: a value with a semicolon is cut at it (`duty` with the
value `a;b` decodes to `a`), a value with a leading blank comes back without it,
and a key with an equals sign is not found again. -/
theorem C16_counterexample :
    getOwn (parseKeyValuePairs (JsVal.str (bareColString [("duty".toList, "a;b".toList)])))
        "duty".toList = some "a".toList
    ∧ getOwn (parseKeyValuePairs (JsVal.str (bareColString [("duty".toList, " x".toList)])))
        "duty".toList = some "x".toList
    ∧ getOwn (parseKeyValuePairs (JsVal.str (bareColString [("a=b".toList, "1".toList)])))
        "a=b".toList = none := by
  decide

/-- C16 (amended): for pairs whose keys are distinct, non-empty, trimmed, free of
`=` and `;` and other than `__proto__` (as the keys of columns B, C and G are),
and whose values contain no semicolon and have no blank at either end, decoding
the bare encoding with `parseKeyValuePairs` returns for every key its original
value exactly; the encoding of at least one pair ends with `;`, and for every
text the decoded object is the same with and without a final `;`. -/
theorem C16_bare_roundtrip (pairs : List (Str × Str))
    (hkeys : ∀ p ∈ pairs, p.1 ≠ [] ∧ jsTrim p.1 = p.1 ∧ '=' ∉ p.1 ∧ ';' ∉ p.1 ∧ p.1 ≠ protoKey)
    (hnd : (pairs.map Prod.fst).Nodup)
    (hvals : ∀ p ∈ pairs, ';' ∉ p.2 ∧ jsTrim p.2 = p.2) :
    (∀ p ∈ pairs,
      getOwn (parseKeyValuePairs (JsVal.str (bareColString pairs))) p.1 = some p.2)
    ∧ (pairs ≠ [] → ∃ x, bareColString pairs = x ++ [';'])
    ∧ (∀ x, parseKeyValuePairs (JsVal.str (x ++ [';'])) = parseKeyValuePairs (JsVal.str x)) := by
  refine ⟨?_, ?_, parse_trailing_semicolon⟩
  · intro p hp
    rw [parse_bare pairs hkeys hvals]
    exact getOwn_foldl_setOwn pairs [] p hp hnd
  · intro hne
    cases pairs with
    | nil => exact absurd rfl hne
    | cons p ps =>
      obtain ⟨k1, k2, _⟩ := hkeys p (List.mem_cons_self _ _)
      obtain ⟨y, hy⟩ := later_ends ps
      refine ⟨p.1 ++ '=' :: p.2 ++ y, ?_⟩
      rw [bareColString_cons p ps k2 k1]
      simp [hy]

/-- C16 (amended) for the sixteen keys of columns B and C with sample values,
among them an empty one and one with an inner blank: the key `nssale` decodes
to its value `16.4k 200`. -/
theorem C16_bare_roundtrip_witness :
    getOwn (parseKeyValuePairs (JsVal.str (bareColString
        (keysBC.zip ["Ana".toList, "120".toList, [], "16.4k 200".toList, "5".toList,
          "500+500".toList, "3".toList, "1".toList, "2".toList, "4".toList, "7".toList,
          "8".toList, "9".toList, "x=y".toList, "0".toList, "6".toList]))))
      "nssale".toList = some "16.4k 200".toList :=
  (C16_bare_roundtrip
    (keysBC.zip ["Ana".toList, "120".toList, [], "16.4k 200".toList, "5".toList,
      "500+500".toList, "3".toList, "1".toList, "2".toList, "4".toList, "7".toList,
      "8".toList, "9".toList, "x=y".toList, "0".toList, "6".toList])
    (by decide) (by decide) (by decide)).1 ("nssale".toList, "16.4k 200".toList) (by decide)

/-! ## Display operations -/

/-- C13: when cell A2 or cell B2 of the display sheet does not hold a date, each
of `updateMoonlitAccounts`, `updateBillsDisplay` and `updateSalaryDisplay` shows
the notice and ends normally with the display sheet exactly as it was: no cell is
written or cleared (the data sheet is only ever read by these operations). -/
theorem C13_invalid_dates_abort (numStr : ℚ → Str) (parseFloat : Str → Option ℚ)
    (fmtLong fmtShort : Int → Str) (display : Sheet) (accountRows : List AccountsRow)
    (billRows : List BillsRow) (dataValues : List DataRow) (empValues : List EmpRow)
    (h : ¬ ∃ s e, display 2 1 = SCell.date s ∧ display 2 2 = SCell.date e) :
    updateMoonlitAccounts numStr parseFloat fmtLong fmtShort display accountRows
        = ⟨display, some dateNotice, false⟩
    ∧ updateBillsDisplay fmtLong display billRows = ⟨display, some dateNotice, false⟩
    ∧ updateSalaryDisplay numStr fmtLong display dataValues empValues
        = ⟨display, some dateNotice, false⟩ := by
  refine ⟨?_, ?_, ?_⟩
  · unfold updateMoonlitAccounts
    split
    · rename_i s e h1 h2
      exact absurd ⟨s, e, h1, h2⟩ h
    · rfl
  · unfold updateBillsDisplay
    split
    · rename_i s e h1 h2
      exact absurd ⟨s, e, h1, h2⟩ h
    · rfl
  · unfold updateSalaryDisplay
    split
    · rename_i s e h1 h2
      exact absurd ⟨s, e, h1, h2⟩ h
    · rfl

/-- C13 on a display sheet whose cell A2 holds a text and B2 a date. -/
theorem C13_invalid_dates_abort_witness :
    (updateBillsDisplay stampStr
        (fun r c => if r = 2 ∧ c = 1 then SCell.text "soon".toList
          else if r = 2 ∧ c = 2 then SCell.date 5 else SCell.text "old".toList)
        [⟨some 3, JsVal.str ("bills=".toList ++ [dq, 'x', dq])⟩]).alert = some dateNotice :=
  congrArg Run.alert (C13_invalid_dates_abort intStr decimalParse stampStr stampStr
    (fun r c => if r = 2 ∧ c = 1 then SCell.text "soon".toList
      else if r = 2 ∧ c = 2 then SCell.date 5 else SCell.text "old".toList)
    [] [⟨some 3, JsVal.str ("bills=".toList ++ [dq, 'x', dq])⟩] [] []
    (by
      rintro ⟨s, e, h1, _⟩
      simp at h1)).2.1

theorem foldl_push_filterMap {α : Type} (f : α → Option Str) (g : List Str → α → List Str)
    (hg : ∀ out a, g out a = out ++ (f a).toList) (rows : List α) (acc : List Str) :
    rows.foldl g acc = acc ++ rows.filterMap f := by
  induction rows generalizing acc with
  | nil => simp
  | cons a t ih =>
    rw [List.foldl_cons, ih, hg]
    cases h : f a <;> simp [List.filterMap_cons, h]

theorem billsBlockRow_eq (fmtLong : Int → Str) (startDate endDate : Int) (output : List Str)
    (row : BillsRow) :
    billsBlockRow fmtLong startDate endDate output row
      = output ++ (billsBlockOf fmtLong startDate endDate row).toList := by
  unfold billsBlockRow billsBlockOf
  cases row.dateVal with
  | none => simp
  | some d =>
    simp only
    by_cases hr : d < startDate ∨ d > endDate
    · have hn : ¬ (startDate ≤ d ∧ d ≤ endDate ∧ billsText row ≠ []) := by
        rintro ⟨h1, h2, _⟩
        rcases hr with h | h
        · exact absurd h (not_lt.mpr h1)
        · exact absurd h (not_lt.mpr h2)
      rw [if_pos hr, if_neg hn]
      simp
    · have h1 : startDate ≤ d := not_lt.mp (fun h => hr (Or.inl h))
      have h2 : d ≤ endDate := not_lt.mp (fun h => hr (Or.inr h))
      rw [if_neg hr]
      by_cases hb : billsText row ≠ []
      · rw [if_pos hb, if_pos ⟨h1, h2, hb⟩]
        simp
      · rw [if_neg hb, if_neg (fun h => hb h.2.2)]
        simp

theorem billsBlocks_eq (fmtLong : Int → Str) (startDate endDate : Int)
    (dataValues : List BillsRow) :
    billsBlocks fmtLong startDate endDate dataValues
      = dataValues.filterMap (billsBlockOf fmtLong startDate endDate) := by
  unfold billsBlocks
  rw [foldl_push_filterMap (billsBlockOf fmtLong startDate endDate) _
    (billsBlockRow_eq fmtLong startDate endDate)]
  simp

theorem setValues_get (sh : Sheet) (r c : Nat) (output : List Str) (i : Nat) (v : Str)
    (h : output[i]? = some v) : setValues sh r c output (r + i) c = SCell.text v := by
  have hlt : i < output.length := by
    by_contra hn
    rw [List.getElem?_eq_none (by omega)] at h
    exact absurd h (by simp)
  unfold setValues
  rw [if_pos ⟨rfl, by omega, by omega⟩]
  have : r + i - r = i := by omega
  rw [this, h]

theorem setValues_other (sh : Sheet) (r c : Nat) (output : List Str) (r1 c1 : Nat)
    (h : c1 ≠ c ∨ r1 < r ∨ r + output.length ≤ r1) :
    setValues sh r c output r1 c1 = sh r1 c1 := by
  unfold setValues
  rw [if_neg]
  rintro ⟨h1, h2, h3⟩
  rcases h with h | h | h
  · exact h h1
  · omega
  · omega

/-- C15: given dates in A2 and B2, `updateBillsDisplay` ends normally and emits
one block for exactly those rows whose date lies in the range and whose bills
value is not empty after unescaping and trimming, in row order; block number `i`
is written to row `4 + i` of column C and is `Date <date>:`, a line feed, the
bills text and two line feeds; the rows of column C below the blocks, down to
row 100, are blank, so a day without bills leaves no marker. -/
theorem C15_bills_blocks (fmtLong : Int → Str) (display : Sheet) (dataValues : List BillsRow)
    (startDate endDate : Int) (h1 : display 2 1 = SCell.date startDate)
    (h2 : display 2 2 = SCell.date endDate) :
    billsBlocks fmtLong startDate endDate dataValues
        = dataValues.filterMap (billsBlockOf fmtLong startDate endDate)
    ∧ (updateBillsDisplay fmtLong display dataValues).threw = false
    ∧ (updateBillsDisplay fmtLong display dataValues).alert = none
    ∧ (∀ i v, (dataValues.filterMap (billsBlockOf fmtLong startDate endDate))[i]? = some v →
        (updateBillsDisplay fmtLong display dataValues).display (4 + i) 3 = SCell.text v)
    ∧ (∀ r, 4 + (dataValues.filterMap (billsBlockOf fmtLong startDate endDate)).length ≤ r →
        r ≤ 100 → (updateBillsDisplay fmtLong display dataValues).display r 3 = SCell.blank) := by
  have hb := billsBlocks_eq fmtLong startDate endDate dataValues
  refine ⟨hb, ?_, ?_, ?_, ?_⟩
  · unfold updateBillsDisplay
    rw [h1, h2]
    simp only
    split_ifs <;> rfl
  · unfold updateBillsDisplay
    rw [h1, h2]
    simp only
    split_ifs <;> rfl
  · intro i v hv
    have hne : dataValues ≠ [] := by
      rintro rfl
      simp at hv
    have hlen : ¬ dataValues.length < 1 := by
      have := List.length_pos.mpr hne
      omega
    have hpos : (dataValues.filterMap (billsBlockOf fmtLong startDate endDate)).length > 0 := by
      by_contra hn
      rw [List.getElem?_eq_none (by omega)] at hv
      exact absurd hv (by simp)
    unfold updateBillsDisplay
    rw [h1, h2]
    simp only [hlen, if_false, hb, hpos, if_true]
    exact setValues_get _ 4 3 _ i v hv
  · intro r hr1 hr2
    unfold updateBillsDisplay
    rw [h1, h2]
    simp only [hb]
    have hclear : ∀ sh : Sheet, clearContent sh 4 100 3 r 3 = SCell.blank := by
      intro sh
      unfold clearContent
      rw [if_pos ⟨rfl, by omega, hr2⟩]
    split_ifs
    · exact hclear _
    · show setValues _ 4 3 _ r 3 = SCell.blank
      rw [setValues_other _ _ _ _ _ _ (Or.inr (Or.inr hr1))]
      exact hclear _
    · exact hclear _

/-- C15 for the range 1 to 3 and rows dated 2 (bills `x` and, on a second line,
`y`), 2 (no bills) and 9 (bills `z`): the only block goes to C4. -/
theorem C15_bills_blocks_witness :
    (updateBillsDisplay stampStr
        (fun r c => if r = 2 ∧ c = 1 then SCell.date 1
          else if r = 2 ∧ c = 2 then SCell.date 3 else SCell.blank)
        [⟨none, JsVal.str "Date".toList⟩,
         ⟨some 2, JsVal.str ("bills=".toList ++ [dq, 'x', bsl, 'n', 'y', dq])⟩,
         ⟨some 2, JsVal.str ("bills=".toList ++ [dq, dq])⟩,
         ⟨some 9, JsVal.str ("bills=".toList ++ [dq, 'z', dq])⟩]).display (4 + 0) 3
      = SCell.text ("Date 2:".toList ++ [nl, 'x', nl, 'y', nl, nl]) :=
  (C15_bills_blocks stampStr
    (fun r c => if r = 2 ∧ c = 1 then SCell.date 1
      else if r = 2 ∧ c = 2 then SCell.date 3 else SCell.blank)
    [⟨none, JsVal.str "Date".toList⟩,
     ⟨some 2, JsVal.str ("bills=".toList ++ [dq, 'x', bsl, 'n', 'y', dq])⟩,
     ⟨some 2, JsVal.str ("bills=".toList ++ [dq, dq])⟩,
     ⟨some 9, JsVal.str ("bills=".toList ++ [dq, 'z', dq])⟩] 1 3 rfl rfl).2.2.2.1 0
    ("Date 2:".toList ++ [nl, 'x', nl, 'y', nl, nl]) (by decide)

theorem listing_fold (lines : List Str) (out : Str) :
    (if lines.length > 0 then
        lines.foldl (fun o line => o ++ "    ".toList ++ line ++ [nl]) out
      else out ++ "    None".toList ++ [nl])
      = out ++ listing lines := by
  unfold listing
  cases lines with
  | nil => simp
  | cons l t =>
    have h := foldl_append_map (fun o (line : Str) => o ++ "    ".toList ++ line ++ [nl])
      (fun line => "    ".toList ++ line ++ [nl]) (by intro s p; simp) (l :: t) out
    rw [if_pos (by simp), if_neg (by simp), h]

theorem dayOutput_eq (dateStr : Str) (am pm : List Str) :
    dayOutput dateStr am pm
      = "Date: ".toList ++ dateStr ++ ":".toList ++ [nl] ++ "  Account AM:".toList ++ [nl]
        ++ listing am ++ "  Account PM:".toList ++ [nl] ++ listing pm ++ [nl, nl, '.'] := by
  unfold dayOutput
  simp only [listing_fold]

theorem accountsBlockRow_eq (fmtShort : Int → Str) (startDate endDate : Int)
    (output : List Str) (row : AccountsRow) :
    accountsBlockRow fmtShort startDate endDate output row
      = output ++ (accountsBlockOf fmtShort startDate endDate row).toList := by
  unfold accountsBlockRow accountsBlockOf
  cases row.dateVal with
  | none => simp
  | some d =>
    simp only
    by_cases hr : d < startDate ∨ d > endDate
    · have hn : ¬ (startDate ≤ d ∧ d ≤ endDate) := by
        rintro ⟨h1, h2⟩
        rcases hr with h | h
        · exact absurd h (not_lt.mpr h1)
        · exact absurd h (not_lt.mpr h2)
      rw [if_pos hr, if_neg hn]
      simp
    · have h1 : startDate ≤ d := not_lt.mp (fun h => hr (Or.inl h))
      have h2 : d ≤ endDate := not_lt.mp (fun h => hr (Or.inr h))
      rw [if_neg hr, if_pos ⟨h1, h2⟩, dayOutput_eq]
      simp

theorem accountsBlocks_eq (fmtShort : Int → Str) (startDate endDate : Int)
    (dataValues : List AccountsRow) :
    accountsBlocks fmtShort startDate endDate dataValues
      = dataValues.filterMap (accountsBlockOf fmtShort startDate endDate) := by
  unfold accountsBlocks
  rw [foldl_push_filterMap (accountsBlockOf fmtShort startDate endDate) _
    (accountsBlockRow_eq fmtShort startDate endDate)]
  simp

/-- C14 (as stated) fails: a single in-range row whose `accountsam` value is the
line `toString=10` is due one block, but the run ends by an exception inside the
loop (the inherited `toString` has no `push`), after column D was cleared and
before any block is written: D4 is blank. -/
theorem C14_counterexample :
    (accountsBlocks stampStr 1 3
        [⟨some 2, some (colHString [] [] "toString=10".toList [] [])⟩]).length = 1
    ∧ (updateMoonlitAccounts intStr decimalParse stampStr stampStr
        (fun r c => if r = 2 ∧ c = 1 then SCell.date 1
          else if r = 2 ∧ c = 2 then SCell.date 3 else SCell.text "old".toList)
        [⟨some 2, some (colHString [] [] "toString=10".toList [] [])⟩]).threw = true
    ∧ (updateMoonlitAccounts intStr decimalParse stampStr stampStr
        (fun r c => if r = 2 ∧ c = 1 then SCell.date 1
          else if r = 2 ∧ c = 2 then SCell.date 3 else SCell.text "old".toList)
        [⟨some 2, some (colHString [] [] "toString=10".toList [] [])⟩]).display 4 4
        = SCell.blank := by
  decide

/-- C14 (amended): given dates in A2 and B2 and account lines none of which adds
an amount under a member name of `Object.prototype`, `updateMoonlitAccounts` ends
normally and emits exactly one block for each row whose date `d` satisfies
`startDate ≤ d ≤ endDate`, in row order, and none for the other rows; block
number `i` is written to row `4 + i` of column D; each block lists the non-blank
decoded `accountsam` lines under `Account AM:` and the non-blank `accountspm`
lines under `Account PM:`, each line verbatim after four blanks, and the marker
`None` for an empty list. -/
theorem C14_account_blocks (numStr : ℚ → Str) (parseFloat : Str → Option ℚ)
    (fmtLong fmtShort : Int → Str) (display : Sheet) (dataValues : List AccountsRow)
    (startDate endDate : Int) (h1 : display 2 1 = SCell.date startDate)
    (h2 : display 2 2 = SCell.date endDate)
    (hproto : ∀ e ∈ accountEntries parseFloat startDate endDate dataValues,
      e.1 ∉ objectProtoNames) :
    accountsBlocks fmtShort startDate endDate dataValues
        = dataValues.filterMap (accountsBlockOf fmtShort startDate endDate)
    ∧ (updateMoonlitAccounts numStr parseFloat fmtLong fmtShort display dataValues).threw
        = false
    ∧ (updateMoonlitAccounts numStr parseFloat fmtLong fmtShort display dataValues).alert
        = none
    ∧ (∀ i v, (dataValues.filterMap (accountsBlockOf fmtShort startDate endDate))[i]? = some v →
        (updateMoonlitAccounts numStr parseFloat fmtLong fmtShort display dataValues).display
          (4 + i) 4 = SCell.text v)
    ∧ listing [] = "    None".toList ++ [nl]
    ∧ (∀ l t, listing (l :: t)
        = ((l :: t).map (fun line => "    ".toList ++ line ++ [nl])).flatten) := by
  have hb := accountsBlocks_eq fmtShort startDate endDate dataValues
  have ht : accountsTotals parseFloat startDate endDate dataValues
      = some ((accountEntries parseFloat startDate endDate dataValues).foldl pushEntry []) :=
    accountsTotalsFrom_ok parseFloat startDate endDate dataValues [] hproto
  refine ⟨hb, ?_, ?_, ?_, rfl, ?_⟩
  · unfold updateMoonlitAccounts
    rw [h1, h2]
    simp only [ht]
    split_ifs <;> rfl
  · unfold updateMoonlitAccounts
    rw [h1, h2]
    simp only [ht]
    split_ifs <;> rfl
  · intro i v hv
    have hlt : i < (dataValues.filterMap (accountsBlockOf fmtShort startDate endDate)).length := by
      by_contra hn
      rw [List.getElem?_eq_none (by omega)] at hv
      exact absurd hv (by simp)
    have hne : dataValues ≠ [] := by
      rintro rfl
      simp at hv
    have hlen : ¬ dataValues.length < 1 := by
      have := List.length_pos.mpr hne
      omega
    have hpos : (dataValues.filterMap (accountsBlockOf fmtShort startDate endDate)).length > 0 := by
      omega
    unfold updateMoonlitAccounts
    rw [h1, h2]
    simp only [hlen, if_false, ht, hb, hpos, if_true]
    show setValue _ _ 4 _ (4 + i) 4 = SCell.text v
    unfold setValue
    rw [if_neg (by omega)]
    exact setValues_get _ 4 4 _ i v hv
  · intro l t
    unfold listing
    rw [if_neg (by simp)]

/-- C14 (amended) on the three records of `accountsExample` with the range 1 to
3: the block of the first day goes to D4. -/
theorem C14_account_blocks_witness :
    (updateMoonlitAccounts intStr decimalParse stampStr stampStr
        (fun r c => if r = 2 ∧ c = 1 then SCell.date 1
          else if r = 2 ∧ c = 2 then SCell.date 3 else SCell.blank)
        accountsExample).display (4 + 0) 4
      = SCell.text ("Date: 1:".toList ++ [nl] ++ "  Account AM:".toList ++ [nl]
          ++ "    Jeanny=10".toList ++ [nl] ++ "    Nina=80".toList ++ [nl]
          ++ "  Account PM:".toList ++ [nl] ++ "    None".toList ++ [nl] ++ [nl, nl, '.']) :=
  (C14_account_blocks intStr decimalParse stampStr stampStr
    (fun r c => if r = 2 ∧ c = 1 then SCell.date 1
      else if r = 2 ∧ c = 2 then SCell.date 3 else SCell.blank)
    accountsExample 1 3 rfl rfl (by
      rw [accountsExample_entries]
      decide)).2.2.2.1 0
    ("Date: 1:".toList ++ [nl] ++ "  Account AM:".toList ++ [nl]
      ++ "    Jeanny=10".toList ++ [nl] ++ "    Nina=80".toList ++ [nl]
      ++ "  Account PM:".toList ++ [nl] ++ "    None".toList ++ [nl] ++ [nl, nl, '.'])
    (by decide)

/-! ## The message parser -/

theorem mem_parse (raw : Str) (isPM : Bool) (op : SmsOp) :
    op ∈ parseAndFillSmsReport_ raw isPM ↔
      op ∈ cashierOps (smsText raw) isPM ∨ op ∈ totalOps (smsText raw) isPM
      ∨ (∃ p ∈ picks, op ∈ pickOps (smsText raw) isPM p)
      ∨ op ∈ mineralOps (smsText raw) isPM
      ∨ op = SmsOp.clear (if isPM then "O2:O200".toList else "N2:N200".toList)
      ∨ op ∈ pulloutOps (smsText raw) isPM := by
  unfold parseAndFillSmsReport_
  simp only [List.mem_append, List.mem_flatMap, List.mem_singleton, or_assoc]

theorem cashierOps_mem (t : Str) (isPM : Bool) (op : SmsOp) (h : op ∈ cashierOps t isPM) :
    ∃ g, (jsMatch cashierDashRe t).orElse (fun _ => jsMatch cashierRe t) = some g
      ∧ (op = SmsOp.setString (if isPM then "C8".toList else "B8".toList) (jsTrim g) true
        ∨ op = SmsOp.setString (if isPM then "F14".toList else "F8".toList) (jsTrim g) true) := by
  unfold cashierOps at h
  split at h
  · rename_i g hg
    refine ⟨g, hg, ?_⟩
    simpa using h
  · exact absurd h (List.not_mem_nil _)

theorem totalOps_mem (t : Str) (isPM : Bool) (op : SmsOp) (h : op ∈ totalOps t isPM) :
    ∃ g, jsMatch totalRe t = some g
      ∧ op = SmsOp.setNumber (if isPM then "F20".toList else "F13".toList)
          (parseDigits (g.filter (fun c => c != ','))) := by
  unfold totalOps at h
  split at h
  · rename_i g hg
    exact ⟨g, hg, by simpa using h⟩
  · exact absurd h (List.not_mem_nil _)

theorem pickOps_mem (t : Str) (isPM : Bool) (p : Pick) (op : SmsOp)
    (h : op ∈ pickOps t isPM p) :
    ∃ g, jsMatch p.re t = some g ∧ op = SmsOp.setString (pickCell p isPM) (jsTrim g) p.text := by
  unfold pickOps at h
  split at h
  · rename_i g hg
    exact ⟨g, hg, by simpa using h⟩
  · exact absurd h (List.not_mem_nil _)

theorem mineralOps_mem (t : Str) (isPM : Bool) (op : SmsOp) (h : op ∈ mineralOps t isPM) :
    isPM = true ∧ ∃ g, jsMatch mineralRe t = some g
      ∧ op = SmsOp.setNumber "F5".toList (parseDigits g) := by
  unfold mineralOps at h
  split_ifs at h with hp
  · split at h
    · rename_i g hg
      exact ⟨hp, g, hg, by simpa using h⟩
    · exact absurd h (List.not_mem_nil _)
  · exact absurd h (List.not_mem_nil _)

theorem pulloutOps_mem (t : Str) (isPM : Bool) (op : SmsOp) (h : op ∈ pulloutOps t isPM) :
    ∃ g lines, jsMatch pulloutsRe t = some g
      ∧ op = SmsOp.setLines (if isPM then "O2".toList else "N2".toList) lines := by
  unfold pulloutOps at h
  split at h
  · rename_i g hg
    by_cases h1 : g ≠ []
    · rw [if_pos h1] at h
      simp only at h
      by_cases h2 : (((splitChar nl g).map jsTrim).filter (fun s => decide (s ≠ []))).length > 0
      · rw [if_pos h2] at h
        exact ⟨g, _, hg, List.mem_singleton.mp h⟩
      · rw [if_neg h2] at h
        exact absurd h (List.not_mem_nil _)
    · rw [if_neg h1] at h
      exact absurd h (List.not_mem_nil _)
  · exact absurd h (List.not_mem_nil _)

theorem pickCell_nodup (isPM : Bool) : (picks.map (fun p => pickCell p isPM)).Nodup := by
  cases isPM <;> decide

theorem pickCell_not_cashier (isPM : Bool) :
    ∀ a ∈ picks.map (fun p => pickCell p isPM),
      a ∉ ["B8".toList, "C8".toList, "F8".toList, "F14".toList] := by
  cases isPM <;> decide

/-- C24 (as stated) fails for the AM shift: in the text `Mineral = 5 x` the
mineral pattern matches, yet nothing but the clearing of the pullouts column is
done, because the mineral count is only read for the PM shift. -/
theorem C24_counterexample :
    jsMatch mineralRe (smsText "Mineral = 5 x".toList) = some "5".toList
    ∧ parseAndFillSmsReport_ "Mineral = 5 x".toList false = [SmsOp.clear "N2:N200".toList]
    ∧ parseAndFillSmsReport_ "Mineral = 5 x".toList true
        = [SmsOp.setNumber "F5".toList (some 5), SmsOp.clear "O2:O200".toList] := by
  decide

/-- C24 (amended): `parseAndFillSmsReport_` is defined for every text and either
shift. When no pattern matches, the only effect is the clearing of the pullouts
column. Each field depends on its own pattern alone: a scalar field whose
pattern matches is written with the trimmed capture and one whose pattern does
not match is not written; likewise the cashier cells, the total cell and the
pullouts column; the mineral cell is written when its pattern matches and the
shift is PM, and is not written for the AM shift. -/
theorem C24_fields_independent (raw : Str) (isPM : Bool) :
    ((jsMatch cashierDashRe (smsText raw) = none ∧ jsMatch cashierRe (smsText raw) = none
        ∧ jsMatch totalRe (smsText raw) = none
        ∧ (∀ p ∈ picks, jsMatch p.re (smsText raw) = none)
        ∧ jsMatch mineralRe (smsText raw) = none ∧ jsMatch pulloutsRe (smsText raw) = none) →
      parseAndFillSmsReport_ raw isPM
        = [SmsOp.clear (if isPM then "O2:O200".toList else "N2:N200".toList)])
    ∧ (∀ p ∈ picks, ∀ g, jsMatch p.re (smsText raw) = some g →
        SmsOp.setString (pickCell p isPM) (jsTrim g) p.text ∈ parseAndFillSmsReport_ raw isPM)
    ∧ (∀ p ∈ picks, jsMatch p.re (smsText raw) = none →
        ∀ v f, SmsOp.setString (pickCell p isPM) v f ∉ parseAndFillSmsReport_ raw isPM)
    ∧ (∀ g, (jsMatch cashierDashRe (smsText raw)).orElse
          (fun _ => jsMatch cashierRe (smsText raw)) = some g →
        SmsOp.setString (if isPM then "C8".toList else "B8".toList) (jsTrim g) true
          ∈ parseAndFillSmsReport_ raw isPM
        ∧ SmsOp.setString (if isPM then "F14".toList else "F8".toList) (jsTrim g) true
          ∈ parseAndFillSmsReport_ raw isPM)
    ∧ ((jsMatch cashierDashRe (smsText raw)).orElse
          (fun _ => jsMatch cashierRe (smsText raw)) = none →
        ∀ v f, SmsOp.setString (if isPM then "C8".toList else "B8".toList) v f
            ∉ parseAndFillSmsReport_ raw isPM
          ∧ SmsOp.setString (if isPM then "F14".toList else "F8".toList) v f
            ∉ parseAndFillSmsReport_ raw isPM)
    ∧ (∀ g, jsMatch totalRe (smsText raw) = some g →
        SmsOp.setNumber (if isPM then "F20".toList else "F13".toList)
          (parseDigits (g.filter (fun c => c != ','))) ∈ parseAndFillSmsReport_ raw isPM)
    ∧ (jsMatch totalRe (smsText raw) = none →
        ∀ v, SmsOp.setNumber (if isPM then "F20".toList else "F13".toList) v
          ∉ parseAndFillSmsReport_ raw isPM)
    ∧ (∀ g, isPM = true → jsMatch mineralRe (smsText raw) = some g →
        SmsOp.setNumber "F5".toList (parseDigits g) ∈ parseAndFillSmsReport_ raw isPM)
    ∧ ((isPM = false ∨ jsMatch mineralRe (smsText raw) = none) →
        ∀ v, SmsOp.setNumber "F5".toList v ∉ parseAndFillSmsReport_ raw isPM)
    ∧ (jsMatch pulloutsRe (smsText raw) = none →
        ∀ a l, SmsOp.setLines a l ∉ parseAndFillSmsReport_ raw isPM) := by
  refine ⟨?_, ?_, ?_, ?_, ?_, ?_, ?_, ?_, ?_, ?_⟩
  · rintro ⟨h1, h2, h3, h4, h5, h6⟩
    have hp : picks.flatMap (pickOps (smsText raw) isPM) = [] := by
      rw [List.flatMap_eq_nil_iff]
      intro p hp
      simp only [pickOps, h4 p hp]
    unfold parseAndFillSmsReport_
    simp only [hp, cashierOps, totalOps, mineralOps, pulloutOps, h1, h2, h3, h5, h6,
      Option.orElse]
    cases isPM <;> rfl
  · intro p hp g hg
    rw [mem_parse]
    refine Or.inr (Or.inr (Or.inl ⟨p, hp, ?_⟩))
    simp only [pickOps, hg, List.mem_singleton]
  · intro p hp hnone v f hmem
    rw [mem_parse] at hmem
    rcases hmem with h | h | ⟨q, hq, h⟩ | h | h | h
    · obtain ⟨g, _, h | h⟩ := cashierOps_mem _ _ _ h
      · have := pickCell_not_cashier isPM (pickCell p isPM) (List.mem_map.mpr ⟨p, hp, rfl⟩)
        injection h with h1 _ _
        rw [h1] at this
        cases isPM <;> simp at this
      · have := pickCell_not_cashier isPM (pickCell p isPM) (List.mem_map.mpr ⟨p, hp, rfl⟩)
        injection h with h1 _ _
        rw [h1] at this
        cases isPM <;> simp at this
    · obtain ⟨g, _, h⟩ := totalOps_mem _ _ _ h
      exact SmsOp.noConfusion h
    · obtain ⟨g, hg, h⟩ := pickOps_mem _ _ _ _ h
      injection h with h1 _ _
      have hpq : p = q :=
        List.inj_on_of_nodup_map (pickCell_nodup isPM) hp hq h1
      rw [← hpq, hnone] at hg
      exact absurd hg (by simp)
    · obtain ⟨_, g, _, h⟩ := mineralOps_mem _ _ _ h
      exact SmsOp.noConfusion h
    · exact SmsOp.noConfusion h
    · obtain ⟨g, l, _, h⟩ := pulloutOps_mem _ _ _ h
      exact SmsOp.noConfusion h
  · intro g hg
    constructor
    · rw [mem_parse]
      refine Or.inl ?_
      simp only [cashierOps, hg, List.mem_cons, List.mem_singleton, true_or]
    · rw [mem_parse]
      refine Or.inl ?_
      simp only [cashierOps, hg, List.mem_cons, true_or, or_true]
  · intro hnone v f
    have key : ∀ a : Str, a ∈ ["B8".toList, "C8".toList, "F8".toList, "F14".toList] →
        SmsOp.setString a v f ∉ parseAndFillSmsReport_ raw isPM := by
      intro a ha hmem
      rw [mem_parse] at hmem
      rcases hmem with h | h | ⟨q, hq, h⟩ | h | h | h
      · obtain ⟨g, hg, _⟩ := cashierOps_mem _ _ _ h
        rw [hnone] at hg
        exact absurd hg (by simp)
      · obtain ⟨g, _, h⟩ := totalOps_mem _ _ _ h
        exact SmsOp.noConfusion h
      · obtain ⟨g, hg, h⟩ := pickOps_mem _ _ _ _ h
        injection h with h1 _ _
        have := pickCell_not_cashier isPM (pickCell q isPM) (List.mem_map.mpr ⟨q, hq, rfl⟩)
        rw [← h1] at this
        exact this ha
      · obtain ⟨_, g, _, h⟩ := mineralOps_mem _ _ _ h
        exact SmsOp.noConfusion h
      · exact SmsOp.noConfusion h
      · obtain ⟨g, l, _, h⟩ := pulloutOps_mem _ _ _ h
        exact SmsOp.noConfusion h
    constructor
    · apply key
      cases isPM <;> simp
    · apply key
      cases isPM <;> simp
  · intro g hg
    rw [mem_parse]
    refine Or.inr (Or.inl ?_)
    simp only [totalOps, hg, List.mem_singleton]
  · intro hnone v hmem
    rw [mem_parse] at hmem
    rcases hmem with h | h | ⟨q, hq, h⟩ | h | h | h
    · obtain ⟨g, _, h | h⟩ := cashierOps_mem _ _ _ h
      · exact SmsOp.noConfusion h
      · exact SmsOp.noConfusion h
    · obtain ⟨g, hg, _⟩ := totalOps_mem _ _ _ h
      rw [hnone] at hg
      exact absurd hg (by simp)
    · obtain ⟨g, _, h⟩ := pickOps_mem _ _ _ _ h
      exact SmsOp.noConfusion h
    · obtain ⟨_, g, _, h⟩ := mineralOps_mem _ _ _ h
      injection h with h1 _
      cases isPM <;> simp at h1
    · exact SmsOp.noConfusion h
    · obtain ⟨g, l, _, h⟩ := pulloutOps_mem _ _ _ h
      exact SmsOp.noConfusion h
  · intro g hpm hg
    rw [mem_parse]
    refine Or.inr (Or.inr (Or.inr (Or.inl ?_)))
    simp only [mineralOps, hpm, if_true, hg, List.mem_singleton]
  · intro hcond v hmem
    rw [mem_parse] at hmem
    rcases hmem with h | h | ⟨q, hq, h⟩ | h | h | h
    · obtain ⟨g, _, h | h⟩ := cashierOps_mem _ _ _ h
      · exact SmsOp.noConfusion h
      · exact SmsOp.noConfusion h
    · obtain ⟨g, _, h⟩ := totalOps_mem _ _ _ h
      injection h with h1 _
      cases isPM <;> simp at h1
    · obtain ⟨g, _, h⟩ := pickOps_mem _ _ _ _ h
      exact SmsOp.noConfusion h
    · obtain ⟨hpm, g, hg, _⟩ := mineralOps_mem _ _ _ h
      rcases hcond with hc | hc
      · rw [hc] at hpm
        exact absurd hpm (by simp)
      · rw [hc] at hg
        exact absurd hg (by simp)
    · exact SmsOp.noConfusion h
    · obtain ⟨g, l, _, h⟩ := pulloutOps_mem _ _ _ h
      exact SmsOp.noConfusion h
  · intro hnone a l hmem
    rw [mem_parse] at hmem
    rcases hmem with h | h | ⟨q, hq, h⟩ | h | h | h
    · obtain ⟨g, _, h | h⟩ := cashierOps_mem _ _ _ h
      · exact SmsOp.noConfusion h
      · exact SmsOp.noConfusion h
    · obtain ⟨g, _, h⟩ := totalOps_mem _ _ _ h
      exact SmsOp.noConfusion h
    · obtain ⟨g, _, h⟩ := pickOps_mem _ _ _ _ h
      exact SmsOp.noConfusion h
    · obtain ⟨_, g, _, h⟩ := mineralOps_mem _ _ _ h
      exact SmsOp.noConfusion h
    · exact SmsOp.noConfusion h
    · obtain ⟨g, l, hg, _⟩ := pulloutOps_mem _ _ _ h
      rw [hnone] at hg
      exact absurd hg (by simp)

/-- C24 (amended) on the AM text `SD = 12`, `Coins = 7`: the SD cell B9 receives
`12`. -/
theorem C24_fields_independent_witness :
    SmsOp.setString "B9".toList "12".toList false
      ∈ parseAndFillSmsReport_ ("SD = 12".toList ++ [nl] ++ "Coins = 7".toList) false :=
  (C24_fields_independent ("SD = 12".toList ++ [nl] ++ "Coins = 7".toList) false).2.1
    ⟨fieldRe (lit "SD".toList), "B9".toList, "C9".toList, false⟩ (List.mem_cons_self _ _)
    "12".toList (by decide)

/-- C23 on the code: in the message `Pullouts =`, `bread 5`, `-End-` the section
has no end the pattern accepts (without the flag `m` the alternative `^-End-`
can only match at the start of the text), so no pullout is written at all; and
when a blank line follows later, the line `-End-` is written as a pullout. -/
theorem C23_end_sentinel_ignored :
    parseAndFillSmsReport_
        ("Pullouts =".toList ++ [nl] ++ "bread 5".toList ++ [nl] ++ "-End-".toList) false
      = [SmsOp.clear "N2:N200".toList]
    ∧ parseAndFillSmsReport_
        ("Pullouts =".toList ++ [nl] ++ "bread 5".toList ++ [nl] ++ "-End-".toList
          ++ [nl, nl] ++ "Thanks".toList) false
      = [SmsOp.clear "N2:N200".toList,
         SmsOp.setLines "N2".toList ["bread 5".toList, "-End-".toList]]
    ∧ parseAndFillSmsReport_
        ("Pullouts =".toList ++ [nl] ++ "bread 5".toList ++ [nl] ++ "Workers = 2".toList) false
      = [SmsOp.clear "N2:N200".toList, SmsOp.setLines "N2".toList ["bread 5".toList]] := by
  decide

/-- C26 on the code: in the AM message `Plastic SB = 3`, `SB = 5` the SB cell B13
receives 3, the value of the `Plastic SB` line, because the unanchored pattern
for `SB` first matches inside that line; likewise `Plastic Loaf = 2`, `Loaf = 7`
puts 2 into the Loaf cell B18. With the short label first the cells are right. -/
theorem C26_longer_label_shadows :
    parseAndFillSmsReport_ ("Plastic SB = 3".toList ++ [nl] ++ "SB = 5".toList) false
      = [SmsOp.setString "B13".toList "3".toList false,
         SmsOp.setString "B16".toList "3".toList false, SmsOp.clear "N2:N200".toList]
    ∧ parseAndFillSmsReport_ ("Plastic Loaf = 2".toList ++ [nl] ++ "Loaf = 7".toList) false
      = [SmsOp.setString "B17".toList "2".toList false,
         SmsOp.setString "B18".toList "2".toList true, SmsOp.clear "N2:N200".toList]
    ∧ parseAndFillSmsReport_ ("SB = 5".toList ++ [nl] ++ "Plastic SB = 3".toList) false
      = [SmsOp.setString "B13".toList "5".toList false,
         SmsOp.setString "B16".toList "3".toList false, SmsOp.clear "N2:N200".toList] := by
  decide

/-! ## Header numbers in double arithmetic -/

theorem toDouble_small (n : Nat) (h : n ≤ 2 ^ 53) : toDouble n = HNum.fin n := by
  unfold toDouble
  rw [if_pos h]

theorem excessBits_spec (fuel n : Nat) :
    excessBits fuel n = 0 ∨ 2 ^ 52 ≤ n / 2 ^ excessBits fuel n := by
  induction fuel generalizing n with
  | zero => exact Or.inl rfl
  | succ f ih =>
    unfold excessBits
    split_ifs with h
    · exact Or.inl rfl
    · right
      rcases ih (n / 2) with h0 | h1
      · rw [h0]
        norm_num at h ⊢
        omega
      · have e : n / 2 ^ (excessBits f (n / 2) + 1) = n / 2 / 2 ^ excessBits f (n / 2) := by
          rw [Nat.pow_succ, Nat.mul_comm, Nat.div_div_eq_div_mul]
        rw [e]
        exact h1

theorem excessBits_pos (fuel n : Nat) (h : ¬ n < 2 ^ 53) : 1 ≤ excessBits (fuel + 1) n := by
  unfold excessBits
  rw [if_neg h]
  omega

theorem toDouble_large (n : Nat) (h : 2 ^ 53 ≤ n) :
    toDouble n = HNum.inf ∨ ∃ v, toDouble n = HNum.fin v ∧ 2 ^ 53 ≤ v := by
  by_cases h0 : n ≤ 2 ^ 53
  · exact Or.inr ⟨n, toDouble_small n h0, h⟩
  · have hpos : 1 ≤ excessBits 1024 n := excessBits_pos 1023 n (by omega)
    have hq : 2 ^ 52 ≤ n / 2 ^ excessBits 1024 n := by
      rcases excessBits_spec 1024 n with h1 | h1
      · omega
      · exact h1
    have key : ∀ m : Nat, n / 2 ^ excessBits 1024 n ≤ m →
        2 ^ 53 ≤ m * 2 ^ excessBits 1024 n := by
      intro m hm
      have h2 : 2 ^ 1 ≤ 2 ^ excessBits 1024 n := Nat.pow_le_pow_right (by norm_num) hpos
      calc 2 ^ 53 = 2 ^ 52 * 2 ^ 1 := by norm_num
        _ ≤ m * 2 ^ excessBits 1024 n := Nat.mul_le_mul (le_trans hq hm) h2
    unfold toDouble
    rw [if_neg h0]
    simp only []
    split_ifs
    all_goals first
      | exact Or.inl rfl
      | exact Or.inr ⟨_, rfl, key _ (le_refl _)⟩
      | exact Or.inr ⟨_, rfl, key _ (Nat.le_succ _)⟩

theorem hstep_cast (h : HNum) (n : Nat) : hstep h (n : Int) = hmax h (toDouble n) := by
  unfold hstep
  rw [if_neg (by omega)]
  simp

theorem scanAuxIeee_cons (numStr : ℚ → Str) (c : ColCell) (rest : List ColCell) (i : Nat)
    (st : Int × HNum) :
    scanAuxIeee numStr (c :: rest) i st
      = scanAuxIeee numStr rest (i + 1)
          (if isBlankCell numStr c = true then st.1 else (i : Int),
           (cellNums numStr c).foldl hstep st.2) := by
  obtain ⟨a, b⟩ := st
  conv_lhs => unfold scanAuxIeee
  apply congrArg (scanAuxIeee numStr rest (i + 1))
  refine Prod.ext ?_ ?_
  · simp only [isBlankCell, decide_eq_true_eq]
    by_cases hb : jsTrim (cellString numStr c) = []
    · simp [hb]
    · simp [hb]
  · unfold cellNums
    cases c with
    | text s =>
      cases hm : headerMatch (jsTrim (cellString numStr (ColCell.text s))) <;>
        simp [hstep_cast]
    | num q =>
      cases hm : headerMatch (jsTrim (cellString numStr (ColCell.num q))) <;>
        simp [hstep_cast]

theorem scanAuxIeee_fst (numStr : ℚ → Str) (col : List ColCell) (i : Nat) (a : Int)
    (h : HNum) (b : Int) :
    (scanAuxIeee numStr col i (a, h)).1 = (scanAux numStr col i (a, b)).1 := by
  induction col generalizing i a h b with
  | nil => simp [scanAuxIeee, scanAux]
  | cons c t ih =>
    rw [scanAuxIeee_cons, scanAux_cons]
    exact ih _ _ _ _

theorem scanAuxIeee_snd (numStr : ℚ → Str) (col : List ColCell) (i : Nat) (st : Int × HNum) :
    (scanAuxIeee numStr col i st).2 = (col.flatMap (cellNums numStr)).foldl hstep st.2 := by
  induction col generalizing i st with
  | nil => simp [scanAuxIeee]
  | cons c t ih =>
    rw [scanAuxIeee_cons, ih]
    simp [List.flatMap_cons, List.foldl_append]

theorem foldl_hstep_small (l : List Int) (b : Nat) (h : ∀ n ∈ l, n < 2 ^ 53) :
    l.foldl hstep (HNum.fin b) = HNum.fin (l.foldl max (b : Int)).toNat := by
  induction l generalizing b with
  | nil => simp
  | cons n t ih =>
    rw [List.foldl_cons, List.foldl_cons]
    have hn := h n (List.mem_cons_self _ _)
    have ht : ∀ x ∈ t, x < 2 ^ 53 := fun x hx => h x (List.mem_cons_of_mem _ hx)
    by_cases h0 : n < 0
    · have e1 : hstep (HNum.fin b) n = HNum.fin b := by
        unfold hstep
        rw [if_pos h0]
      have e2 : max (b : Int) n = (b : Int) := max_eq_left (by omega)
      rw [e1, e2]
      exact ih b ht
    · have hs : n.toNat ≤ 2 ^ 53 := by
        norm_num at hn ⊢
        omega
      have e1 : hstep (HNum.fin b) n = HNum.fin (max b n.toNat) := by
        unfold hstep
        rw [if_neg h0, toDouble_small _ hs]
        rfl
      have e2 : max (b : Int) n = ((max b n.toNat : Nat) : Int) := by
        rw [Nat.cast_max]
        congr 1
        omega
      rw [e1, e2]
      exact ih _ ht

theorem scanIeee_fst (numStr : ℚ → Str) (col : List ColCell) :
    (_scanNumberedColumnIeee_ numStr col).1 = (_scanNumberedColumn_ numStr col).1 :=
  scanAuxIeee_fst numStr col 0 (-1) (HNum.fin 0) 0

theorem scanIeee_snd (numStr : ℚ → Str) (col : List ColCell)
    (h : ∀ c ∈ col, ∀ n ∈ cellNums numStr c, n < 2 ^ 53) :
    (_scanNumberedColumnIeee_ numStr col).2 = HNum.fin (highestHeaderNum numStr col).toNat := by
  unfold _scanNumberedColumnIeee_ highestHeaderNum
  rw [scanAuxIeee_snd]
  have := foldl_hstep_small (col.flatMap (cellNums numStr)) 0 (by
    intro n hn
    obtain ⟨c, hc, hn⟩ := List.mem_flatMap.mp hn
    exact h c hc n hn)
  simpa using this

theorem highest_small (numStr : ℚ → Str) (col : List ColCell)
    (h : ∀ c ∈ col, ∀ n ∈ cellNums numStr c, n < 2 ^ 53) :
    0 ≤ highestHeaderNum numStr col ∧ highestHeaderNum numStr col < 2 ^ 53 := by
  obtain ⟨h0, _, h2⟩ := highest_spec numStr col
  refine ⟨h0, ?_⟩
  rcases h2 with h2 | ⟨c, hc, hn⟩
  · rw [h2]
    norm_num
  · exact h c hc _ hn
theorem hsucc_small (b : Nat) (h : b < 2 ^ 53) : hsucc (HNum.fin b) = HNum.fin (b + 1) := by
  unfold hsucc
  exact toDouble_small _ (by omega)

/-- Below 2^53 the computation in doubles gives the number of the exact one. -/
theorem nextNumIeee_exact (numStr : ℚ → Str) (col colJ : List ColCell) (inputA1 : Str)
    (hcol : ∀ c ∈ col, ∀ n ∈ cellNums numStr c, n < 2 ^ 53)
    (hJ : inputA1 = "C30".toList → (∀ c ∈ col, isBlankCell numStr c = true) →
      ∀ c ∈ colJ, ∀ n ∈ cellNums numStr c, n < 2 ^ 53) :
    nextNumIeee numStr col colJ inputA1 = HNum.fin (nextNum numStr col colJ inputA1).toNat := by
  obtain ⟨a0, a1⟩ := highest_small numStr col hcol
  unfold nextNumIeee nextNum
  simp only [scanIeee_fst, scan_fst_neg_iff, scan_snd, scanIeee_snd numStr col hcol]
  by_cases hc : inputA1 = "C30".toList ∧ ∀ c ∈ col, isBlankCell numStr c = true
  · obtain ⟨b0, b1⟩ := highest_small numStr colJ (hJ hc.1 hc.2)
    rw [if_pos hc, if_pos hc, scanIeee_snd numStr colJ (hJ hc.1 hc.2)]
    have hm : max (highestHeaderNum numStr col).toNat (highestHeaderNum numStr colJ).toNat
        < 2 ^ 53 := by
      norm_num at a1 b1 ⊢
      omega
    simp only [hmax]
    rw [hsucc_small _ hm]
    simp only [hmax]
    congr 1
    omega
  · rw [if_neg hc, if_neg hc]
    have hm : (highestHeaderNum numStr col).toNat < 2 ^ 53 := by
      norm_num at a1 ⊢
      omega
    rw [hsucc_small _ hm]
    simp only [hmax]
    congr 1
    omega
/-- Below 2^53 the header text written with the number computed in doubles is the
one written with the exact number. -/
theorem numText_exact (numStr : ℚ → Str) (col colJ : List ColCell) (inputA1 : Str)
    (hcol : ∀ c ∈ col, ∀ n ∈ cellNums numStr c, n < 2 ^ 53)
    (hJ : inputA1 = "C30".toList → (∀ c ∈ col, isBlankCell numStr c = true) →
      ∀ c ∈ colJ, ∀ n ∈ cellNums numStr c, n < 2 ^ 53) :
    numText numStr (nextNumIeee numStr col colJ inputA1)
      = decStr (nextNum numStr col colJ inputA1).toNat := by
  obtain ⟨a0, a1⟩ := highest_small numStr col hcol
  rw [nextNumIeee_exact numStr col colJ inputA1 hcol hJ]
  have hle : (nextNum numStr col colJ inputA1).toNat ≤ 2 ^ 53 := by
    rw [nextNum_eq]
    split_ifs with hc
    · obtain ⟨b0, b1⟩ := highest_small numStr colJ (hJ hc.1 hc.2)
      norm_num at a1 b1 ⊢
      omega
    · norm_num at a1 ⊢
      omega
  simp only [numText, if_pos hle]

theorem exceeds_hmax_one (h : HNum) (n : Int) (hn : exceeds h n = true) :
    exceeds (hmax (HNum.fin 1) h) n = true := by
  cases h with
  | fin v =>
    simp only [hmax, exceeds, decide_eq_true_eq] at hn ⊢
    omega
  | inf => rfl

theorem exceeds_hsucc (h : HNum) (n : Int) (hn : n < 2 ^ 53)
    (hh : h = HNum.inf ∨ ∃ v, h = HNum.fin v ∧ n ≤ (v : Int)) :
    exceeds (hsucc h) n = true := by
  rcases hh with rfl | ⟨v, rfl, hv⟩
  · rfl
  · by_cases hs : v < 2 ^ 53
    · rw [hsucc_small v hs]
      simp only [exceeds, decide_eq_true_eq]
      omega
    · show exceeds (toDouble (v + 1)) n = true
      rcases toDouble_large (v + 1) (by omega) with h1 | ⟨w, h1, h2⟩
      · rw [h1]
        rfl
      · rw [h1]
        simp only [exceeds, decide_eq_true_eq]
        norm_num at hn h2 ⊢
        omega

theorem hmax_ge_left (h x : HNum) (n : Int)
    (hh : h = HNum.inf ∨ ∃ v, h = HNum.fin v ∧ n ≤ (v : Int)) :
    hmax h x = HNum.inf ∨ ∃ v, hmax h x = HNum.fin v ∧ n ≤ (v : Int) := by
  rcases hh with rfl | ⟨v, rfl, hv⟩
  · left
    cases x <;> rfl
  · cases x with
    | inf => exact Or.inl rfl
    | fin w =>
      refine Or.inr ⟨max v w, rfl, ?_⟩
      have : v ≤ max v w := le_max_left _ _
      omega

theorem hstep_ge (h : HNum) (m n : Int)
    (hh : h = HNum.inf ∨ ∃ v, h = HNum.fin v ∧ n ≤ (v : Int)) :
    hstep h m = HNum.inf ∨ ∃ v, hstep h m = HNum.fin v ∧ n ≤ (v : Int) := by
  unfold hstep
  split_ifs
  · exact hh
  · exact hmax_ge_left h _ n hh

theorem hstep_self (h : HNum) (n : Int) (hn : n < 2 ^ 53) :
    hstep h n = HNum.inf ∨ ∃ v, hstep h n = HNum.fin v ∧ n ≤ (v : Int) := by
  unfold hstep
  split_ifs with h0
  · cases h with
    | inf => exact Or.inl rfl
    | fin v =>
      refine Or.inr ⟨v, rfl, ?_⟩
      omega
  · have hs : n.toNat ≤ 2 ^ 53 := by
      norm_num at hn ⊢
      omega
    rw [toDouble_small _ hs]
    cases h with
    | inf => exact Or.inl rfl
    | fin v =>
      refine Or.inr ⟨max v n.toNat, rfl, ?_⟩
      have : n.toNat ≤ max v n.toNat := le_max_right _ _
      omega

theorem foldl_hstep_ge (l : List Int) (h : HNum) (n : Int)
    (hh : h = HNum.inf ∨ ∃ v, h = HNum.fin v ∧ n ≤ (v : Int)) :
    l.foldl hstep h = HNum.inf ∨ ∃ v, l.foldl hstep h = HNum.fin v ∧ n ≤ (v : Int) := by
  induction l generalizing h with
  | nil => exact hh
  | cons m t ih =>
    rw [List.foldl_cons]
    exact ih _ (hstep_ge h m n hh)

theorem foldl_hstep_mem (l : List Int) (h : HNum) (n : Int) (hm : n ∈ l) (hn : n < 2 ^ 53) :
    l.foldl hstep h = HNum.inf ∨ ∃ v, l.foldl hstep h = HNum.fin v ∧ n ≤ (v : Int) := by
  induction l generalizing h with
  | nil => exact absurd hm (List.not_mem_nil _)
  | cons m t ih =>
    rw [List.foldl_cons]
    rcases List.mem_cons.mp hm with rfl | hm
    · exact foldl_hstep_ge t _ n (hstep_self h n hn)
    · exact ih _ hm

/-- The number read by the scan in doubles is at least every header number below
2^53 that the column shows. -/
theorem scanIeee_ge (numStr : ℚ → Str) (col : List ColCell) (c : ColCell) (hc : c ∈ col)
    (n : Int) (hn : n ∈ cellNums numStr c) (hb : n < 2 ^ 53) :
    (_scanNumberedColumnIeee_ numStr col).2 = HNum.inf
      ∨ ∃ v, (_scanNumberedColumnIeee_ numStr col).2 = HNum.fin v ∧ n ≤ (v : Int) := by
  unfold _scanNumberedColumnIeee_
  rw [scanAuxIeee_snd]
  exact foldl_hstep_mem _ _ n (List.mem_flatMap.mpr ⟨c, hc, hn⟩) hb

theorem nextNumIeee_pos (numStr : ℚ → Str) (col colJ : List ColCell) (inputA1 : Str) :
    exceeds (nextNumIeee numStr col colJ inputA1) 0 = true := by
  unfold nextNumIeee
  simp only []
  generalize hsucc _ = x
  cases x with
  | inf => rfl
  | fin v =>
    simp only [hmax, exceeds, decide_eq_true_eq]
    have : 1 ≤ max 1 v := le_max_left _ _
    omega

/-- C19 (as stated) fails: on the column `9007199254740993. x` the scan reads
the header number as the double 9007199254740992, adding 1 leaves that double
as it is, and the new block gets the number 9007199254740992, which is not
greater than the header number present. -/
theorem C19_counterexample :
    cellNums intStr (ColCell.text "9007199254740993. x".toList) = [9007199254740993]
    ∧ nextNumIeee intStr [ColCell.text "9007199254740993. x".toList] [] "B28".toList
        = HNum.fin 9007199254740992
    ∧ exceeds (nextNumIeee intStr [ColCell.text "9007199254740993. x".toList] [] "B28".toList)
        9007199254740993 = false
    ∧ numText intStr (nextNumIeee intStr [ColCell.text "9007199254740993. x".toList] []
        "B28".toList) ++ ". y".toList = "9007199254740992. y".toList := by
  decide

/-- C19 (amended): the number given to a new block is strictly greater than
every header number below 2^53 present in the target column (the number a cell
text shows, or the floor of a numeric cell), whatever else the column and
column J hold and whatever blank rows there are; it is at least 1; and when it
is at most 2^53 the header cell written for the block shows exactly that number
to the next scan. -/
theorem C19_number_is_fresh (numStr : ℚ → Str) (col colJ : List ColCell) (inputA1 : Str) :
    (∀ c ∈ col, ∀ n ∈ cellNums numStr c, n < 2 ^ 53 →
      exceeds (nextNumIeee numStr col colJ inputA1) n = true)
    ∧ exceeds (nextNumIeee numStr col colJ inputA1) 0 = true
    ∧ (∀ N : Nat, nextNumIeee numStr col colJ inputA1 = HNum.fin N → N ≤ 2 ^ 53 →
        ∀ l1 : Str, cellNums numStr (ColCell.text
          (numText numStr (nextNumIeee numStr col colJ inputA1) ++ ". ".toList ++ l1))
          = [(N : Int)]) := by
  refine ⟨?_, nextNumIeee_pos numStr col colJ inputA1, ?_⟩
  · intro c hc n hn hb
    have hs := scanIeee_ge numStr col c hc n hn hb
    unfold nextNumIeee
    simp only []
    apply exceeds_hmax_one
    apply exceeds_hsucc _ _ hb
    split_ifs
    · exact hmax_ge_left _ _ n hs
    · exact hs
  · intro N hN hle l1
    rw [hN]
    unfold cellNums
    simp only [numText, if_pos hle, cellString, List.append_nil]
    have hh := headerMatch_header (decStr N) l1 (decStr_ne_nil _) (decStr_digits _)
    have e : decStr N ++ ". ".toList ++ l1 = decStr N ++ '.' :: ' ' :: l1 := by
      simp
    rw [e, hh]
    simp only [decStr_value]

/-- C19 (amended) on the column `7. x`, blank, `note`: the next number exceeds 7. -/
theorem C19_number_is_fresh_witness :
    exceeds (nextNumIeee intStr
      [ColCell.text "7. x".toList, ColCell.text [], ColCell.text "note".toList] []
      "B28".toList) 7 = true :=
  (C19_number_is_fresh intStr
    [ColCell.text "7. x".toList, ColCell.text [], ColCell.text "note".toList] []
    "B28".toList).1
    (ColCell.text "7. x".toList) (by decide) 7 (by decide) (by decide)

/-- C25 (as stated) fails: on the column `9007199254740992. z` the highest header
number is 9007199254740992, so `max(1, base + 1)` is 9007199254740993, but that
is no double and the sum computed is 9007199254740992, the number assigned; the
column `9007199254740993. x` gets the same number. -/
theorem C25_counterexample :
    highestHeaderNum intStr [ColCell.text "9007199254740992. z".toList] = 9007199254740992
    ∧ max 1 (highestHeaderNum intStr [ColCell.text "9007199254740992. z".toList] + 1)
        = 9007199254740993
    ∧ nextNumIeee intStr [ColCell.text "9007199254740992. z".toList] [] "B28".toList
        = HNum.fin 9007199254740992
    ∧ highestHeaderNum intStr [ColCell.text "9007199254740993. x".toList] = 9007199254740993
    ∧ nextNumIeee intStr [ColCell.text "9007199254740993. x".toList] [] "B28".toList
        = HNum.fin 9007199254740992 := by
  decide

/-- C25 (amended): when every header number found in the target column, and in
column J where it is consulted, is below 2^53, the number `appendNumberedBlock_`
assigns is `max(1, base + 1)`, where `base` is the highest header number found
in the target column (0 when there is none), except that for the input cell C30
with an entirely empty target column it is the larger of that and the highest
header number found in column J; and, with no bound on any number, for any
other input cell, or a target column that is not empty, the number does not
depend on what column J holds. -/
theorem C25_next_number (numStr : ℚ → Str) (col colJ : List ColCell) (inputA1 : Str) :
    ((∀ c ∈ col, ∀ n ∈ cellNums numStr c, n < 2 ^ 53) →
      (inputA1 = "C30".toList → (∀ c ∈ col, isBlankCell numStr c = true) →
        ∀ c ∈ colJ, ∀ n ∈ cellNums numStr c, n < 2 ^ 53) →
      nextNumIeee numStr col colJ inputA1
        = HNum.fin (max 1 ((if inputA1 = "C30".toList
              ∧ ∀ c ∈ col, isBlankCell numStr c = true
            then max (highestHeaderNum numStr col) (highestHeaderNum numStr colJ)
            else highestHeaderNum numStr col) + 1)).toNat)
    ∧ (∀ l : List ColCell, 0 ≤ highestHeaderNum numStr l
        ∧ (∀ c ∈ l, ∀ n ∈ cellNums numStr c, n ≤ highestHeaderNum numStr l)
        ∧ (highestHeaderNum numStr l = 0
            ∨ ∃ c ∈ l, highestHeaderNum numStr l ∈ cellNums numStr c))
    ∧ ((inputA1 ≠ "C30".toList ∨ ∃ c ∈ col, isBlankCell numStr c = false) →
        ∀ j1 j2 : List ColCell,
          nextNumIeee numStr col j1 inputA1 = nextNumIeee numStr col j2 inputA1) := by
  refine ⟨?_, highest_spec numStr, ?_⟩
  · intro hcol hJ
    rw [nextNumIeee_exact numStr col colJ inputA1 hcol hJ, nextNum_eq]
  · intro h j1 j2
    have hn : ¬ (inputA1 = "C30".toList ∧ (_scanNumberedColumnIeee_ numStr col).1 < 0) := by
      rw [scanIeee_fst, scan_fst_neg_iff]
      rintro ⟨h1, h2⟩
      rcases h with h | ⟨c, hc, hb⟩
      · exact h h1
      · rw [h2 c hc] at hb
        exact absurd hb (by simp)
    unfold nextNumIeee
    simp only [if_neg hn]

/-- C25 (amended) for the input cell B30 and the column `1. a`, with `9. z` in
column J: the number assigned is 2. -/
theorem C25_next_number_witness :
    nextNumIeee intStr [ColCell.text "1. a".toList] [ColCell.text "9. z".toList] "B30".toList
      = HNum.fin 2 :=
  ((C25_next_number intStr [ColCell.text "1. a".toList] [ColCell.text "9. z".toList]
    "B30".toList).1 (by decide) (by decide)).trans (by decide)

/-! ## The compiled key pattern and the literal scan -/

theorem matchRe_chr_nil (p : Char → Bool) (prev : Option Char) (cap : Option Str)
    (k : MState → Option MState) : matchRe (Re.chr p) ⟨prev, [], cap⟩ k = none := by
  simp [matchRe]

theorem matchRe_chr_cons (p : Char → Bool) (prev : Option Char) (cap : Option Str) (c : Char)
    (r : Str) (k : MState → Option MState) :
    matchRe (Re.chr p) ⟨prev, c :: r, cap⟩ k
      = if p c = true then k ⟨some c, r, cap⟩ else none := by
  simp [matchRe]

theorem starLoop_class (p : Char → Bool) (g : Str → Option MState)
    (hg : ∀ c r, p c = true → g (c :: r) = none) :
    ∀ (n : Nat) (t : Str) (prev : Option Char) (cap : Option Str), t.length ≤ n →
      starLoop true (matchRe (Re.chr p)) n ⟨prev, t, cap⟩ (fun s1 => g s1.rest)
        = g (t.dropWhile p) := by
  intro n
  induction n with
  | zero =>
    intro t prev cap ht
    have : t = [] := List.length_eq_zero.mp (Nat.le_zero.mp ht)
    subst this
    simp [starLoop]
  | succ n ih =>
    intro t prev cap ht
    cases t with
    | nil =>
      simp only [starLoop, if_true]
      rw [matchRe_chr_nil]
      rfl
    | cons c r =>
      have hr : r.length ≤ n := by
        simp only [List.length_cons] at ht
        omega
      simp only [starLoop, if_true]
      rw [matchRe_chr_cons]
      by_cases hp : p c = true
      · have e := ih r (some c) cap hr
        simp only [hp, if_true, List.length_cons, Nat.lt_succ_self, List.dropWhile_cons]
        rw [e]
        cases hgr : g (r.dropWhile p) with
        | some x => rfl
        | none => simp [hg c r hp]
      · simp [hp, List.dropWhile_cons]
theorem take_sub_dropWhile (p : Char → Bool) (body : Str) :
    body.take (body.length - (body.dropWhile p).length) = body.takeWhile p := by
  have h := List.takeWhile_append_dropWhile p body
  have hl : body.length = (body.takeWhile p).length + (body.dropWhile p).length := by
    conv_lhs => rw [← h]
    rw [List.length_append]
  rw [hl, Nat.add_sub_cancel]
  have e : List.take (body.takeWhile p).length (body.takeWhile p ++ body.dropWhile p)
      = body.takeWhile p := List.take_left' rfl
  rw [h] at e
  exact e

theorem quotedRe_body (body : Str) :
    matchRe (Re.cat (Re.grp (Re.star true (Re.chr (fun c => c != dq)))) (one dq))
        ⟨some dq, body, none⟩ some
      = afterClass body (body.dropWhile (fun c => c != dq)) := by
  have e : matchRe (Re.cat (Re.grp (Re.star true (Re.chr (fun c => c != dq)))) (one dq))
        ⟨some dq, body, none⟩ some
      = starLoop true (matchRe (Re.chr (fun c => c != dq))) body.length ⟨some dq, body, none⟩
          (fun s1 => afterClass body s1.rest) := by
    simp only [matchRe, one]
    congr 1
    funext s1
    cases h : s1.rest <;> simp [afterClass]
  rw [e]
  apply starLoop_class
  · intro c r hc
    simp only [afterClass]
    have : (c == dq) = false := by simpa using hc
    simp [this]
  · exact le_refl _
theorem quotedAt_nil (lit : Str) : quotedAt lit [] = none := by
  unfold quotedAt
  cases lit <;> simp [List.isPrefixOf]

theorem quotedAt_cons (c d : Char) (lit t : Str) :
    quotedAt (c :: lit) (d :: t) = if c = d then quotedAt lit t else none := by
  unfold quotedAt
  by_cases h : c = d
  · subst h
    simp [List.isPrefixOf]
  · simp [List.isPrefixOf, h]

theorem afterClass_cap (body : Str) :
    (afterClass body (body.dropWhile (fun c => c != dq))).map (fun m => m.cap.getD [])
      = if (body.dropWhile (fun c => c != dq)).isEmpty then none
        else some (body.takeWhile (fun c => c != dq)) := by
  cases h : body.dropWhile (fun c => c != dq) with
  | nil => simp [afterClass]
  | cons c r =>
    have hc : (c != dq) = false := by
      have := List.head_dropWhile_not (fun c => c != dq) body (by rw [h]; simp)
      simpa [h] using this
    have hc2 : (c == dq) = true := by simpa using hc
    have e := take_sub_dropWhile (fun c => c != dq) body
    rw [h] at e
    simp only [List.length_cons] at e
    simp [afterClass, hc2, e]

theorem quotedRe_match (prev : Option Char) (s : Str) :
    (matchRe quotedRe ⟨prev, s, none⟩ some).map (fun m => m.cap.getD [])
      = quotedAt ['='] s := by
  cases s with
  | nil => simp [quotedRe, matchRe, one, quotedAt_nil]
  | cons c t =>
    rw [quotedAt_cons]
    by_cases hc : '=' = c
    · subst hc
      rw [if_pos rfl]
      cases t with
      | nil => simp [quotedRe, matchRe, one, quotedAt_nil]
      | cons d body =>
        by_cases hd : d = dq
        · subst hd
          have e : matchRe quotedRe ⟨prev, '=' :: dq :: body, none⟩ some
              = matchRe (Re.cat (Re.grp (Re.star true (Re.chr (fun c => c != dq)))) (one dq))
                  ⟨some dq, body, none⟩ some := by
            simp [quotedRe, matchRe, one]
          rw [e, quotedRe_body, afterClass_cap]
          simp [quotedAt, List.isPrefixOf]
        · have e : matchRe quotedRe ⟨prev, '=' :: d :: body, none⟩ some = none := by
            simp [quotedRe, matchRe, one, hd]
          rw [e]
          simp [quotedAt, List.isPrefixOf, hd, Ne.symm hd]
    · rw [if_neg hc]
      have e : matchRe quotedRe ⟨prev, c :: t, none⟩ some = none := by
        simp [quotedRe, matchRe, one, Ne.symm hc]
      rw [e]
      rfl
theorem keyAtom_plain (c : Char) (h : isSyntaxChar c = false) : keyAtom c = some (one c) := by
  have h1 : c ≠ '.' := by
    rintro rfl
    exact absurd h (by decide)
  have h2 : c ≠ '^' := by
    rintro rfl
    exact absurd h (by decide)
  have h3 : c ≠ '$' := by
    rintro rfl
    exact absurd h (by decide)
  simp [keyAtom, h1, h2, h3, h]

theorem keyPattern_plain (key : Str) (h : ∀ c ∈ key, isSyntaxChar c = false) :
    ∃ R, keyPattern key = some R
      ∧ ∀ prev s, (matchRe R ⟨prev, s, none⟩ some).map (fun m => m.cap.getD [])
          = quotedAt (key ++ ['=']) s := by
  induction key with
  | nil => exact ⟨quotedRe, rfl, fun prev s => quotedRe_match prev s⟩
  | cons c r ih =>
    obtain ⟨R, hR, hm⟩ := ih (fun x hx => h x (List.mem_cons_of_mem _ hx))
    refine ⟨Re.cat (one c) R, ?_, ?_⟩
    · simp [keyPattern, keyAtom_plain c (h c (List.mem_cons_self _ _)), hR]
    · intro prev s
      cases s with
      | nil => simp [matchRe, one, quotedAt_nil]
      | cons d t =>
        rw [List.cons_append, quotedAt_cons]
        by_cases hd : c = d
        · subst hd
          rw [if_pos rfl, ← hm (some c) t]
          simp [matchRe, one]
        · rw [if_neg hd]
          simp [matchRe, one, Ne.symm hd]

theorem searchRe_quoted (R : Re) (lit : Str)
    (h : ∀ prev s, (matchRe R ⟨prev, s, none⟩ some).map (fun m => m.cap.getD [])
      = quotedAt lit s) (prev : Option Char) (s : Str) :
    (searchRe R prev s).map (fun m => m.cap.getD []) = findQuoted lit s := by
  induction s generalizing prev with
  | nil =>
    simp only [searchRe, findQuoted]
    exact h prev []
  | cons c r ih =>
    have hm := h prev (c :: r)
    simp only [searchRe, findQuoted]
    cases hq : matchRe R ⟨prev, c :: r, none⟩ some with
    | some m =>
      rw [hq] at hm
      simp only [Option.map_some'] at hm
      rw [← hm]
      rfl
    | none =>
      rw [hq] at hm
      simp only [Option.map_none'] at hm
      rw [← hm]
      exact ih (some c)

theorem contains_dot_plain (key : Str) (h : ∀ c ∈ key, isSyntaxChar c = false) :
    key.contains '.' = false := by
  rw [Bool.eq_false_iff]
  intro hc
  have hm : '.' ∈ key := by simpa using hc
  exact absurd (h '.' hm) (by decide)

theorem parenDepth_plain (key : Str) (h : ∀ c ∈ key, isSyntaxChar c = false) (depth : Nat) :
    parenDepth key depth = some depth := by
  induction key with
  | nil => rfl
  | cons c r ih =>
    have hc := h c (List.mem_cons_self _ _)
    have h1 : c ≠ '(' := by
      rintro rfl
      exact absurd hc (by decide)
    have h2 : c ≠ ')' := by
      rintro rfl
      exact absurd hc (by decide)
    simp only [parenDepth, if_neg h1, if_neg h2]
    exact ih (fun x hx => h x (List.mem_cons_of_mem _ hx))

theorem unbalancedKey_plain (key : Str) (h : ∀ c ∈ key, isSyntaxChar c = false) :
    unbalancedKey key = false := by
  unfold unbalancedKey
  rw [parenDepth_plain key h 0]
  simp

/-- For a key without syntax characters the compiled pattern finds what the
literal scan finds. -/
theorem extractKeyFromValue_plain (s key : Str) (h : ∀ c ∈ key, isSyntaxChar c = false) :
    extractKeyFromValue (JsVal.str s) key = Decoded.value (extractKeyFromCell s key) := by
  obtain ⟨R, hR, hm⟩ := keyPattern_plain key h
  have hs := searchRe_quoted R (key ++ ['=']) hm none s
  unfold extractKeyFromValue extractKeyFromCell
  simp only [unbalancedKey_plain key h, hR, contains_dot_plain key h, jsMatch, hs]
  cases findQuoted (key ++ ['=']) s <;> simp
/-- C17 (as stated) fails, since the key is compiled into the pattern: for the
key `a.c` the text `abc="x"`, in which `a.c` does not occur, decodes to `x`; for
the key `US$` the text `US$="5"` decodes to the empty text; and for the key `(`
the call throws a `SyntaxError`, here on the text `(="x"`. -/
theorem C17_counterexample :
    extractKeyFromValue (JsVal.str ("abc=".toList ++ [dq, 'x', dq])) "a.c".toList
      = Decoded.value "x".toList
    ∧ ¬ ("a.c".toList <:+: "abc=".toList ++ [dq, 'x', dq])
    ∧ extractKeyFromValue (JsVal.str ("US$".toList ++ '=' :: dq :: "5".toList ++ [dq]))
        "US$".toList = Decoded.value []
    ∧ extractKeyFromValue (JsVal.str ("(=".toList ++ [dq, 'x', dq])) "(".toList
        = Decoded.syntaxError := by
  decide

/-- C17 (amended): for a key without regular-expression syntax characters, on a
string input `extractKeyFromCell` returns the value of the first occurrence of
`key="..."` when the text contains one and the empty text when it contains
none, and so it does on the empty text that `updateMoonlitAccounts` passes in
place of a cell that is not a string; `extractBills` does the same for the key
`bills`, and returns the empty text on an input that is not a string. -/
theorem C17_decoders_first_value (s key : Str) :
    ((∀ c ∈ key, isSyntaxChar c = false) →
      ((∃ i v, KeyAt key s i v) →
        ∃ i v, KeyAt key s i v ∧ (∀ j, j < i → ∀ w, ¬ KeyAt key s j w)
          ∧ extractKeyFromValue (JsVal.str s) key = Decoded.value v)
      ∧ ((∀ i v, ¬ KeyAt key s i v) →
          extractKeyFromValue (JsVal.str s) key = Decoded.value [])
      ∧ (∀ row : AccountsRow, row.colH = none →
          extractKeyFromValue (JsVal.str (rowText row)) key = Decoded.value []))
    ∧ ((∃ i v, KeyAt "bills".toList s i v) →
      ∃ i v, KeyAt "bills".toList s i v ∧ (∀ j, j < i → ∀ w, ¬ KeyAt "bills".toList s j w)
        ∧ extractBills (JsVal.str s) = v)
    ∧ ((∀ i v, ¬ KeyAt "bills".toList s i v) → extractBills (JsVal.str s) = [])
    ∧ extractBills JsVal.other = [] := by
  refine ⟨?_, ?_, ?_, rfl⟩
  · intro hkey
    refine ⟨?_, ?_, ?_⟩
    · intro h
      obtain ⟨i, v, h1, h2, h3⟩ := (findQuoted_first key s).1 h
      refine ⟨i, v, h1, h2, ?_⟩
      rw [extractKeyFromValue_plain s key hkey]
      simp only [extractKeyFromCell, h3]
    · intro h
      have := (findQuoted_first key s).2 h
      rw [extractKeyFromValue_plain s key hkey]
      simp only [extractKeyFromCell, this]
    · intro row hrow
      rw [extractKeyFromValue_plain _ key hkey]
      simp only [rowText, hrow, extractKeyFromCell, findQuoted, quotedAt_nil]
  · intro h
    obtain ⟨i, v, h1, h2, h3⟩ := (findQuoted_first "bills".toList s).1 h
    refine ⟨i, v, h1, h2, ?_⟩
    have e : "bills=".toList = "bills".toList ++ ['='] := by decide
    simp only [extractBills, e, h3]
  · intro h
    have := (findQuoted_first "bills".toList s).2 h
    have e : "bills=".toList = "bills".toList ++ ['='] := by decide
    simp only [extractBills, e, this]

/-- C17 (amended) on the text `accountsam="x"; accountsam="y"` and the key
`accountsam`: the value returned is that of an occurrence with none before it. -/
theorem C17_decoders_first_value_witness :
    ∃ i v, KeyAt "accountsam".toList
        ("accountsam=".toList ++ dq :: ("x".toList ++ dq
          :: ("; accountsam=".toList ++ [dq, 'y', dq]))) i v
      ∧ (∀ j, j < i → ∀ w, ¬ KeyAt "accountsam".toList
        ("accountsam=".toList ++ dq :: ("x".toList ++ dq
          :: ("; accountsam=".toList ++ [dq, 'y', dq]))) j w)
      ∧ extractKeyFromValue (JsVal.str
        ("accountsam=".toList ++ dq :: ("x".toList ++ dq
          :: ("; accountsam=".toList ++ [dq, 'y', dq])))) "accountsam".toList
        = Decoded.value v :=
  ((C17_decoders_first_value
    ("accountsam=".toList ++ dq :: ("x".toList ++ dq
      :: ("; accountsam=".toList ++ [dq, 'y', dq])))
    "accountsam".toList).1 (by decide)).1
    ⟨0, "x".toList, by decide, "; accountsam=".toList ++ [dq, 'y', dq], rfl⟩
/-! ## Rounding of the attendance, at the doubles the source holds -/

theorem roundEven_of_near (x : ℚ) (m : ℤ) (h : |x - m| < 1 / 2) : roundEven x = m := by
  rw [abs_lt] at h
  obtain ⟨h1, h2⟩ := h
  unfold roundEven
  by_cases hx : (m : ℚ) ≤ x
  · have hf : Int.floor x = m := by
      rw [Int.floor_eq_iff]
      constructor
      · exact hx
      · linarith
    simp only [hf]
    rw [if_pos (by linarith)]
  · have hf : Int.floor x = m - 1 := by
      rw [Int.floor_eq_iff]
      push_cast
      constructor
      · linarith
      · linarith [not_le.mp hx]
    simp only [hf]
    push_cast
    rw [if_neg (by linarith), if_pos (by linarith)]
    ring

theorem log2_eq (a : ℚ) (e : ℤ) (h1 : (2 : ℚ) ^ e ≤ a) (h2 : a < (2 : ℚ) ^ (e + 1)) :
    Int.log 2 a = e := by
  have ha : 0 < a := lt_of_lt_of_le (by positivity) h1
  apply le_antisymm
  · have := (Int.lt_zpow_iff_log_lt (by norm_num : 1 < 2) ha).mp (by exact_mod_cast h2)
    omega
  · exact (Int.zpow_le_iff_le_log (by norm_num : 1 < 2) ha).mp (by exact_mod_cast h1)

theorem fl_eval (q : ℚ) (e m : ℤ) (h1 : (2 : ℚ) ^ e ≤ q) (h2 : q < (2 : ℚ) ^ (e + 1))
    (he : -1022 ≤ e) (hm : |q / 2 ^ (e - 52) - m| < 1 / 2)
    (hfin : (m : ℚ) * 2 ^ (e - 52) < 2 ^ 1024) :
    fl q = some ((m : ℚ) * 2 ^ (e - 52)) := by
  have hq : 0 < q := lt_of_lt_of_le (by positivity) h1
  unfold fl
  rw [if_neg (ne_of_gt hq)]
  have ha : |q| = q := abs_of_pos hq
  simp only [ha, log2_eq q e h1 h2]
  have hs : max (e - 52) (-1074) = e - 52 := max_eq_left (by omega)
  rw [hs, roundEven_of_near _ m hm, if_neg (not_le.mpr hfin), if_neg (not_lt.mpr hq.le)]


theorem fl_two_twelfths : fl (2 / 12) = some (6004799503160661 / 2 ^ 55) := by
  have h := fl_eval (2 / 12) (-3) 6004799503160661 (by norm_num) (by norm_num) (by norm_num)
    (by rw [abs_lt]; constructor <;> norm_num) (by norm_num)
  rw [h]
  norm_num

theorem fl_two : fl 2 = some 2 := by
  have h := fl_eval 2 1 (2 ^ 52) (by norm_num) (by norm_num) (by norm_num)
    (by rw [abs_lt]; constructor <;> norm_num) (by norm_num)
  rw [h]
  norm_num

theorem fl_tiny : fl (6 / 10 ^ 6) = some (7083549724304468 / 2 ^ 70) := by
  have h := fl_eval (6 / 10 ^ 6) (-18) 7083549724304468 (by norm_num) (by norm_num)
    (by norm_num) (by rw [abs_lt]; constructor <;> norm_num) (by norm_num)
  rw [h]
  norm_num

theorem fl_tiny_twelfth :
    fl (7083549724304468 / 2 ^ 70 / 12) = some (4722366482869645 / 2 ^ 73) := by
  have h := fl_eval (7083549724304468 / 2 ^ 70 / 12) (-21) 4722366482869645 (by norm_num)
    (by norm_num) (by norm_num) (by rw [abs_lt]; constructor <;> norm_num) (by norm_num)
  rw [h]
  norm_num

theorem ut_entry_matches (nm h : Str) (hnm : nm ≠ [])
    (hlt : nm.all (fun c => !isLineTerminator c) = true) (hdec : isDecimal h = true) :
    hdMatch (nm ++ '(' :: 'U' :: 'T' :: ':' :: (h ++ [')'])) = none
    ∧ otMatch (nm ++ '(' :: 'U' :: 'T' :: ':' :: (h ++ [')'])) = none
    ∧ utMatch (nm ++ '(' :: 'U' :: 'T' :: ':' :: (h ++ [')'])) = some (nm, h) := by
  have ptO := parenTail_hours 'O' 'o' 'T' 't' (by decide) (by decide) (by decide) (by decide)
  have ptU := parenTail_hours 'U' 'u' 'T' 't' (by decide) (by decide) (by decide) (by decide)
  have hvp := isDecimal_no_paren h hdec
  have pU : '(' ∉ 'U' :: 'T' :: ':' :: (h ++ [')']) := by simp [hvp]
  refine ⟨?_, ?_, ?_⟩
  · unfold hdMatch
    rw [greedy_paren_none hdTail parenTail_hd _ nm [] pU (hdTail_hours_none 'U' 'T' h)]
    rfl
  · unfold otMatch
    apply greedy_paren_none _ ptO _ nm [] pU
    simp [hoursTail]
  · unfold utMatch
    exact greedy_paren_some _ ptU _ nm h pU
      (hoursTail_intro 'U' 'u' 'T' 't' 'U' 'T' h (Or.inl rfl) (Or.inl rfl) hdec) hnm hlt

/-- The credit of an entry `Name(UT:h)` in doubles: `parseFloat(h) / 12`. -/
theorem classifyEntryIeee_ut (nm h : Str) (hnm : nm ≠ [])
    (hlt : nm.all (fun c => !isLineTerminator c) = true) (hdec : isDecimal h = true) :
    classifyEntryIeee (nm ++ '(' :: 'U' :: 'T' :: ':' :: (h ++ [')']))
      = (parseFloatIeee h).bind (fun hours =>
          (fl (hours / 12)).map (fun inc => (jsTrim nm, inc))) := by
  obtain ⟨h1, h2, h3⟩ := ut_entry_matches nm h hnm hlt hdec
  simp only [classifyEntryIeee, h1, h2, h3]

theorem classifyEntryIeee_ut2 :
    classifyEntryIeee "Anna(UT:2)".toList
      = some ("Anna".toList, 6004799503160661 / 2 ^ 55) := by
  have e : "Anna(UT:2)".toList
      = "Anna".toList ++ '(' :: 'U' :: 'T' :: ':' :: ("2".toList ++ [')']) := rfl
  have h4 : jsTrim "Anna".toList = "Anna".toList := by decide
  have h5 : decimalValue "2".toList = 2 := by
    rw [decimalValue_eq]
    have a : natOfDigits ("2".toList.takeWhile Char.isDigit) = 2 := by decide
    have b : natOfDigits (("2".toList.dropWhile Char.isDigit).drop 1) = 0 := by decide
    have c : (("2".toList.dropWhile Char.isDigit).drop 1).length = 0 := by decide
    rw [a, b, c]
    norm_num
  rw [e, classifyEntryIeee_ut _ _ (by decide) (by decide) (by decide)]
  simp only [h4, parseFloatIeee, h5, fl_two, Option.bind_some, Option.some_bind,
    fl_two_twelfths, Option.map_some']

theorem dv_tiny : decimalValue "0.000006".toList = 6 / 10 ^ 6 := by
  rw [decimalValue_eq]
  have a : natOfDigits ("0.000006".toList.takeWhile Char.isDigit) = 0 := by decide
  have b : natOfDigits (("0.000006".toList.dropWhile Char.isDigit).drop 1) = 6 := by decide
  have c : (("0.000006".toList.dropWhile Char.isDigit).drop 1).length = 6 := by decide
  rw [a, b, c]
  norm_num

theorem shape_tiny :
    classifyEntryIeee ("Anna".toList ++ '(' :: 'U' :: 'T' :: ':' :: ("0.000006".toList ++ [')']))
      = (parseFloatIeee "0.000006".toList).bind (fun hours =>
          (fl (hours / 12)).map (fun inc => (jsTrim "Anna".toList, inc))) :=
  classifyEntryIeee_ut _ _ (by decide) (by decide) (by decide)

theorem classifyEntryIeee_tiny :
    classifyEntryIeee "Anna(UT:0.000006)".toList
      = some ("Anna".toList, 4722366482869645 / 2 ^ 73) := by
  have h4 : jsTrim "Anna".toList = "Anna".toList := by decide
  have e : "Anna(UT:0.000006)".toList
      = "Anna".toList ++ '(' :: 'U' :: 'T' :: ':' :: ("0.000006".toList ++ [')']) := rfl
  rw [e, shape_tiny, h4]
  unfold parseFloatIeee
  rw [dv_tiny, fl_tiny, Option.some_bind, fl_tiny_twelfth, Option.map_some']

theorem fl_double_tiny :
    fl (4722366482869645 / 2 ^ 73) = some (4722366482869645 / 2 ^ 73) := by
  have h := fl_eval (4722366482869645 / 2 ^ 73) (-21) 4722366482869645 (by norm_num)
    (by norm_num) (by norm_num) (by rw [abs_lt]; constructor <;> norm_num) (by norm_num)
  rw [h]
  norm_num

theorem fl_double_sixth :
    fl (6004799503160661 / 2 ^ 55) = some (6004799503160661 / 2 ^ 55) := by
  have h := fl_eval (6004799503160661 / 2 ^ 55) (-3) 6004799503160661 (by norm_num)
    (by norm_num) (by norm_num) (by rw [abs_lt]; constructor <;> norm_num) (by norm_num)
  rw [h]
  norm_num

/-- The first credit of a name: `0 + inc` is `inc`. -/
theorem creditAttendanceIeee_first (name : Str) (inc : ℚ) (hn : name ∉ objectProtoNames)
    (hfl : fl inc = some inc) :
    creditAttendanceIeee [] name inc = some [(name, AttVal.num inc)] := by
  unfold creditAttendanceIeee
  simp only [getOwn, if_neg hn, setOwn, if_true, zero_add, hfl, Option.map_some']

/-- A roster of the single entry `entry`, dated within the range, in doubles. -/
theorem attendanceCountsIeee_single (startDate endDate d : Int) (duties entry name : Str)
    (inc : ℚ) (hd : ¬ (d < startDate ∨ d > endDate)) (hi : innerDuties duties = entry)
    (he : entry ≠ []) (hp : rosterParts entry = [entry])
    (hc : classifyEntryIeee entry = some (name, inc)) (hne : name ≠ [])
    (hn : name ∉ objectProtoNames) (hfl : fl inc = some inc) :
    attendanceCountsIeee startDate endDate [⟨some d, duties⟩]
      = some [(name, AttVal.num inc)] := by
  unfold attendanceCountsIeee
  simp only [List.foldl, attendanceRowIeee, if_neg hd, hi, if_neg he, hp, creditEntryIeee,
    Option.some_bind, hc, if_pos hne]
  exact creditAttendanceIeee_first name inc hn hfl

theorem toFixed6_ut2 : toFixed6 (6004799503160661 / 2 ^ 55) = 166667 / 1000000 := by
  unfold toFixed6
  have h1 : ¬ ((6004799503160661 / 2 ^ 55 : ℚ) ≥ 10 ^ 21
      ∨ (6004799503160661 / 2 ^ 55 : ℚ) ≤ -(10 ^ 21)) := by norm_num
  have h2 : ¬ ((6004799503160661 / 2 ^ 55 : ℚ) < 0) := by norm_num
  rw [if_neg h1, if_neg h2]
  have f : Int.floor ((6004799503160661 / 2 ^ 55 : ℚ) * 10 ^ 6 + 1 / 2) = 166667 := by
    rw [Int.floor_eq_iff]
    constructor <;> norm_num
  rw [f]
  norm_num

theorem toFixed6_tiny : toFixed6 (4722366482869645 / 2 ^ 73) = 0 := by
  unfold toFixed6
  have h1 : ¬ ((4722366482869645 / 2 ^ 73 : ℚ) ≥ 10 ^ 21
      ∨ (4722366482869645 / 2 ^ 73 : ℚ) ≤ -(10 ^ 21)) := by norm_num
  have h2 : ¬ ((4722366482869645 / 2 ^ 73 : ℚ) < 0) := by norm_num
  rw [if_neg h1, if_neg h2]
  have f : Int.floor ((4722366482869645 / 2 ^ 73 : ℚ) * 10 ^ 6 + 1 / 2) = 0 := by
    rw [Int.floor_eq_iff]
    constructor <;> norm_num
  rw [f]
  norm_num

/-- C27: in the loop of `updateSalaryDisplay` the single value `attendance`, the
accumulated attendance `att` rounded to six decimals, is both the figure printed
in the breakdown and the factor of every pay term, for every value of `att`,
hence for every double. When `att` has at most six decimals the rounding
changes nothing and the base pay is `att * d1 + att * d2`. For a single `UT:2`
day the accumulated attendance is the double `2 / 12`, that is
6004799503160661 / 2^55 (1/6 in exact arithmetic); the figure is then 0.166667,
which differs from `att`, and the base pay is computed from it. For a single
`UT:0.000006` day the accumulated attendance is the double
4722366482869645 / 2^73, just below 0.0000005; the figure is then 0 and so is the
base pay. -/
theorem C27_attendance_rounded (numStr : ℚ → Str) (counts : JsObj AttVal) (tbl : EmpTable)
    (empName : Str) (ks : List Str) (att : ℚ) (info : EmpInfo) :
    (getOwn counts empName = some (AttVal.num att) →
      lookupInfo tbl empName = InfoLookup.found info →
      salaryRowsAux numStr counts tbl (empName :: ks)
        = (salaryRowsAux numStr counts tbl ks).map
            (fun out => salaryLine numStr empName info (toFixed6 att) :: out))
    ∧ (∀ k : ℤ, att = (k : ℚ) / 10 ^ 6 →
        toFixed6 att = att
        ∧ sumDaily info (toFixed6 att) = att * info.daily1 + att * info.daily2)
    ∧ attendanceCountsIeee 1 3
        [⟨some 2, "duties=".toList ++ dq :: ("Anna(UT:2)".toList ++ [dq])⟩]
        = some [("Anna".toList, AttVal.num (6004799503160661 / 2 ^ 55))]
    ∧ (att = 6004799503160661 / 2 ^ 55 ∨ att = 1 / 6 →
        toFixed6 att = 166667 / 1000000
        ∧ toFixed6 att ≠ att
        ∧ sumDaily info (toFixed6 att)
            = 166667 / 1000000 * info.daily1 + 166667 / 1000000 * info.daily2)
    ∧ attendanceCountsIeee 1 3
        [⟨some 2, "duties=".toList ++ dq :: ("Anna(UT:0.000006)".toList ++ [dq])⟩]
        = some [("Anna".toList, AttVal.num (4722366482869645 / 2 ^ 73))]
    ∧ (att = 4722366482869645 / 2 ^ 73 →
        toFixed6 att = 0 ∧ sumDaily info (toFixed6 att) = 0) := by
  refine ⟨?_, ?_, ?_, ?_, ?_, ?_⟩
  · intro hc hi
    rw [salaryRowsAux, hc]
    simp only [hi]
  · intro k hk
    have h := toFixed6_of_int k
    rw [← hk] at h
    refine ⟨h, ?_⟩
    rw [h]
    rfl
  · exact attendanceCountsIeee_single 1 3 2 _ "Anna(UT:2)".toList "Anna".toList _
      (by decide) (by decide) (by decide) (by decide) classifyEntryIeee_ut2 (by decide)
      (by decide) fl_double_sixth
  · intro h
    have h6 : toFixed6 att = 166667 / 1000000 := by
      rcases h with h | h
      · rw [h, toFixed6_ut2]
      · rw [h, toFixed6_sixth]
    refine ⟨h6, ?_, ?_⟩
    · rw [h6]
      rcases h with h | h <;> rw [h] <;> norm_num
    · rw [h6]
      rfl
  · exact attendanceCountsIeee_single 1 3 2 _ "Anna(UT:0.000006)".toList "Anna".toList _
      (by decide) (by decide) (by decide) (by decide) classifyEntryIeee_tiny (by decide)
      (by decide) fl_double_tiny
  · intro h
    have h0 : toFixed6 att = 0 := by rw [h, toFixed6_tiny]
    refine ⟨h0, ?_⟩
    rw [h0]
    unfold sumDaily totalD1 totalD2
    ring

/-- C27 for an employee with the rates 300 and 60: at the accumulated attendance
5/4 (one `OT:3` day) nothing is rounded; at the accumulated attendance of one
`UT:0.000006` day the row written shows 0 days. -/
theorem C27_attendance_rounded_witness :
    (toFixed6 (5 / 4) = 5 / 4
      ∧ sumDaily ⟨300, 60, 0, 0, 0, 0, 0, 0, 0, 0, 0⟩ (toFixed6 (5 / 4))
          = 5 / 4 * (300 : ℚ) + 5 / 4 * 60)
    ∧ salaryRowsAux intStr [("Anna".toList, AttVal.num (4722366482869645 / 2 ^ 73))]
        ⟨[("Anna".toList, ⟨300, 60, 0, 0, 0, 0, 0, 0, 0, 0, 0⟩)], none⟩ ["Anna".toList]
      = some [salaryLine intStr "Anna".toList ⟨300, 60, 0, 0, 0, 0, 0, 0, 0, 0, 0⟩ 0] := by
  refine ⟨(C27_attendance_rounded intStr [("Anna".toList, AttVal.num (5 / 4))]
    ⟨[("Anna".toList, ⟨300, 60, 0, 0, 0, 0, 0, 0, 0, 0, 0⟩)], none⟩ "Anna".toList [] (5 / 4)
    ⟨300, 60, 0, 0, 0, 0, 0, 0, 0, 0, 0⟩).2.1 1250000 (by norm_num), ?_⟩
  have h := C27_attendance_rounded intStr
    [("Anna".toList, AttVal.num (4722366482869645 / 2 ^ 73))]
    ⟨[("Anna".toList, ⟨300, 60, 0, 0, 0, 0, 0, 0, 0, 0, 0⟩)], none⟩ "Anna".toList []
    (4722366482869645 / 2 ^ 73) ⟨300, 60, 0, 0, 0, 0, 0, 0, 0, 0, 0⟩
  rw [h.1 (by simp [getOwn]) (by simp [lookupInfo, getOwn]), (h.2.2.2.2.2 rfl).1]
  rfl

end Moonlit
